import Mathlib

/-!
# SegmentBase addressing: `segment_base_sequence.cc`

A shallow embedding of `src/dash/segment_base_sequence.cc` and the properties of
its sidx parser, index locator, sequence and iterator.

Conventions of the embedding.

* Machine integers are natural numbers, reduced `% 2 ^ w` wherever the C++
  arithmetic is done in a `w`-bit unsigned type.
* A finite `double` is the rational number it denotes.  The definitions named
  after the program's functions compute every quotient, sum and difference
  exactly; the definitions of the `Binary64` namespace are the same code with
  every `double` operation rounded to the nearest binary64 value, as the program
  computes it.  Which entry a time at a segment boundary belongs to depends on
  the rounding, so the properties of lookups inside and outside the table's
  intervals are stated of the rounded code.
* The only division is `ToSeconds`, whose divisor is the box's `timescale`; for
  `timescale = 0` the C++ yields an infinity or a NaN whereas `ℚ` yields `0`,
  so statements about timestamps assume `0 < timescale`.
* `std::string` is `List Char`; a `std::vector<uint8_t>` is `List Byte`, and the
  read cursor `const uint8_t*&` is the list of the bytes not yet read.
* A run that does not return normally is an `Except.error`: a read past the end
  of the vector, a failed `assert`, an exception of `std::stoul`.
* The collaborators declared outside this file (URL resolution, the network
  fetch, the width of `unsigned long`) are the fields of `Env`; the constants of
  the headers (`kEps`, the invalid-value sentinels) are parameters.
-/

namespace SegmentBase

/-! ## Data model -/

/-- One element of a `std::vector<uint8_t>`. -/
abbrev Byte := Fin 256

/-- The ways a run stops without returning normally. -/
inductive Fault where
  /-- A read through the cursor past the end of the vector (undefined in C++). -/
  | outOfBounds
  /-- The condition of an `assert` is false: the process aborts. -/
  | assertFailed
  /-- Thrown by `std::stoul` as `std::invalid_argument`: no digits to convert. -/
  | invalidArgument
  /-- Thrown by `std::stoul` as `std::out_of_range`: the value exceeds `ULONG_MAX`. -/
  | outOfRange
  /-- A member is called through a null `sequence_` pointer. -/
  | nullDereference
  /-- Not a behaviour of the program: the step budget given to the model of
  the `while (true)` loop ran out before the loop returned. -/
  | outOfFuel
  deriving DecidableEq, Repr

/-- The record `SegmentIndexEntry` of the header: `{timestamp, duration, byte_offset, byte_size}`. -/
structure SegmentIndexEntry where
  timestamp : ℚ
  duration : ℚ
  byte_offset : Nat
  byte_size : Nat
  deriving DecidableEq

/-- A URL of the manifest (`dash::mpd::IURLType`), kept as its text. -/
abbrev URLType := List Char

/-- A base URL of the manifest (`dash::mpd::IBaseUrl`), kept as its text. -/
abbrev BaseUrl := List Char

/-- The segment descriptor (`dash::mpd::ISegment`): the resource it names, its
byte-range string and its has-byte-range flag.  This file only ever calls
`Range(...)` and `HasByteRange(...)` on it. -/
structure Segment where
  resource : List Char
  range : List Char
  hasByteRange : Bool
  deriving DecidableEq

/-- The part of `dash::mpd::ISegmentBase` this file reads. -/
structure SegmentBaseInfo where
  GetInitialization : Option URLType
  GetRepresentationIndex : Option URLType
  GetIndexRange : List Char

/-- The part of `RepresentationDescription` the constructor reads. -/
structure RepresentationDescription where
  base_urls : List BaseUrl
  segment_base : SegmentBaseInfo

/-- The collaborators of this file that are declared elsewhere. -/
structure Env where
  /-- The call `IURLType::ToSegment(base_urls)`; `none` is a null pointer. -/
  ToSegment : URLType → List BaseUrl → Option Segment
  /-- The call `IBaseUrl::ToMediaSegment(base_urls)`; `none` is a null pointer. -/
  ToMediaSegment : BaseUrl → List BaseUrl → Option Segment
  /-- Modelled from the spec: `DownloadSegment` of `util.h` is missing; the spec
  gives `fetch(descriptor) -> bytes` where an empty result signals failure.  The
  first argument is the number of fetches made before this one, so that the
  network may answer the same descriptor differently each time. -/
  DownloadSegment : Nat → Segment → List Byte
  /-- The width of `unsigned long` in bits (32 or 64 by ABI), the return type
  of `std::stoul`. -/
  ulongBits : Nat

/-- The object `SegmentBaseSequence`: `this` stands for its address. -/
structure SegmentBaseSequence where
  this : Nat
  base_urls_ : List BaseUrl
  segment_base_ : SegmentBaseInfo
  segment_index_ : List SegmentIndexEntry
  average_segment_duration_ : ℚ

/-- The object `SegmentBaseIterator`: `sequence_` is the sequence pointed to
(`none` for a null pointer), `current_index_` a `uint32_t`. -/
structure SegmentBaseIterator where
  sequence_ : Option SegmentBaseSequence
  current_index_ : Nat

/-! ## Anonymous namespace helpers -/

/-- The helper `MakeEntry`. -/
def MakeEntry (timestamp duration : ℚ) (offset size : Nat) : SegmentIndexEntry :=
  { timestamp := timestamp, duration := duration, byte_offset := offset, byte_size := size }

/-- The helper `ToSeconds(pts, timescale)` in exact arithmetic: the quotient of the two
values, which `Binary64.ToSeconds` rounds as the program does. -/
def ToSeconds (pts timescale : Nat) : ℚ :=
  (pts : ℚ) / (timescale : ℚ)

/-- The loop of `NextUnsigned<T>`: `out <<= 8; out |= *stream; ++stream`, with
`out` a `bits`-bit unsigned value. -/
def NextUnsigned.loop (bits : Nat) : Nat → Nat → List Byte → Except Fault (Nat × List Byte)
  | 0, out, stream => .ok (out, stream)
  | _ + 1, _, [] => .error .outOfBounds
  | k + 1, out, b :: stream => NextUnsigned.loop bits k (((out <<< 8) % 2 ^ bits) ||| b.val) stream

/-- The reader `NextUnsigned<T>(stream)` for a `T` of `size` bytes: the value read and the
advanced cursor.  The `uint8_t` specialisation `*stream++` is the case `size = 1`. -/
def NextUnsigned (size : Nat) (stream : List Byte) : Except Fault (Nat × List Byte) :=
  NextUnsigned.loop (8 * size) size 0 stream

/-- The helper `FourCC(a, b, c, d)`. -/
def FourCC (a b c d : Char) : Nat :=
  [a, b, c, d].foldl (fun ret code => ((ret <<< 8) % 2 ^ 32) ||| (code.toNat % 256)) 0

/-- The text `std::to_string` of an unsigned value, and `operator<<` of one: its decimal digits. -/
def to_string (n : Nat) : List Char :=
  Nat.toDigits 10 n

/-- The helper `ToHttpRange(data_begin, data_size)`, both `uint32_t`. -/
def ToHttpRange (data_begin data_size : Nat) : List Char :=
  to_string data_begin ++ ['-'] ++ to_string ((data_begin + data_size + 2 ^ 32 - 1) % 2 ^ 32)

/-- The search `std::string::find("-")`: the index of the first `-`, `none` for `npos`. -/
def find (range : List Char) : Option Nat :=
  if range.indexOf '-' < range.length then some (range.indexOf '-') else none

/-- The predicate `isspace` in the C locale. -/
def isspace (c : Char) : Bool :=
  c.toNat = 32 || (9 ≤ c.toNat && c.toNat ≤ 13)

/-- The value of a run of decimal digits. -/
def digitsValue (digits : List Char) : Nat :=
  digits.foldl (fun acc c => 10 * acc + (c.toNat - 48)) 0

/-- The conversion `std::stoul(str)` in base 10 (`strtoul`): leading white space is skipped, one
sign is accepted, the longest run of digits is converted and what follows is
ignored; no digit throws `std::invalid_argument`, a value above `ULONG_MAX`
throws `std::out_of_range`, a minus sign negates in `unsigned long`. -/
def stoul (ulongBits : Nat) (str : List Char) : Except Fault Nat :=
  let s := str.dropWhile isspace
  let signed : Bool × List Char :=
    match s with
    | c :: r => if c = '-' then (true, r) else if c = '+' then (false, r) else (false, s)
    | [] => (false, s)
  let digits := signed.2.takeWhile Char.isDigit
  if digits.isEmpty then .error .invalidArgument
  else if 2 ^ ulongBits ≤ digitsValue digits then .error .outOfRange
  else .ok (if signed.1 then (2 ^ ulongBits - digitsValue digits) % 2 ^ ulongBits
            else digitsValue digits)

/-- The factory `MakeIterator<SegmentBaseIterator>(this, index)`: the index becomes a `uint32_t`. -/
def MakeIterator (seq : SegmentBaseSequence) (index : Nat) : SegmentBaseIterator :=
  { sequence_ := some seq, current_index_ := index % 2 ^ 32 }

/-! ## `SegmentBaseSequence` -/

/-- The constructor's member initialisers: the table is empty and the average `0.0`. -/
def SegmentBaseSequence.init (this : Nat) (desc : RepresentationDescription) :
    SegmentBaseSequence :=
  { this := this, base_urls_ := desc.base_urls, segment_base_ := desc.segment_base,
    segment_index_ := [], average_segment_duration_ := 0 }

/-- The member `Begin()`. -/
def Begin (seq : SegmentBaseSequence) : SegmentBaseIterator :=
  MakeIterator seq 0

/-- The member `End()`. -/
def End (seq : SegmentBaseSequence) : SegmentBaseIterator :=
  MakeIterator seq seq.segment_index_.length

/-- The loop of `MediaSegmentForTime`, from counter `i`: `some j` when it returns
at entry `j`, `none` when it is left with `i < size()` false.  The counter is a
`uint32_t`, so `++i` wraps; `fuel` bounds the number of iterations modelled. -/
def MediaSegmentForTime.loop (kEps : ℚ) (segment_index_ : List SegmentIndexEntry) (time : ℚ) :
    Nat → Nat → Except Fault (Option Nat)
  | 0, _ => .error .outOfFuel
  | fuel + 1, i =>
    if h : i < segment_index_.length then
      if (segment_index_[i]).timestamp - kEps ≤ time ∧
          time < (segment_index_[i]).timestamp + (segment_index_[i]).duration then
        .ok (some i)
      else MediaSegmentForTime.loop kEps segment_index_ time fuel ((i + 1) % 2 ^ 32)
    else .ok none

/-- The member `MediaSegmentForTime(time)`. -/
def MediaSegmentForTime (kEps : ℚ) (fuel : Nat) (seq : SegmentBaseSequence) (time : ℚ) :
    Except Fault SegmentBaseIterator :=
  match MediaSegmentForTime.loop kEps seq.segment_index_ time fuel 0 with
  | .error e => .error e
  | .ok (some i) => .ok (MakeIterator seq i)
  | .ok none => .ok (End seq)

/-- The member `GetBaseSegment()`. -/
def GetBaseSegment (env : Env) (seq : SegmentBaseSequence) : Option Segment :=
  match seq.segment_base_.GetInitialization with
  | some url => env.ToSegment url seq.base_urls_
  | none =>
    match seq.base_urls_.getLast? with
    | none => none
    | some base_url => env.ToMediaSegment base_url seq.base_urls_.dropLast

/-- The member `GetInitSegment()`. -/
def GetInitSegment (env : Env) (seq : SegmentBaseSequence) : Except Fault (Option Segment) :=
  match seq.segment_base_.GetInitialization with
  | some url => .ok (env.ToSegment url seq.base_urls_)
  | none =>
    let range := seq.segment_base_.GetIndexRange
    match find range with
    | none => .ok none
    | some pos =>
      match stoul env.ulongBits (range.take pos) with
      | .error e => .error e
      | .ok v =>
        let sidx_beg := v % 2 ^ 32
        if sidx_beg = 0 then .ok none
        else
          match GetBaseSegment env seq with
          | none => .ok none
          | some segment =>
            .ok (some { segment with
              range := ['0', '-'] ++ to_string (sidx_beg - 1), hasByteRange := true })

/-- The member `GetBitstreamSwitchingSegment()`. -/
def GetBitstreamSwitchingSegment (_seq : SegmentBaseSequence) : Option Segment :=
  none

/-- The member `GetRepresentationIndexSegment()`. -/
def GetRepresentationIndexSegment (env : Env) (seq : SegmentBaseSequence) : Option Segment :=
  match seq.segment_base_.GetRepresentationIndex with
  | none => none
  | some url => env.ToSegment url seq.base_urls_

/-- The member `GetIndexSegment()`. -/
def GetIndexSegment (env : Env) (seq : SegmentBaseSequence) : Option Segment :=
  if seq.segment_base_.GetIndexRange.isEmpty then none
  else
    match GetBaseSegment env seq with
    | none => none
    | some segment =>
      some { segment with range := seq.segment_base_.GetIndexRange, hasByteRange := true }

/-- The member `AverageSegmentDuration()`. -/
def AverageSegmentDuration (seq : SegmentBaseSequence) : ℚ :=
  seq.average_segment_duration_

/-- The reference loop of `ParseSidx`, `for (uint16_t i = ...; i < reference_count; ++i)`,
with `n` iterations left (`n = reference_count - i`, so `++i` never wraps). -/
def ParseSidx.loop (timescale : Nat) :
    Nat → Nat → SegmentBaseSequence → Nat → Nat → List Byte → Except Fault SegmentBaseSequence
  | 0, _, seq, _, _, _ => .ok seq
  | n + 1, i, seq, pts, offset, data => do
    let (ref_size, data) ← NextUnsigned 4 data
    let ref_size := ref_size &&& 0x7FFFFFFF
    let (duration, data) ← NextUnsigned 4 data
    let (_, data) ← NextUnsigned 4 data
    let segment_duration := ToSeconds duration timescale
    let average := seq.average_segment_duration_ +
      (segment_duration - seq.average_segment_duration_) / ((i : ℚ) + 1)
    let entry := MakeEntry (ToSeconds pts timescale) segment_duration offset ref_size
    ParseSidx.loop timescale n (i + 1)
      { seq with segment_index_ := seq.segment_index_ ++ [entry],
                 average_segment_duration_ := average }
      ((pts + duration) % 2 ^ 64) ((offset + ref_size) % 2 ^ 64) data

/-- The member `ParseSidx(sidx, sidx_begin, sidx_end)`; `sidx_begin` and `sidx_end`
are `uint64_t`. -/
def ParseSidx (seq : SegmentBaseSequence) (sidx : List Byte) (sidx_begin sidx_end : Nat) :
    Except Fault SegmentBaseSequence := do
  let data := sidx
  let (sidx_size, data) ← NextUnsigned 4 data
  let (_, data) ← NextUnsigned 4 data
  let (version, data) ← NextUnsigned 1 data
  let (_, data) ← NextUnsigned 1 data
  let (_, data) ← NextUnsigned 1 data
  let (_, data) ← NextUnsigned 1 data
  let (_, data) ← NextUnsigned 4 data
  if ¬ (sidx_end ≥ (sidx_begin + sidx_size + 2 ^ 64 - 1) % 2 ^ 64) then
    throw Fault.assertFailed
  let (timescale, data) ← NextUnsigned 4 data
  let pts := 0
  let offset := (sidx_end + 1) % 2 ^ 64
  let (earliest, data) ← if version = 0 then NextUnsigned 4 data else NextUnsigned 8 data
  let pts := (pts + earliest) % 2 ^ 64
  let (first_offset, data) ← if version = 0 then NextUnsigned 4 data else NextUnsigned 8 data
  let offset := (offset + first_offset) % 2 ^ 64
  let seq := { seq with segment_index_ := [] }
  let (_, data) ← NextUnsigned 2 data
  let (reference_count, data) ← NextUnsigned 2 data
  let seq := { seq with average_segment_duration_ := 0 }
  ParseSidx.loop timescale reference_count 0 seq pts offset data

/-- The size `kMovAtomBaseDataSize` of a box header. -/
def kMovAtomBaseDataSize : Nat := 8

/-- The `while (true)` loop of `FindIndexSegmentInMp4`; `fetches` counts the
downloads made so far and is returned with the result. -/
def FindIndexSegmentInMp4.loop (env : Env) :
    Nat → Nat → Segment → Nat → Bool → Except Fault (Option Segment × Nat)
  | 0, _, _, _, _ => .error .outOfFuel
  | fuel + 1, fetches, segment, mov_atom_begin, is_mp4 =>
    let segment := { segment with
      range := ToHttpRange mov_atom_begin kMovAtomBaseDataSize, hasByteRange := true }
    let data := env.DownloadSegment fetches segment
    if data.isEmpty then .ok (none, fetches + 1)
    else
      match NextUnsigned 4 data with
      | .error e => .error e
      | .ok (size, data_ptr) =>
        match NextUnsigned 4 data_ptr with
        | .error e => .error e
        | .ok (four_cc, _) =>
          if !is_mp4 && four_cc != FourCC 'f' 't' 'y' 'p' then .ok (none, fetches + 1)
          else if four_cc = FourCC 'f' 't' 'y' 'p' then
            FindIndexSegmentInMp4.loop env fuel (fetches + 1) segment
              ((mov_atom_begin + size) % 2 ^ 32) true
          else if four_cc = FourCC 's' 'i' 'd' 'x' then
            .ok (some { segment with
              range := ToHttpRange mov_atom_begin size, hasByteRange := true }, fetches + 1)
          else
            FindIndexSegmentInMp4.loop env fuel (fetches + 1) segment
              ((mov_atom_begin + size) % 2 ^ 32) is_mp4

/-- The member `FindIndexSegmentInMp4()`, with the number of downloads it made. -/
def FindIndexSegmentInMp4 (env : Env) (fuel : Nat) (seq : SegmentBaseSequence) :
    Except Fault (Option Segment × Nat) :=
  match GetBaseSegment env seq with
  | none => .ok (none, 0)
  | some segment => FindIndexSegmentInMp4.loop env fuel 0 segment 0 false

/-- The first three statements of `LoadIndexSegment`: the located descriptor
and the number of downloads made to find it. -/
def LoadIndexSegment.locate (env : Env) (fuel : Nat) (seq : SegmentBaseSequence) :
    Except Fault (Option Segment × Nat) :=
  match GetRepresentationIndexSegment env seq with
  | some segment => .ok (some segment, 0)
  | none =>
    match GetIndexSegment env seq with
    | some segment => .ok (some segment, 0)
    | none => FindIndexSegmentInMp4 env fuel seq

/-- The member `LoadIndexSegment()`. -/
def LoadIndexSegment (env : Env) (fuel : Nat) (seq : SegmentBaseSequence) :
    Except Fault SegmentBaseSequence :=
  match LoadIndexSegment.locate env fuel seq with
  | .error e => .error e
  | .ok (none, _) => .ok seq
  | .ok (some segment, fetches) =>
    let data := env.DownloadSegment fetches segment
    if data.isEmpty then .ok seq
    else
      let range := segment.range
      match find range with
      | none => .ok seq
      | some pos =>
        match stoul env.ulongBits (range.take pos) with
        | .error e => .error e
        | .ok b =>
          let sidx_beg := b % 2 ^ 32
          match stoul env.ulongBits (range.drop (pos + 1)) with
          | .error e => .error e
          | .ok e =>
            let sidx_end := e % 2 ^ 32
            ParseSidx seq data sidx_beg sidx_end

/-- The constructor `SegmentBaseSequence(desc, uint32_t)`. -/
def SegmentBaseSequence.construct (env : Env) (fuel : Nat) (this : Nat)
    (desc : RepresentationDescription) : Except Fault SegmentBaseSequence :=
  LoadIndexSegment env fuel (SegmentBaseSequence.init this desc)

/-- The member `Duration(segment)`; `segment` is a `uint32_t`. -/
def Duration (kInvalidSegmentDuration : ℚ) (seq : SegmentBaseSequence) (segment : Nat) : ℚ :=
  if h : segment < seq.segment_index_.length then (seq.segment_index_[segment]).duration
  else kInvalidSegmentDuration

/-- The member `Timestamp(segment)`; `segment` is a `uint32_t`. -/
def Timestamp (kInvalidSegmentTimestamp : ℚ) (seq : SegmentBaseSequence) (segment : Nat) : ℚ :=
  if h : segment < seq.segment_index_.length then (seq.segment_index_[segment]).timestamp
  else kInvalidSegmentTimestamp

/-! ## `SegmentBaseIterator` -/

/-- The default constructor: a null sequence and index `0`. -/
def SegmentBaseIterator.default : SegmentBaseIterator :=
  { sequence_ := none, current_index_ := 0 }

/-- The member `NextSegment()`: `++current_index_` on a `uint32_t`. -/
def SegmentBaseIterator.NextSegment (it : SegmentBaseIterator) : SegmentBaseIterator :=
  { it with current_index_ := (it.current_index_ + 1) % 2 ^ 32 }

/-- The member `PrevSegment()`: `--current_index_` on a `uint32_t`. -/
def SegmentBaseIterator.PrevSegment (it : SegmentBaseIterator) : SegmentBaseIterator :=
  { it with current_index_ := (it.current_index_ + 2 ^ 32 - 1) % 2 ^ 32 }

/-- The member `Get()`. -/
def SegmentBaseIterator.Get (env : Env) (it : SegmentBaseIterator) :
    Except Fault (Option Segment) :=
  match it.sequence_ with
  | none => .error .nullDereference
  | some seq =>
    if h : it.current_index_ < seq.segment_index_.length then
      let ent := seq.segment_index_[it.current_index_]
      let oss := to_string ent.byte_offset ++ ['-'] ++
        to_string ((ent.byte_offset + ent.byte_size + 2 ^ 64 - 1) % 2 ^ 64)
      match GetBaseSegment env seq with
      | none => .ok none
      | some segment => .ok (some { segment with range := oss, hasByteRange := true })
    else .ok none

/-- The comparison `operator==`: the same sequence object and the same index. -/
def SegmentBaseIterator.eq (it rhs : SegmentBaseIterator) : Bool :=
  it.sequence_.map (fun s => s.this) == rhs.sequence_.map (fun s => s.this) &&
    it.current_index_ == rhs.current_index_

/-- The members `Equals` and `EqualsTo`, both of which end in `operator==`. -/
def SegmentBaseIterator.Equals (it other : SegmentBaseIterator) : Bool :=
  SegmentBaseIterator.eq other it

/-- The member `SegmentDuration(sequence)`. -/
def SegmentBaseIterator.SegmentDuration (kInvalidSegmentDuration : ℚ)
    (it : SegmentBaseIterator) (sequence : SegmentBaseSequence) : ℚ :=
  match it.sequence_ with
  | none => kInvalidSegmentDuration
  | some seq =>
    if seq.this ≠ sequence.this then kInvalidSegmentDuration
    else Duration kInvalidSegmentDuration seq it.current_index_

/-- The member `SegmentTimestamp(sequence)`. -/
def SegmentBaseIterator.SegmentTimestamp (kInvalidSegmentTimestamp : ℚ)
    (it : SegmentBaseIterator) (sequence : SegmentBaseSequence) : ℚ :=
  match it.sequence_ with
  | none => kInvalidSegmentTimestamp
  | some seq =>
    if seq.this ≠ sequence.this then kInvalidSegmentTimestamp
    else Timestamp kInvalidSegmentTimestamp seq it.current_index_

/-! ## The layout of a sidx buffer, by byte position

The parser reads through a cursor; the definitions below name the same values by
their position in the buffer.  `ParseSidx_eq` and `ParseSidx_loop_eq` prove that
the parser computes exactly these. -/

/-- The big-endian value of a run of bytes. -/
def beValue (bytes : List Byte) : Nat :=
  bytes.foldl (fun acc b => acc * 256 + b.val) 0

/-- The box `size` field: bytes 0-3. -/
def sidxSize (sidx : List Byte) : Nat :=
  beValue (sidx.take 4)

/-- The `version` byte: byte 8. -/
def sidxVersion (sidx : List Byte) : Nat :=
  beValue ((sidx.drop 8).take 1)

/-- The `timescale` field: bytes 16-19. -/
def sidxTimescale (sidx : List Byte) : Nat :=
  beValue ((sidx.drop 16).take 4)

/-- The `earliest_presentation_time` field: bytes 20-23 in version 0, 20-27 otherwise. -/
def sidxEarliest (sidx : List Byte) : Nat :=
  if sidxVersion sidx = 0 then beValue ((sidx.drop 20).take 4)
  else beValue ((sidx.drop 20).take 8)

/-- The `first_offset` field: bytes 24-27 in version 0, 28-35 otherwise. -/
def sidxFirstOffset (sidx : List Byte) : Nat :=
  if sidxVersion sidx = 0 then beValue ((sidx.drop 24).take 4)
  else beValue ((sidx.drop 28).take 8)

/-- The number of bytes before the first reference: 32 in version 0, 40 otherwise. -/
def sidxHeaderLength (sidx : List Byte) : Nat :=
  if sidxVersion sidx = 0 then 32 else 40

/-- The `reference_count` field: the last two bytes of the header. -/
def sidxReferenceCount (sidx : List Byte) : Nat :=
  beValue ((sidx.drop (sidxHeaderLength sidx - 2)).take 2)

/-- The first 32-bit field of reference `k` of the reference area `refs`. -/
def refField (refs : List Byte) (k : Nat) : Nat :=
  beValue ((refs.drop (12 * k)).take 4)

/-- The referenced size of reference `k`: the low 31 bits of its first field. -/
def refSize (refs : List Byte) (k : Nat) : Nat :=
  refField refs k % 2 ^ 31

/-- The `subsegment_duration` of reference `k`: its second 32-bit field. -/
def refDuration (refs : List Byte) (k : Nat) : Nat :=
  beValue ((refs.drop (12 * k + 4)).take 4)

/-- The running `pts` when reference `k` is reached. -/
def ptsAt (pts : Nat) (refs : List Byte) (k : Nat) : Nat :=
  (pts + ∑ j in Finset.range k, refDuration refs j) % 2 ^ 64

/-- The running `offset` when reference `k` is reached. -/
def offsetAt (offset : Nat) (refs : List Byte) (k : Nat) : Nat :=
  (offset + ∑ j in Finset.range k, refSize refs j) % 2 ^ 64

/-- The entry pushed for reference `k`. -/
def entryAt (timescale pts offset : Nat) (refs : List Byte) (k : Nat) : SegmentIndexEntry :=
  MakeEntry (ToSeconds (ptsAt pts refs k) timescale) (ToSeconds (refDuration refs k) timescale)
    (offsetAt offset refs k) (refSize refs k)

/-- The running average after `n` more references, the next one being the `i`-th. -/
def averageAfter (timescale : Nat) : Nat → Nat → ℚ → List Byte → ℚ
  | 0, _, average, _ => average
  | n + 1, i, average, refs =>
    averageAfter timescale n (i + 1)
      (average + (ToSeconds (refDuration refs 0) timescale - average) / ((i : ℚ) + 1))
      (refs.drop 12)

/-- The table `ParseSidx` builds from an accepted buffer fetched from a range ending at
`sidx_end`. -/
def sidxTable (sidx : List Byte) (sidx_end : Nat) : List SegmentIndexEntry :=
  (List.range (sidxReferenceCount sidx)).map
    (entryAt (sidxTimescale sidx) (sidxEarliest sidx % 2 ^ 64)
      (((sidx_end + 1) % 2 ^ 64 + sidxFirstOffset sidx) % 2 ^ 64)
      (sidx.drop (sidxHeaderLength sidx)))

/-- The condition of the scan of `MediaSegmentForTime` at entry `i`. -/
def Covers (kEps : ℚ) (table : List SegmentIndexEntry) (time : ℚ) (i : Nat) : Prop :=
  ∃ h : i < table.length,
    (table[i]).timestamp - kEps ≤ time ∧ time < (table[i]).timestamp + (table[i]).duration

/-! ## Concrete inputs -/

/-- A manifest with one base URL, no initialization URL, no representation index and
the explicit index range `100-131`. -/
def scenarioDescription : RepresentationDescription :=
  { base_urls := ["http://example.com/media.mp4".toList],
    segment_base :=
      { GetInitialization := none, GetRepresentationIndex := none,
        GetIndexRange := "100-131".toList } }

/-- The sequence object of `scenarioDescription` before its index is loaded. -/
def scenarioSequence : SegmentBaseSequence :=
  SegmentBaseSequence.init 1 scenarioDescription

/-- The version-0 box of Scenario A, 56 bytes long, with `size` as the low byte of its
size field: timescale 1000, earliest presentation time 0, first offset 0 and two
references of size 1000, duration 2000 and SAP field 0. -/
def sidxScenarioA (size : Byte) : List Byte :=
  [0, 0, 0, size, 115, 105, 100, 120, 0, 0, 0, 0, 0, 0, 0, 1,
   0, 0, 3, 232, 0, 0, 0, 0, 0, 0, 0, 0, 0, 0, 0, 2,
   0, 0, 3, 232, 0, 0, 7, 208, 0, 0, 0, 0,
   0, 0, 3, 232, 0, 0, 7, 208, 0, 0, 0, 0]

/-- A version-1 box, 64 bytes long, whose `first_offset` is `2 ^ 64 - 256`: timescale
1000, earliest presentation time 0 and two references of size 1000 and duration 2000. -/
def sidxWrapping : List Byte :=
  [0, 0, 0, 64, 115, 105, 100, 120, 1, 0, 0, 0, 0, 0, 0, 1,
   0, 0, 3, 232, 0, 0, 0, 0, 0, 0, 0, 0,
   255, 255, 255, 255, 255, 255, 255, 0, 0, 0, 0, 2,
   0, 0, 3, 232, 0, 0, 7, 208, 0, 0, 0, 0,
   0, 0, 3, 232, 0, 0, 7, 208, 0, 0, 0, 0]

/-- The sequence of `scenarioDescription` holding the table of Scenario A. -/
def scenarioLoaded : SegmentBaseSequence :=
  { scenarioSequence with
    segment_index_ := [MakeEntry 0 2 132 1000, MakeEntry 2 2 1132 1000],
    average_segment_duration_ := 2 }

/-- A version-1 box, 64 bytes long, whose `earliest_presentation_time` is
`2 ^ 64 - 4096`: timescale 1, first offset 0 and two references of size 1000 and
durations 8192 and 4096.  Every timestamp and duration of its table is a whole number
that a `double` holds exactly. -/
def sidxPtsWrapping : List Byte :=
  [0, 0, 0, 64, 115, 105, 100, 120, 1, 0, 0, 0, 0, 0, 0, 1,
   0, 0, 0, 1, 255, 255, 255, 255, 255, 255, 240, 0,
   0, 0, 0, 0, 0, 0, 0, 0, 0, 0, 0, 2,
   0, 0, 3, 232, 0, 0, 32, 0, 0, 0, 0, 0,
   0, 0, 3, 232, 0, 0, 16, 0, 0, 0, 0, 0]

/-- The box of Scenario A with size field 56 and the top bit of the first reference's
first field set: that field is `0x800003E8`. -/
def sidxNested : List Byte :=
  [0, 0, 0, 56, 115, 105, 100, 120, 0, 0, 0, 0, 0, 0, 0, 1,
   0, 0, 3, 232, 0, 0, 0, 0, 0, 0, 0, 0, 0, 0, 0, 2,
   128, 0, 3, 232, 0, 0, 7, 208, 0, 0, 0, 0,
   0, 0, 3, 232, 0, 0, 7, 208, 0, 0, 0, 0]

/-- The descriptor the base URL of `scenarioDescription` resolves to. -/
def scenarioSegment : Segment :=
  { resource := "http://example.com/media.mp4".toList, range := [], hasByteRange := false }

/-- An environment in which every base URL resolves to a descriptor of itself, no
other URL resolves, every fetch returns `bytes`, and `unsigned long` has `ulongBits`
bits. -/
def scenarioEnv (bytes : List Byte) (ulongBits : Nat) : Env :=
  { ToSegment := fun _ _ => none,
    ToMediaSegment := fun url _ => some { resource := url, range := [], hasByteRange := false },
    DownloadSegment := fun _ _ => bytes,
    ulongBits := ulongBits }

/-- The manifest of `scenarioDescription` with the explicit index range
`4294967296-4294967327`, whose start is `2 ^ 32`. -/
def largeRangeDescription : RepresentationDescription :=
  { base_urls := ["http://example.com/media.mp4".toList],
    segment_base :=
      { GetInitialization := none, GetRepresentationIndex := none,
        GetIndexRange := "4294967296-4294967327".toList } }

/-- The text `Get()` writes for an entry: `byte_offset`, a dash, and
`byte_offset + byte_size - 1` computed in 64 bits. -/
def byteRangeOf (ent : SegmentIndexEntry) : List Char :=
  to_string ent.byte_offset ++ '-' ::
    to_string ((ent.byte_offset + ent.byte_size + 2 ^ 64 - 1) % 2 ^ 64)

/-- The box of Scenario A with size field 56 and `first_offset` 16. -/
def sidxFirstOffset16 : List Byte :=
  [0, 0, 0, 56, 115, 105, 100, 120, 0, 0, 0, 0, 0, 0, 0, 1,
   0, 0, 3, 232, 0, 0, 0, 0, 0, 0, 0, 16, 0, 0, 0, 2,
   0, 0, 3, 232, 0, 0, 7, 208, 0, 0, 0, 0,
   0, 0, 3, 232, 0, 0, 7, 208, 0, 0, 0, 0]

/-- The descriptor `FindIndexSegmentInMp4` fetches for the probe at `offset`: the base
descriptor with the range of the 8 header bytes and the flag set. -/
def probeSegment (segment : Segment) (offset : Nat) : Segment :=
  { segment with range := ToHttpRange offset kMovAtomBaseDataSize, hasByteRange := true }

/-- The declared size of the box whose header is `data`: bytes 0-3. -/
def boxSize (data : List Byte) : Nat :=
  beValue (data.take 4)

/-- The four-character type of the box whose header is `data`: bytes 4-7. -/
def boxType (data : List Byte) : Nat :=
  beValue ((data.drop 4).take 4)

/-- The offset of box `j` of a container given by the (size, type) pairs of its boxes
in order: the sum of the sizes of the boxes before it. -/
def boxOffset (boxes : List (Nat × Nat)) (j : Nat) : Nat :=
  ((boxes.take j).map Prod.fst).sum

/-- A manifest with one base URL, no initialization URL, no representation index and
no explicit index range. -/
def noIndexDescription : RepresentationDescription :=
  { base_urls := ["http://example.com/media.mp4".toList],
    segment_base :=
      { GetInitialization := none, GetRepresentationIndex := none, GetIndexRange := [] } }

/-- The header of a `moov` box of 100 bytes. -/
def moovHeader : List Byte := [0, 0, 0, 100, 109, 111, 111, 118]

/-- The header of an `ftyp` box of 24 bytes. -/
def ftypHeader : List Byte := [0, 0, 0, 24, 102, 116, 121, 112]

/-- The header of an `ftyp` box that declares size 0. -/
def ftypHeaderZero : List Byte := [0, 0, 0, 0, 102, 116, 121, 112]

/-- The header of an `mdat` box of `2 ^ 32 - 16` bytes. -/
def mdatHeaderLarge : List Byte := [255, 255, 255, 240, 109, 100, 97, 116]

/-- The header of a `sidx` box of 56 bytes. -/
def sidxHeader : List Byte := [0, 0, 0, 56, 115, 105, 100, 120]

/-- A network serving a container made of an `ftyp` box of 24 bytes, a `moov` box of
100 bytes and a `sidx` box of 56 bytes: a probe at a box's offset returns the box's
header, any other fetch returns nothing. -/
def smallContainerEnv : Env :=
  { ToSegment := fun _ _ => none,
    ToMediaSegment := fun url _ => some { resource := url, range := [], hasByteRange := false },
    DownloadSegment := fun _ segment =>
      if segment.range = "0-7".toList then ftypHeader
      else if segment.range = "24-31".toList then moovHeader
      else if segment.range = "124-131".toList then sidxHeader
      else [],
    ulongBits := 64 }

/-- A network serving a container made of an `ftyp` box of 24 bytes, an `mdat` box of
`2 ^ 32 - 16` bytes and a `sidx` box of 56 bytes at offset `4294967304`: a probe at a
box's offset returns the box's header, any other fetch returns nothing. -/
def largeContainerEnv : Env :=
  { ToSegment := fun _ _ => none,
    ToMediaSegment := fun url _ => some { resource := url, range := [], hasByteRange := false },
    DownloadSegment := fun _ segment =>
      if segment.range = "0-7".toList then ftypHeader
      else if segment.range = "24-31".toList then mdatHeaderLarge
      else if segment.range = "4294967304-4294967311".toList then sidxHeader
      else [],
    ulongBits := 64 }

/-- The manifest of `scenarioDescription` with the explicit index range
`4294967296-4294967351`: 56 bytes that start at `2 ^ 32`. -/
def largeIndexDescription : RepresentationDescription :=
  { base_urls := ["http://example.com/media.mp4".toList],
    segment_base :=
      { GetInitialization := none, GetRepresentationIndex := none,
        GetIndexRange := "4294967296-4294967351".toList } }

/-! ## The same code in `double` arithmetic

A C++ `double` is an IEEE 754 binary64 value, and every conversion, division, sum
and difference rounds its exact result to the nearest such value, a tie going to the
even significand.  The definitions above compute with the exact results;
the definitions of this section round wherever the program does.  A finite `double`
is the rational number it denotes; the results of this file stay far below the
overflow threshold `2 ^ 1024`, so infinities do not arise for `timescale > 0`. -/

/-- The integer nearest to `x`, a tie going to the even one. -/
def roundTiesToEven (x : ℚ) : ℤ :=
  if Int.fract x < 1 / 2 then ⌊x⌋
  else if 1 / 2 < Int.fract x then ⌊x⌋ + 1
  else if ⌊x⌋ % 2 = 0 then ⌊x⌋ else ⌊x⌋ + 1

/-- The exponent of the last place of the `double` format at `x`: 52 below the binary
exponent of `x`, and `-1074` throughout the subnormal range. -/
def ulpExponent (x : ℚ) : ℤ :=
  max (Int.log 2 |x| - 52) (-1074)

/-- The `double` nearest to `x`: the result of a C++ `double` operation whose exact
result is `x`. -/
def roundDouble (x : ℚ) : ℚ :=
  (roundTiesToEven (x / 2 ^ ulpExponent x) : ℚ) * 2 ^ ulpExponent x

/-- The helper `ToSeconds(pts, timescale)` in `double` arithmetic: the two
`static_cast<double>` conversions and the division each round. -/
def Binary64.ToSeconds (pts timescale : Nat) : ℚ :=
  roundDouble (roundDouble (pts : ℚ) / roundDouble (timescale : ℚ))

/-- The loop of `MediaSegmentForTime` in `double` arithmetic: the difference
`e.timestamp - kEps` and the sum `e.timestamp + e.duration` are rounded before they are
compared with `time`. -/
def Binary64.MediaSegmentForTime.loop (kEps : ℚ) (segment_index_ : List SegmentIndexEntry)
    (time : ℚ) : Nat → Nat → Except Fault (Option Nat)
  | 0, _ => .error .outOfFuel
  | fuel + 1, i =>
    if h : i < segment_index_.length then
      if roundDouble ((segment_index_[i]).timestamp - kEps) ≤ time ∧
          time < roundDouble ((segment_index_[i]).timestamp + (segment_index_[i]).duration) then
        .ok (some i)
      else Binary64.MediaSegmentForTime.loop kEps segment_index_ time fuel ((i + 1) % 2 ^ 32)
    else .ok none

/-- The member `MediaSegmentForTime(time)` in `double` arithmetic. -/
def Binary64.MediaSegmentForTime (kEps : ℚ) (fuel : Nat) (seq : SegmentBaseSequence)
    (time : ℚ) : Except Fault SegmentBaseIterator :=
  match Binary64.MediaSegmentForTime.loop kEps seq.segment_index_ time fuel 0 with
  | .error e => .error e
  | .ok (some i) => .ok (MakeIterator seq i)
  | .ok none => .ok (End seq)

/-- The reference loop of `ParseSidx` in `double` arithmetic: `ToSeconds` rounds, and
so do the difference, the conversion of `i`, the sum `i + 1.0`, the division and the
`+=` of the running average. -/
def Binary64.ParseSidx.loop (timescale : Nat) :
    Nat → Nat → SegmentBaseSequence → Nat → Nat → List Byte → Except Fault SegmentBaseSequence
  | 0, _, seq, _, _, _ => .ok seq
  | n + 1, i, seq, pts, offset, data => do
    let (ref_size, data) ← NextUnsigned 4 data
    let ref_size := ref_size &&& 0x7FFFFFFF
    let (duration, data) ← NextUnsigned 4 data
    let (_, data) ← NextUnsigned 4 data
    let segment_duration := Binary64.ToSeconds duration timescale
    let average := roundDouble (seq.average_segment_duration_ +
      roundDouble (roundDouble (segment_duration - seq.average_segment_duration_) /
        roundDouble (roundDouble (i : ℚ) + 1)))
    let entry :=
      MakeEntry (Binary64.ToSeconds pts timescale) segment_duration offset ref_size
    Binary64.ParseSidx.loop timescale n (i + 1)
      { seq with segment_index_ := seq.segment_index_ ++ [entry],
                 average_segment_duration_ := average }
      ((pts + duration) % 2 ^ 64) ((offset + ref_size) % 2 ^ 64) data

/-- The member `ParseSidx(sidx, sidx_begin, sidx_end)` in `double` arithmetic. -/
def Binary64.ParseSidx (seq : SegmentBaseSequence) (sidx : List Byte)
    (sidx_begin sidx_end : Nat) : Except Fault SegmentBaseSequence := do
  let data := sidx
  let (sidx_size, data) ← NextUnsigned 4 data
  let (_, data) ← NextUnsigned 4 data
  let (version, data) ← NextUnsigned 1 data
  let (_, data) ← NextUnsigned 1 data
  let (_, data) ← NextUnsigned 1 data
  let (_, data) ← NextUnsigned 1 data
  let (_, data) ← NextUnsigned 4 data
  if ¬ (sidx_end ≥ (sidx_begin + sidx_size + 2 ^ 64 - 1) % 2 ^ 64) then
    throw Fault.assertFailed
  let (timescale, data) ← NextUnsigned 4 data
  let pts := 0
  let offset := (sidx_end + 1) % 2 ^ 64
  let (earliest, data) ← if version = 0 then NextUnsigned 4 data else NextUnsigned 8 data
  let pts := (pts + earliest) % 2 ^ 64
  let (first_offset, data) ← if version = 0 then NextUnsigned 4 data else NextUnsigned 8 data
  let offset := (offset + first_offset) % 2 ^ 64
  let seq := { seq with segment_index_ := [] }
  let (_, data) ← NextUnsigned 2 data
  let (reference_count, data) ← NextUnsigned 2 data
  let seq := { seq with average_segment_duration_ := 0 }
  Binary64.ParseSidx.loop timescale reference_count 0 seq pts offset data

/-- The entry pushed for reference `k` in `double` arithmetic. -/
def Binary64.entryAt (timescale pts offset : Nat) (refs : List Byte) (k : Nat) :
    SegmentIndexEntry :=
  MakeEntry (Binary64.ToSeconds (ptsAt pts refs k) timescale)
    (Binary64.ToSeconds (refDuration refs k) timescale) (offsetAt offset refs k) (refSize refs k)

/-- The running average in `double` arithmetic after `n` more references, the next one
being the `i`-th. -/
def Binary64.averageAfter (timescale : Nat) : Nat → Nat → ℚ → List Byte → ℚ
  | 0, _, average, _ => average
  | n + 1, i, average, refs =>
    Binary64.averageAfter timescale n (i + 1)
      (roundDouble (average +
        roundDouble (roundDouble (Binary64.ToSeconds (refDuration refs 0) timescale - average) /
          roundDouble (roundDouble (i : ℚ) + 1))))
      (refs.drop 12)

/-- The table `ParseSidx` builds in `double` arithmetic from an accepted buffer fetched
from a range ending at `sidx_end`. -/
def Binary64.sidxTable (sidx : List Byte) (sidx_end : Nat) : List SegmentIndexEntry :=
  (List.range (sidxReferenceCount sidx)).map
    (Binary64.entryAt (sidxTimescale sidx) (sidxEarliest sidx % 2 ^ 64)
      (((sidx_end + 1) % 2 ^ 64 + sidxFirstOffset sidx) % 2 ^ 64)
      (sidx.drop (sidxHeaderLength sidx)))

/-- The sequence `ParseSidx` leaves in `double` arithmetic after an accepted run. -/
def Binary64.parsed (seq : SegmentBaseSequence) (sidx : List Byte) (sidx_end : Nat) :
    SegmentBaseSequence :=
  { seq with
    segment_index_ := Binary64.sidxTable sidx sidx_end,
    average_segment_duration_ :=
      Binary64.averageAfter (sidxTimescale sidx) (sidxReferenceCount sidx) 0 0
        (sidx.drop (sidxHeaderLength sidx)) }

/-- The condition of the scan of `MediaSegmentForTime` at entry `i`, as the program
evaluates it in `double` arithmetic. -/
def Binary64.Covers (kEps : ℚ) (table : List SegmentIndexEntry) (time : ℚ) (i : Nat) : Prop :=
  ∃ h : i < table.length,
    roundDouble ((table[i]).timestamp - kEps) ≤ time ∧
      time < roundDouble ((table[i]).timestamp + (table[i]).duration)

/-- A version-0 box, 56 bytes long: timescale 7, earliest presentation time 9, first
offset 0 and two references of size 1000 and durations 18 and 7.  Neither `9 / 7` nor
`18 / 7` nor `27 / 7` is a `double`. -/
def sidxSevenths : List Byte :=
  [0, 0, 0, 56, 115, 105, 100, 120, 0, 0, 0, 0, 0, 0, 0, 1,
   0, 0, 0, 7, 0, 0, 0, 9, 0, 0, 0, 0, 0, 0, 0, 2,
   0, 0, 3, 232, 0, 0, 0, 18, 0, 0, 0, 0,
   0, 0, 3, 232, 0, 0, 0, 7, 0, 0, 0, 0]

/-- The box `sidxSevenths` with the duration of its second reference set to 0. -/
def sidxSeventhsZero : List Byte :=
  [0, 0, 0, 56, 115, 105, 100, 120, 0, 0, 0, 0, 0, 0, 0, 1,
   0, 0, 0, 7, 0, 0, 0, 9, 0, 0, 0, 0, 0, 0, 0, 2,
   0, 0, 3, 232, 0, 0, 0, 18, 0, 0, 0, 0,
   0, 0, 3, 232, 0, 0, 0, 0, 0, 0, 0, 0]

/-- A version-1 box, 64 bytes long: timescale 3000000007, earliest presentation time
5062901020535542737, first offset 0 and two references of size 1000 and durations
3791305176 and 3, both positive. -/
def sidxLargeTimescale : List Byte :=
  [0, 0, 0, 64, 115, 105, 100, 120, 1, 0, 0, 0, 0, 0, 0, 1,
   178, 208, 94, 7, 70, 67, 9, 167, 93, 251, 211, 209,
   0, 0, 0, 0, 0, 0, 0, 0, 0, 0, 0, 2,
   0, 0, 3, 232, 225, 250, 185, 216, 0, 0, 0, 0,
   0, 0, 3, 232, 0, 0, 0, 3, 0, 0, 0, 0]

/-! ## Theorems -/

/-! ### The cursor reader -/

theorem beValue_lt (bytes : List Byte) : beValue bytes < 2 ^ (8 * bytes.length) := by
  suffices h : ∀ (l : List Byte) (acc j : Nat), acc < 2 ^ j →
      l.foldl (fun acc b => acc * 256 + b.val) acc < 2 ^ (j + 8 * l.length) by
    simpa [beValue] using h bytes 0 0 (by norm_num)
  intro l
  induction l with
  | nil => intro acc j h; simpa using h
  | cons b t ih =>
    intro acc j h
    have hb := b.isLt
    have h2 : acc * 256 + b.val < 2 ^ (j + 8) := by
      rw [pow_add]; norm_num; omega
    have := ih (acc * 256 + b.val) (j + 8) h2
    simp only [List.foldl_cons, List.length_cons]
    have e : j + 8 * (t.length + 1) = j + 8 + 8 * t.length := by ring
    rw [e]; exact this

theorem beValue_take_lt (n : Nat) (bytes : List Byte) :
    beValue (bytes.take n) < 2 ^ (8 * n) := by
  refine lt_of_lt_of_le (beValue_lt _) (Nat.pow_le_pow_right (by norm_num) ?_)
  have := List.length_take_le n bytes
  omega

theorem shl_or_byte (bits out j : Nat) (b : Byte) (h : out < 2 ^ j) (hj : j + 8 ≤ bits) :
    (((out <<< 8) % 2 ^ bits) ||| b.val) = out * 256 + b.val := by
  have hb := b.isLt
  have h1 : out * 256 < 2 ^ bits := by
    calc out * 256 < 2 ^ j * 2 ^ 8 := by norm_num; omega
      _ = 2 ^ (j + 8) := by rw [pow_add]
      _ ≤ 2 ^ bits := Nat.pow_le_pow_right (by norm_num) hj
  rw [Nat.shiftLeft_eq, Nat.mod_eq_of_lt (by simpa using h1)]
  have h8 : (b.val) < 2 ^ 8 := by simp
  have := Nat.mul_add_lt_is_or h8 out
  rw [Nat.mul_comm] at this
  simp only [Nat.reducePow] at this ⊢
  omega

theorem NextUnsigned_loop_eq (bits : Nat) :
    ∀ (k out j : Nat) (stream : List Byte), out < 2 ^ j → j + 8 * k ≤ bits →
      NextUnsigned.loop bits k out stream =
        if k ≤ stream.length then
          .ok ((stream.take k).foldl (fun acc b => acc * 256 + b.val) out, stream.drop k)
        else .error .outOfBounds := by
  intro k
  induction k with
  | zero => intro out j stream _ _; simp [NextUnsigned.loop]
  | succ k ih =>
    intro out j stream h hj
    cases stream with
    | nil => simp [NextUnsigned.loop]
    | cons b t =>
      have hb := b.isLt
      have h2 : out * 256 + b.val < 2 ^ (j + 8) := by
        rw [pow_add]; norm_num; omega
      simp only [NextUnsigned.loop, List.length_cons, Nat.add_le_add_iff_right,
        List.take_succ_cons, List.foldl_cons, List.drop_succ_cons]
      rw [shl_or_byte bits out j b h (by omega)]
      exact ih _ (j + 8) t h2 (by omega)

/-- The reader returns the big-endian value of the next `size` bytes and the cursor
advanced by `size`, when that many bytes are left. -/
theorem NextUnsigned_eq (size : Nat) (stream : List Byte) :
    NextUnsigned size stream =
      if size ≤ stream.length then .ok (beValue (stream.take size), stream.drop size)
      else .error .outOfBounds := by
  unfold NextUnsigned beValue
  exact NextUnsigned_loop_eq (8 * size) size 0 0 stream (by norm_num) (by omega)

theorem bind_NextUnsigned {α : Type} (size : Nat) (stream : List Byte)
    (f : Nat × List Byte → Except Fault α) :
    (NextUnsigned size stream >>= f) =
      if size ≤ stream.length then f (beValue (stream.take size), stream.drop size)
      else .error .outOfBounds := by
  rw [NextUnsigned_eq]
  split <;> rfl

/-! ### The sidx parser in closed form -/

/-- The header part of `ParseSidx`: which reads fail, when the assertion fails, and
the arguments with which the reference loop is entered. -/
theorem ParseSidx_eq (seq : SegmentBaseSequence) (sidx : List Byte) (b e : Nat) :
    ParseSidx seq sidx b e =
      if sidx.length < 16 then .error .outOfBounds
      else if e < (b + sidxSize sidx + 2 ^ 64 - 1) % 2 ^ 64 then .error .assertFailed
      else if sidx.length < sidxHeaderLength sidx then .error .outOfBounds
      else ParseSidx.loop (sidxTimescale sidx) (sidxReferenceCount sidx) 0
        { seq with segment_index_ := [], average_segment_duration_ := 0 }
        (sidxEarliest sidx % 2 ^ 64) (((e + 1) % 2 ^ 64 + sidxFirstOffset sidx) % 2 ^ 64)
        (sidx.drop (sidxHeaderLength sidx)) := by
  unfold ParseSidx
  have c2 : (4 ≤ sidx.length - 4) ↔ 8 ≤ sidx.length := by omega
  have c3 : (1 ≤ sidx.length - 4 - 4) ↔ 9 ≤ sidx.length := by omega
  have c4 : (1 ≤ sidx.length - 4 - 4 - 1) ↔ 10 ≤ sidx.length := by omega
  have c5 : (1 ≤ sidx.length - 4 - 4 - 1 - 1) ↔ 11 ≤ sidx.length := by omega
  have c6 : (1 ≤ sidx.length - 4 - 4 - 1 - 1 - 1) ↔ 12 ≤ sidx.length := by omega
  have c7 : (4 ≤ sidx.length - 4 - 4 - 1 - 1 - 1 - 1) ↔ 16 ≤ sidx.length := by omega
  have c8 : (4 ≤ sidx.length - 4 - 4 - 1 - 1 - 1 - 1 - 4) ↔ 20 ≤ sidx.length := by omega
  have c9 : (4 ≤ sidx.length - 4 - 4 - 1 - 1 - 1 - 1 - 4 - 4) ↔ 24 ≤ sidx.length := by omega
  have c10 : (4 ≤ sidx.length - 4 - 4 - 1 - 1 - 1 - 1 - 4 - 4 - 4) ↔ 28 ≤ sidx.length := by
    omega
  have c11 : (2 ≤ sidx.length - 4 - 4 - 1 - 1 - 1 - 1 - 4 - 4 - 4 - 4) ↔ 30 ≤ sidx.length := by
    omega
  have c12 : (2 ≤ sidx.length - 4 - 4 - 1 - 1 - 1 - 1 - 4 - 4 - 4 - 4 - 2) ↔
      32 ≤ sidx.length := by omega
  have d9 : (8 ≤ sidx.length - 4 - 4 - 1 - 1 - 1 - 1 - 4 - 4) ↔ 28 ≤ sidx.length := by omega
  have d10 : (8 ≤ sidx.length - 4 - 4 - 1 - 1 - 1 - 1 - 4 - 4 - 8) ↔ 36 ≤ sidx.length := by
    omega
  have d11 : (2 ≤ sidx.length - 4 - 4 - 1 - 1 - 1 - 1 - 4 - 4 - 8 - 8) ↔ 38 ≤ sidx.length := by
    omega
  have d12 : (2 ≤ sidx.length - 4 - 4 - 1 - 1 - 1 - 1 - 4 - 4 - 8 - 8 - 2) ↔
      40 ≤ sidx.length := by omega
  simp only [bind_NextUnsigned, List.length_drop, List.drop_drop, sidxSize, sidxVersion,
    sidxTimescale, sidxEarliest, sidxFirstOffset, sidxHeaderLength, sidxReferenceCount,
    Nat.reduceAdd, Nat.reduceSub, Nat.zero_add, ge_iff_le, not_le,
    c2, c3, c4, c5, c6, c7, c8, c9, c10, c11, c12, d9, d10, d11, d12]
  by_cases h16 : sidx.length < 16
  · have h : ¬ 16 ≤ sidx.length := by omega
    simp only [h16, h, if_true, if_false, ite_self]
  · have h4 : 4 ≤ sidx.length := by omega
    have h8 : 8 ≤ sidx.length := by omega
    have h9 : 9 ≤ sidx.length := by omega
    have h10 : 10 ≤ sidx.length := by omega
    have h11 : 11 ≤ sidx.length := by omega
    have h12 : 12 ≤ sidx.length := by omega
    have h16b : 16 ≤ sidx.length := by omega
    simp only [h16, h4, h8, h9, h10, h11, h12, h16b, if_true, if_false]
    by_cases ha : e < (b + beValue (List.take 4 sidx) + 2 ^ 64 - 1) % 2 ^ 64
    · simp only [ha, if_true]
      rfl
    · simp only [ha, if_false]
      by_cases hv : beValue (List.take 1 (List.drop 8 sidx)) = 0
      · simp only [hv, if_true]
        by_cases h32 : sidx.length < 32
        · have h : ¬ 32 ≤ sidx.length := by omega
          simp only [h32, h, if_true, if_false, ite_self]
          rfl
        · have h20 : 20 ≤ sidx.length := by omega
          have h24 : 24 ≤ sidx.length := by omega
          have h28 : 28 ≤ sidx.length := by omega
          have h30 : 30 ≤ sidx.length := by omega
          have h32b : 32 ≤ sidx.length := by omega
          simp only [h32, h20, h24, h28, h30, h32b, if_true, if_false]
          rfl
      · simp only [hv, if_false]
        by_cases h40 : sidx.length < 40
        · have h : ¬ 40 ≤ sidx.length := by omega
          simp only [h40, h, if_true, if_false, ite_self]
          rfl
        · have h20 : 20 ≤ sidx.length := by omega
          have h28 : 28 ≤ sidx.length := by omega
          have h36 : 36 ≤ sidx.length := by omega
          have h38 : 38 ≤ sidx.length := by omega
          have h40b : 40 ≤ sidx.length := by omega
          simp only [h40, h20, h28, h36, h38, h40b, if_true, if_false]
          rfl

theorem refField_drop (refs : List Byte) (k : Nat) :
    refField (refs.drop 12) k = refField refs (k + 1) := by
  simp only [refField, List.drop_drop]
  congr 3
  omega

theorem refSize_drop (refs : List Byte) (k : Nat) :
    refSize (refs.drop 12) k = refSize refs (k + 1) := by
  simp only [refSize, refField_drop]

theorem refDuration_drop (refs : List Byte) (k : Nat) :
    refDuration (refs.drop 12) k = refDuration refs (k + 1) := by
  simp only [refDuration, List.drop_drop]
  congr 3
  omega

theorem ptsAt_drop (pts : Nat) (refs : List Byte) (k : Nat) :
    ptsAt ((pts + refDuration refs 0) % 2 ^ 64) (refs.drop 12) k = ptsAt pts refs (k + 1) := by
  simp only [ptsAt, Finset.sum_range_succ', refDuration_drop]
  omega

theorem offsetAt_drop (offset : Nat) (refs : List Byte) (k : Nat) :
    offsetAt ((offset + refSize refs 0) % 2 ^ 64) (refs.drop 12) k =
      offsetAt offset refs (k + 1) := by
  simp only [offsetAt, Finset.sum_range_succ', refSize_drop]
  omega

theorem entryAt_drop (timescale pts offset : Nat) (refs : List Byte) (k : Nat) :
    entryAt timescale ((pts + refDuration refs 0) % 2 ^ 64)
        ((offset + refSize refs 0) % 2 ^ 64) (refs.drop 12) k =
      entryAt timescale pts offset refs (k + 1) := by
  simp only [entryAt, ptsAt_drop, offsetAt_drop, refSize_drop, refDuration_drop]

/-- The reference loop of `ParseSidx`: it fails when fewer than `12 * n` bytes are
left and otherwise appends the `n` entries `entryAt ... k`. -/
theorem ParseSidx_loop_eq (timescale : Nat) :
    ∀ (n i : Nat) (seq : SegmentBaseSequence) (pts offset : Nat) (data : List Byte),
      pts < 2 ^ 64 → offset < 2 ^ 64 →
      ParseSidx.loop timescale n i seq pts offset data =
        if data.length < 12 * n then .error .outOfBounds
        else .ok { seq with
          segment_index_ := seq.segment_index_ ++
            (List.range n).map (entryAt timescale pts offset data),
          average_segment_duration_ :=
            averageAfter timescale n i seq.average_segment_duration_ data } := by
  intro n
  induction n with
  | zero =>
    intro i seq pts offset data _ _
    simp [ParseSidx.loop, averageAfter]
  | succ n ih =>
    intro i seq pts offset data hp ho
    unfold ParseSidx.loop
    have c2 : (4 ≤ data.length - 4) ↔ 8 ≤ data.length := by omega
    have c3 : (4 ≤ data.length - 4 - 4) ↔ 12 ≤ data.length := by omega
    simp only [bind_NextUnsigned, List.length_drop, List.drop_drop, c2, c3, Nat.reduceAdd]
    by_cases h12 : data.length < 12
    · have h1 : ¬ 12 ≤ data.length := by omega
      have h2 : data.length < 12 * (n + 1) := by omega
      simp only [h1, h2, if_true, if_false, ite_self]
    · have h4 : 4 ≤ data.length := by omega
      have h8 : 8 ≤ data.length := by omega
      have h12b : 12 ≤ data.length := by omega
      simp only [h4, h8, h12b, if_true]
      rw [ih _ _ _ _ _ (Nat.mod_lt _ (by norm_num)) (Nat.mod_lt _ (by norm_num))]
      have hl : (data.drop 12).length < 12 * n ↔ data.length < 12 * (n + 1) := by
        simp only [List.length_drop]; omega
      simp only [hl]
      split
      · rfl
      · have hm : (0x7FFFFFFF : Nat) = 2 ^ 31 - 1 := by norm_num
        have er : beValue (List.take 4 data) &&& 0x7FFFFFFF = refSize data 0 := by
          simp only [refSize, refField, Nat.mul_zero, List.drop_zero, hm,
            Nat.and_pow_two_sub_one_eq_mod]
        have ed : beValue (List.take 4 (List.drop 4 data)) = refDuration data 0 := by
          simp only [refDuration, Nat.mul_zero, Nat.zero_add]
        have e0 : entryAt timescale pts offset data 0 =
            MakeEntry (ToSeconds pts timescale)
              (ToSeconds (refDuration data 0) timescale) offset (refSize data 0) := by
          simp only [entryAt, ptsAt, offsetAt, Finset.range_zero, Finset.sum_empty,
            Nat.add_zero, Nat.mod_eq_of_lt hp, Nat.mod_eq_of_lt ho]
        rw [er, ed, ← e0]
        simp only [List.range_succ_eq_map, List.map_cons, List.map_map, List.append_assoc,
          List.singleton_append, averageAfter]
        have hf : entryAt timescale ((pts + refDuration data 0) % 2 ^ 64)
            ((offset + refSize data 0) % 2 ^ 64) (List.drop 12 data) =
            entryAt timescale pts offset data ∘ Nat.succ := by
          funext k
          exact entryAt_drop timescale pts offset data k
        rw [hf]

/-- The whole of `ParseSidx` in closed form. -/
theorem ParseSidx_closed (seq : SegmentBaseSequence) (sidx : List Byte) (b e : Nat) :
    ParseSidx seq sidx b e =
      if sidx.length < 16 then .error .outOfBounds
      else if e < (b + sidxSize sidx + 2 ^ 64 - 1) % 2 ^ 64 then .error .assertFailed
      else if sidx.length < sidxHeaderLength sidx + 12 * sidxReferenceCount sidx then
        .error .outOfBounds
      else .ok { seq with
        segment_index_ := sidxTable sidx e,
        average_segment_duration_ :=
          averageAfter (sidxTimescale sidx) (sidxReferenceCount sidx) 0 0
            (sidx.drop (sidxHeaderLength sidx)) } := by
  rw [ParseSidx_eq, ParseSidx_loop_eq _ _ _ _ _ _ _ (Nat.mod_lt _ (by norm_num))
    (Nat.mod_lt _ (by norm_num))]
  simp only [List.length_drop, List.nil_append, sidxTable]
  split_ifs <;> first | rfl | (exfalso; omega)

/-- What an accepted run of `ParseSidx` says about its input and its result. -/
theorem ParseSidx_ok {seq seq1 : SegmentBaseSequence} {sidx : List Byte} {b e : Nat}
    (h : ParseSidx seq sidx b e = .ok seq1) :
    16 ≤ sidx.length ∧ (b + sidxSize sidx + 2 ^ 64 - 1) % 2 ^ 64 ≤ e ∧
      sidxHeaderLength sidx + 12 * sidxReferenceCount sidx ≤ sidx.length ∧
      seq1.segment_index_ = sidxTable sidx e := by
  rw [ParseSidx_closed] at h
  split_ifs at h with h1 h2 h3
  simp only [Except.ok.injEq] at h
  subst h
  exact ⟨by omega, by omega, by omega, rfl⟩

theorem sidxTable_length (sidx : List Byte) (e : Nat) :
    (sidxTable sidx e).length = sidxReferenceCount sidx := by
  simp [sidxTable]

theorem sidxTable_getElem (sidx : List Byte) (e i : Nat) (h : i < (sidxTable sidx e).length) :
    (sidxTable sidx e)[i] =
      entryAt (sidxTimescale sidx) (sidxEarliest sidx % 2 ^ 64)
        (((e + 1) % 2 ^ 64 + sidxFirstOffset sidx) % 2 ^ 64)
        (sidx.drop (sidxHeaderLength sidx)) i := by
  simp [sidxTable]

theorem sidxReferenceCount_lt (sidx : List Byte) : sidxReferenceCount sidx < 2 ^ 16 := by
  have := beValue_take_lt 2 (sidx.drop (sidxHeaderLength sidx - 2))
  simpa [sidxReferenceCount] using this

theorem sidxTimescale_lt (sidx : List Byte) : sidxTimescale sidx < 2 ^ 32 := by
  have := beValue_take_lt 4 (sidx.drop 16)
  simpa [sidxTimescale] using this

theorem refDuration_lt (refs : List Byte) (k : Nat) : refDuration refs k < 2 ^ 32 := by
  have := beValue_take_lt 4 (refs.drop (12 * k + 4))
  simpa [refDuration] using this

/-- The run of `ParseSidx` is accepted when the buffer holds the 16 bytes read before
the assertion, the assertion holds, and the header and all references are there. -/
theorem ParseSidx_accepts (seq : SegmentBaseSequence) (sidx : List Byte) (b e : Nat)
    (h16 : 16 ≤ sidx.length) (ha : (b + sidxSize sidx + 2 ^ 64 - 1) % 2 ^ 64 ≤ e)
    (hlen : sidxHeaderLength sidx + 12 * sidxReferenceCount sidx ≤ sidx.length) :
    ParseSidx seq sidx b e =
      .ok { seq with
        segment_index_ := sidxTable sidx e,
        average_segment_duration_ :=
          averageAfter (sidxTimescale sidx) (sidxReferenceCount sidx) 0 0
            (sidx.drop (sidxHeaderLength sidx)) } := by
  rw [ParseSidx_closed, if_neg (by omega), if_neg (by omega), if_neg (by omega)]

/-! ### Concrete runs -/

/-- The run of `ParseSidx` on the box of Scenario A fetched from `b`-`e`, for a size
field that passes the assertion. -/
theorem ParseSidx_sidxScenarioA (seq : SegmentBaseSequence) (size : Byte) (b e : Nat)
    (ha : (b + size.val + 2 ^ 64 - 1) % 2 ^ 64 ≤ e) (he : e + 1001 < 2 ^ 64) :
    ParseSidx seq (sidxScenarioA size) b e =
      .ok { seq with
        segment_index_ := [MakeEntry 0 2 (e + 1) 1000, MakeEntry 2 2 (e + 1001) 1000],
        average_segment_duration_ := 2 } := by
  have hs : sidxSize (sidxScenarioA size) = size.val := by
    simp [sidxSize, sidxScenarioA, beValue]
  have hl : (sidxScenarioA size).length = 56 := rfl
  have hh : sidxHeaderLength (sidxScenarioA size) = 32 := rfl
  have ht : sidxTimescale (sidxScenarioA size) = 1000 := rfl
  have hr : sidxReferenceCount (sidxScenarioA size) = 2 := rfl
  have hp : sidxEarliest (sidxScenarioA size) = 0 := rfl
  have hf : sidxFirstOffset (sidxScenarioA size) = 0 := rfl
  have d0 : refDuration (List.drop 32 (sidxScenarioA size)) 0 = 2000 := rfl
  have d1 : refDuration (List.drop 32 (sidxScenarioA size)) 1 = 2000 := rfl
  have r0 : refSize (List.drop 32 (sidxScenarioA size)) 0 = 1000 := rfl
  have r1 : refSize (List.drop 32 (sidxScenarioA size)) 1 = 1000 := rfl
  have dd : refDuration (List.drop 12 (List.drop 32 (sidxScenarioA size))) 0 = 2000 := rfl
  have o0 : ((e + 1) % 2 ^ 64 + 0) % 2 ^ 64 = e + 1 := by omega
  have o1 : (e + 1 + 1000) % 2 ^ 64 = e + 1001 := by omega
  rw [ParseSidx_closed, hl, hs, hh, ht, hr, if_neg (by omega), if_neg (by omega),
    if_neg (by omega)]
  simp only [sidxTable, hh, ht, hr, hp, hf, o0, List.range_succ, List.range_zero,
    List.nil_append, List.map_cons, List.map_nil, List.singleton_append, entryAt, ptsAt,
    offsetAt, Finset.sum_range_succ, Finset.range_zero, Finset.sum_empty, d0, d1, r0, r1, dd,
    averageAfter, ToSeconds, MakeEntry, Nat.add_zero, Nat.zero_add, Nat.zero_mod, o1]
  norm_num
  omega

/-- The run of `ParseSidx` on the box of Scenario A with size field 56, fetched from
`100-131`: the assertion fails. -/
theorem ParseSidx_sidxScenarioA_56 (seq : SegmentBaseSequence) :
    ParseSidx seq (sidxScenarioA 56) 100 131 = .error .assertFailed := by
  rw [ParseSidx_eq, if_neg (by decide), if_pos (by decide)]

/-- The run of `ParseSidx` on `sidxWrapping` fetched from `100-163`. -/
theorem ParseSidx_sidxWrapping (seq : SegmentBaseSequence) :
    ParseSidx seq sidxWrapping 100 163 =
      .ok { seq with
        segment_index_ :=
          [MakeEntry 0 2 18446744073709551524 1000, MakeEntry 2 2 908 1000],
        average_segment_duration_ := 2 } := by
  have hs : sidxSize sidxWrapping = 64 := rfl
  have hl : sidxWrapping.length = 64 := rfl
  have hh : sidxHeaderLength sidxWrapping = 40 := rfl
  have ht : sidxTimescale sidxWrapping = 1000 := rfl
  have hr : sidxReferenceCount sidxWrapping = 2 := rfl
  have hp : sidxEarliest sidxWrapping = 0 := rfl
  have hf : sidxFirstOffset sidxWrapping = 18446744073709551360 := by decide
  have d0 : refDuration (List.drop 40 sidxWrapping) 0 = 2000 := rfl
  have d1 : refDuration (List.drop 40 sidxWrapping) 1 = 2000 := rfl
  have r0 : refSize (List.drop 40 sidxWrapping) 0 = 1000 := rfl
  have r1 : refSize (List.drop 40 sidxWrapping) 1 = 1000 := rfl
  have dd : refDuration (List.drop 12 (List.drop 40 sidxWrapping)) 0 = 2000 := rfl
  rw [ParseSidx_closed, hl, hs, hh, ht, hr, if_neg (by omega), if_neg (by omega),
    if_neg (by omega)]
  simp only [sidxTable, hh, ht, hr, hp, hf, List.range_succ, List.range_zero,
    List.nil_append, List.map_cons, List.map_nil, List.singleton_append, entryAt, ptsAt,
    offsetAt, Finset.sum_range_succ, Finset.range_zero, Finset.sum_empty, d0, d1, r0, r1, dd,
    averageAfter, ToSeconds, MakeEntry, Nat.add_zero, Nat.zero_add, Nat.zero_mod]
  norm_num

/-! ### Claims -/

/-- C1 (as amended): on the 56-byte version-0 box of Scenario A (timescale 1000, earliest
presentation time 0, first offset 0, two references of size 1000 and duration 2000)
fetched from the byte range 100-131, `ParseSidx` completes whenever the box's size
field is at most 32, and then leaves the table
`[(0, 2, 132, 1000), (2, 2, 1132, 1000)]` and the average segment duration 2. -/
theorem scenarioA_table (seq : SegmentBaseSequence) (size : Byte) (h : size.val ≤ 32) :
    ParseSidx seq (sidxScenarioA size) 100 131 =
      .ok { seq with
        segment_index_ := [MakeEntry 0 2 132 1000, MakeEntry 2 2 1132 1000],
        average_segment_duration_ := 2 } :=
  ParseSidx_sidxScenarioA seq size 100 131 (by omega) (by norm_num)

theorem scenarioA_table_witness :
    ParseSidx scenarioSequence (sidxScenarioA 32) 100 131 =
      .ok { scenarioSequence with
        segment_index_ := [MakeEntry 0 2 132 1000, MakeEntry 2 2 1132 1000],
        average_segment_duration_ := 2 } :=
  scenarioA_table scenarioSequence 32 (by decide)

/-- C1 (as stated) fails: with the size field equal to the box's byte length 56 and
the byte range 100-131, the assertion `sidx_end >= sidx_begin + sidx_size - 1` is
false (`131 < 155`) and `ParseSidx` stops there without building a table. -/
theorem scenarioA_size56_aborts :
    (sidxScenarioA 56).length = 56 ∧ sidxSize (sidxScenarioA 56) = 56 ∧
      ParseSidx scenarioSequence (sidxScenarioA 56) 100 131 = .error .assertFailed :=
  ⟨by decide, by decide, ParseSidx_sidxScenarioA_56 scenarioSequence⟩

/-- C2 (as amended): in the table of every accepted run of `ParseSidx`, each entry's
byte offset is the previous entry's byte offset plus its byte size reduced modulo
`2 ^ 64`, hence their exact sum whenever that sum is below `2 ^ 64`. -/
theorem table_byte_offsets_chain (seq seq1 : SegmentBaseSequence) (sidx : List Byte)
    (b e : Nat) (h : ParseSidx seq sidx b e = .ok seq1) (i : Nat)
    (hi : i + 1 < seq1.segment_index_.length) :
    (seq1.segment_index_[i + 1]).byte_offset =
        ((seq1.segment_index_[i]).byte_offset + (seq1.segment_index_[i]).byte_size) % 2 ^ 64 ∧
      ((seq1.segment_index_[i]).byte_offset + (seq1.segment_index_[i]).byte_size < 2 ^ 64 →
        (seq1.segment_index_[i + 1]).byte_offset =
          (seq1.segment_index_[i]).byte_offset + (seq1.segment_index_[i]).byte_size) := by
  obtain ⟨-, -, -, ht⟩ := ParseSidx_ok h
  have key : (seq1.segment_index_[i + 1]).byte_offset =
      ((seq1.segment_index_[i]).byte_offset + (seq1.segment_index_[i]).byte_size) % 2 ^ 64 := by
    simp only [ht, sidxTable_getElem, entryAt, MakeEntry, offsetAt, Finset.sum_range_succ]
    omega
  refine ⟨key, fun hlt => ?_⟩
  rw [key, Nat.mod_eq_of_lt hlt]

theorem table_byte_offsets_chain_witness :
    (MakeEntry 2 2 1132 1000).byte_offset = (132 + 1000) % 2 ^ 64 ∧
      (132 + 1000 < 2 ^ 64 → (MakeEntry 2 2 1132 1000).byte_offset = 132 + 1000) :=
  table_byte_offsets_chain scenarioSequence _ (sidxScenarioA 32) 100 131
    (ParseSidx_sidxScenarioA scenarioSequence 32 100 131 (by decide) (by norm_num)) 0
    (by simp)

/-- C2 (as stated) fails: `sidxWrapping` is accepted and its second entry's byte
offset, 908, is not the exact sum `18446744073709551524 + 1000` of the first entry's
offset and size: the 64-bit running offset wrapped. -/
theorem table_byte_offsets_wrap :
    ∃ seq1 e0 e1, ParseSidx scenarioSequence sidxWrapping 100 163 = .ok seq1 ∧
      seq1.segment_index_ = [e0, e1] ∧ e1.byte_offset ≠ e0.byte_offset + e0.byte_size :=
  ⟨_, _, _, ParseSidx_sidxWrapping scenarioSequence, rfl, by decide⟩

/-! ### The scan of `MediaSegmentForTime` -/

theorem sum_refDuration_bounds (refs : List Byte) (j : Nat) :
    ∀ i, j ≤ i →
      ∑ m in Finset.range j, refDuration refs m ≤ ∑ m in Finset.range i, refDuration refs m ∧
      ∑ m in Finset.range i, refDuration refs m ≤
        ∑ m in Finset.range j, refDuration refs m + (i - j) * 4294967295 := by
  intro i
  induction i with
  | zero =>
    intro h
    have : j = 0 := by omega
    subst this
    simp
  | succ i ih =>
    intro h
    rcases Nat.eq_or_lt_of_le h with h1 | h1
    · subst h1; simp
    · have h2 := ih (by omega)
      have h3 := refDuration_lt refs i
      rw [Finset.sum_range_succ]
      have h4 : (i + 1 - j) * 4294967295 = (i - j) * 4294967295 + 4294967295 := by
        have : i + 1 - j = (i - j) + 1 := by omega
        rw [this]; ring
      constructor
      · omega
      · omega

theorem sum_refDuration_step (refs : List Byte) (j i : Nat) (h : j < i) :
    ∑ m in Finset.range j, refDuration refs m + refDuration refs j ≤
      ∑ m in Finset.range i, refDuration refs m := by
  have := (sum_refDuration_bounds refs (j + 1) i h).1
  rwa [Finset.sum_range_succ] at this

/-- Two entries `j < i` of a table of fewer than `2 ^ 16` references: either entry
`j` ends no later than entry `i` starts, or the 64-bit `pts` wrapped in between and
entry `j` starts far after entry `i` ends. -/
theorem ptsAt_order (pts timescale : Nat) (refs : List Byte) (j i : Nat) (hji : j < i)
    (hi : i < 2 ^ 16) (hT : timescale < 2 ^ 32) :
    ptsAt pts refs j + refDuration refs j ≤ ptsAt pts refs i ∨
      ptsAt pts refs i + refDuration refs i + 2 * timescale ≤ ptsAt pts refs j := by
  have h1 := sum_refDuration_step refs j i hji
  have h2 := (sum_refDuration_bounds refs j i (by omega)).2
  have h3 := refDuration_lt refs i
  have h4 := refDuration_lt refs j
  have h5 : (i - j) * 4294967295 ≤ 65535 * 4294967295 :=
    Nat.mul_le_mul_right _ (by omega)
  simp only [ptsAt]
  omega

/-- The run of `ParseSidx` on `sidxNested` fetched from `100-155`. -/
theorem ParseSidx_sidxNested (seq : SegmentBaseSequence) :
    ParseSidx seq sidxNested 100 155 =
      .ok { seq with
        segment_index_ := [MakeEntry 0 2 156 1000, MakeEntry 2 2 1156 1000],
        average_segment_duration_ := 2 } := by
  have hs : sidxSize sidxNested = 56 := rfl
  have hl : sidxNested.length = 56 := rfl
  have hh : sidxHeaderLength sidxNested = 32 := rfl
  have ht : sidxTimescale sidxNested = 1000 := rfl
  have hr : sidxReferenceCount sidxNested = 2 := rfl
  have hp : sidxEarliest sidxNested = 0 := rfl
  have hf : sidxFirstOffset sidxNested = 0 := rfl
  have d0 : refDuration (List.drop 32 sidxNested) 0 = 2000 := rfl
  have d1 : refDuration (List.drop 32 sidxNested) 1 = 2000 := rfl
  have r0 : refSize (List.drop 32 sidxNested) 0 = 1000 := by decide
  have r1 : refSize (List.drop 32 sidxNested) 1 = 1000 := rfl
  have dd : refDuration (List.drop 12 (List.drop 32 sidxNested)) 0 = 2000 := rfl
  rw [ParseSidx_closed, hl, hs, hh, ht, hr, if_neg (by omega), if_neg (by omega),
    if_neg (by omega)]
  simp only [sidxTable, hh, ht, hr, hp, hf, List.range_succ, List.range_zero,
    List.nil_append, List.map_cons, List.map_nil, List.singleton_append, entryAt, ptsAt,
    offsetAt, Finset.sum_range_succ, Finset.range_zero, Finset.sum_empty, d0, d1, r0, r1, dd,
    averageAfter, ToSeconds, MakeEntry, Nat.add_zero, Nat.zero_add, Nat.zero_mod]
  norm_num

/-- C6 (as amended): `ParseSidx` never looks at the top bit of a reference's first
32-bit field.  Whenever the buffer holds the 16 bytes read before the assertion, the
assertion holds and the buffer holds the header and `reference_count` references, the
run is accepted, whatever the top bits are, and the `k`-th entry's byte size is the low
31 bits of the `k`-th reference's first field. -/
theorem ParseSidx_masks_reference_type (seq : SegmentBaseSequence) (sidx : List Byte)
    (b e : Nat) (h16 : 16 ≤ sidx.length)
    (ha : (b + sidxSize sidx + 2 ^ 64 - 1) % 2 ^ 64 ≤ e)
    (hlen : sidxHeaderLength sidx + 12 * sidxReferenceCount sidx ≤ sidx.length) :
    ∃ seq1, ParseSidx seq sidx b e = .ok seq1 ∧
      seq1.segment_index_.length = sidxReferenceCount sidx ∧
      ∀ k (hk : k < seq1.segment_index_.length),
        (seq1.segment_index_[k]).byte_size =
          refField (sidx.drop (sidxHeaderLength sidx)) k % 2 ^ 31 := by
  refine ⟨_, ParseSidx_accepts seq sidx b e h16 ha hlen, sidxTable_length sidx e, ?_⟩
  intro k hk
  simp only [sidxTable_getElem, entryAt, MakeEntry, refSize]

theorem ParseSidx_masks_reference_type_witness :
    ∃ seq1, ParseSidx scenarioSequence sidxNested 100 155 = .ok seq1 ∧
      seq1.segment_index_.length = sidxReferenceCount sidxNested ∧
      ∀ k (hk : k < seq1.segment_index_.length),
        (seq1.segment_index_[k]).byte_size =
          refField (sidxNested.drop (sidxHeaderLength sidxNested)) k % 2 ^ 31 :=
  ParseSidx_masks_reference_type scenarioSequence sidxNested 100 155 (by decide) (by decide)
    (by decide)

/-- C6 (as stated) fails: the first reference of `sidxNested` has the top bit of its
first field set (`0x800003E8`), and `ParseSidx` accepts the buffer and builds an entry
whose byte size is the low 31 bits, 1000. -/
theorem ParseSidx_accepts_nested_reference :
    2 ^ 31 ≤ refField (sidxNested.drop 32) 0 ∧
      ParseSidx scenarioSequence sidxNested 100 155 =
        .ok { scenarioSequence with
          segment_index_ := [MakeEntry 0 2 156 1000, MakeEntry 2 2 1156 1000],
          average_segment_duration_ := 2 } ∧
      (MakeEntry 0 2 156 1000).byte_size = refField (sidxNested.drop 32) 0 % 2 ^ 31 :=
  ⟨by decide, ParseSidx_sidxNested scenarioSequence, by decide⟩

/-- C7 (as amended): `ParseSidx` checks only `sidx_end >= sidx_begin + sidx_size - 1`,
in wrapping 64-bit arithmetic, and by an assertion.  For every buffer of at least 16
bytes the run stops on the failed assertion exactly when
`sidx_end < (sidx_begin + size - 1) mod 2 ^ 64`; a declared size equal to or smaller
than `sidx_end - sidx_begin + 1` passes, and the table is then built when the buffer
holds the header and `reference_count` references. -/
theorem ParseSidx_size_assertion (seq : SegmentBaseSequence) (sidx : List Byte) (b e : Nat)
    (h16 : 16 ≤ sidx.length) (he : e < 2 ^ 64) :
    (ParseSidx seq sidx b e = .error .assertFailed ↔
        e < (b + sidxSize sidx + 2 ^ 64 - 1) % 2 ^ 64) ∧
      (1 ≤ b + sidxSize sidx → b + sidxSize sidx ≤ e + 1 →
        sidxHeaderLength sidx + 12 * sidxReferenceCount sidx ≤ sidx.length →
        ∃ seq1, ParseSidx seq sidx b e = .ok seq1 ∧
          seq1.segment_index_.length = sidxReferenceCount sidx) := by
  constructor
  · rw [ParseSidx_closed, if_neg (by omega)]
    constructor
    · intro h
      by_contra hno
      rw [if_neg hno] at h
      split at h <;> simp at h
    · intro h
      rw [if_pos h]
  · intro h1 h2 hlen
    exact ⟨_, ParseSidx_accepts seq sidx b e h16 (by omega) hlen, sidxTable_length sidx e⟩

theorem ParseSidx_size_assertion_witness :
    (ParseSidx scenarioSequence (sidxScenarioA 32) 100 131 = .error .assertFailed ↔
        131 < (100 + sidxSize (sidxScenarioA 32) + 2 ^ 64 - 1) % 2 ^ 64) ∧
      (1 ≤ 100 + sidxSize (sidxScenarioA 32) → 100 + sidxSize (sidxScenarioA 32) ≤ 131 + 1 →
        sidxHeaderLength (sidxScenarioA 32) + 12 * sidxReferenceCount (sidxScenarioA 32) ≤
          (sidxScenarioA 32).length →
        ∃ seq1, ParseSidx scenarioSequence (sidxScenarioA 32) 100 131 = .ok seq1 ∧
          seq1.segment_index_.length = sidxReferenceCount (sidxScenarioA 32)) :=
  ParseSidx_size_assertion scenarioSequence (sidxScenarioA 32) 100 131 (by decide)
    (by norm_num)

/-- C7 (as stated) fails: the box of Scenario A with size field 32, fetched from the
range 100-155 of 56 bytes, declares a size that differs from
`sidx_end - sidx_begin + 1`, and `ParseSidx` reports nothing and builds the table. -/
theorem ParseSidx_accepts_smaller_size :
    sidxSize (sidxScenarioA 32) = 32 ∧ 32 ≠ 155 - 100 + 1 ∧
      ParseSidx scenarioSequence (sidxScenarioA 32) 100 155 =
        .ok { scenarioSequence with
          segment_index_ := [MakeEntry 0 2 156 1000, MakeEntry 2 2 1156 1000],
          average_segment_duration_ := 2 } :=
  ⟨by decide, by decide,
    ParseSidx_sidxScenarioA scenarioSequence 32 100 155 (by decide) (by norm_num)⟩

/-! ### Decimal text -/

theorem digitChar_isDigit : ∀ d, d < 10 →
    (Nat.digitChar d).isDigit = true ∧ (Nat.digitChar d).toNat - 48 = d ∧
      Nat.digitChar d ≠ '-' ∧ Nat.digitChar d ≠ '+' ∧ isspace (Nat.digitChar d) = false := by
  decide

/-- What `Nat.toDigitsCore 10` puts in front of its accumulator: a non-empty run of
decimal digits whose value is `n`. -/
theorem toDigitsCore_spec : ∀ (fuel n : Nat) (ds : List Char), n < fuel →
    ∃ pre : List Char, Nat.toDigitsCore 10 fuel n ds = pre ++ ds ∧ pre ≠ [] ∧
      (∀ c ∈ pre, c.isDigit = true ∧ c ≠ '-' ∧ c ≠ '+' ∧ isspace c = false) ∧
      digitsValue pre = n := by
  intro fuel
  induction fuel with
  | zero => intro n ds h; omega
  | succ fuel ih =>
    intro n ds h
    have hd := digitChar_isDigit (n % 10) (Nat.mod_lt _ (by norm_num))
    unfold Nat.toDigitsCore
    by_cases h0 : n / 10 = 0
    · simp only [h0, if_true]
      refine ⟨[Nat.digitChar (n % 10)], rfl, by simp, ?_, ?_⟩
      · intro c hc
        simp only [List.mem_singleton] at hc
        subst hc
        exact ⟨hd.1, hd.2.2.1, hd.2.2.2.1, hd.2.2.2.2⟩
      · simp only [digitsValue, List.foldl_cons, List.foldl_nil, hd.2.1]
        omega
    · simp only [h0, if_false]
      obtain ⟨pre, hpre, hne, hall, hval⟩ := ih (n / 10) (Nat.digitChar (n % 10) :: ds) (by omega)
      refine ⟨pre ++ [Nat.digitChar (n % 10)], by simp [hpre], by simp, ?_, ?_⟩
      · intro c hc
        rcases List.mem_append.1 hc with hc | hc
        · exact hall c hc
        · simp only [List.mem_singleton] at hc
          subst hc
          exact ⟨hd.1, hd.2.2.1, hd.2.2.2.1, hd.2.2.2.2⟩
      · simp only [digitsValue] at hval ⊢
        simp only [List.foldl_append, List.foldl_cons, List.foldl_nil, hval, hd.2.1]
        omega

theorem to_string_spec (n : Nat) :
    to_string n ≠ [] ∧
      (∀ c ∈ to_string n, c.isDigit = true ∧ c ≠ '-' ∧ c ≠ '+' ∧ isspace c = false) ∧
      digitsValue (to_string n) = n := by
  obtain ⟨pre, hpre, hne, hall, hval⟩ := toDigitsCore_spec (n + 1) n [] (by omega)
  simp only [List.append_nil] at hpre
  simp only [to_string, Nat.toDigits, hpre]
  exact ⟨hne, hall, hval⟩


theorem stoul_to_string (w n : Nat) (h : n < 2 ^ w) : stoul w (to_string n) = .ok n := by
  obtain ⟨hne, hall, hval⟩ := to_string_spec n
  generalize to_string n = l at hne hall hval
  cases l with
  | nil => exact absurd rfl hne
  | cons c cs =>
    have hc := hall c (List.mem_cons_self _ _)
    have htake : List.takeWhile Char.isDigit (c :: cs) = c :: cs := by
      rw [List.takeWhile_eq_self_iff]
      intro x hx
      exact (hall x hx).1
    unfold stoul
    rw [List.dropWhile_cons_of_neg (by simp [hc.2.2.2])]
    simp only [hc.2.1, hc.2.2.1, if_false, htake, List.isEmpty_cons, hval, Bool.false_eq_true]
    rw [if_neg (by omega)]

theorem find_to_string_append (a : Nat) (rest : List Char) :
    find (to_string a ++ '-' :: rest) = some (to_string a).length := by
  have hnot : '-' ∉ to_string a := fun hm => ((to_string_spec a).2.1 _ hm).2.1 rfl
  have hidx : List.indexOf '-' (to_string a ++ '-' :: rest) = (to_string a).length := by
    rw [List.indexOf_append_of_not_mem hnot, List.indexOf_cons_self]
    rfl
  simp only [find, hidx, List.length_append, List.length_cons]
  rw [if_pos (by omega)]

theorem take_to_string_append (a : Nat) (rest : List Char) :
    (to_string a ++ '-' :: rest).take (to_string a).length = to_string a := by
  simp

theorem drop_to_string_append (a : Nat) (rest : List Char) :
    (to_string a ++ '-' :: rest).drop ((to_string a).length + 1) = rest := by
  simp

/-! ### Descriptors -/

/-- C9 (as amended): for every manifest with no initialization URL, at least one base
URL, whose chain resolves to a descriptor, and an explicit index range string `s-e`
with decimal start `1 <= s < 2 ^ 32`, `GetInitSegment()` returns that descriptor with
the has-byte-range flag set and range string `0-(s-1)`, and `GetIndexSegment()`
returns it with the flag set and range string exactly `s-e`. -/
theorem GetInitSegment_GetIndexSegment_range (env : Env) (seq : SegmentBaseSequence) (s : Nat)
    (rest : List Char) (base_url : BaseUrl) (segment : Segment)
    (hinit : seq.segment_base_.GetInitialization = none)
    (hurl : seq.base_urls_.getLast? = some base_url)
    (hres : env.ToMediaSegment base_url seq.base_urls_.dropLast = some segment)
    (hrange : seq.segment_base_.GetIndexRange = to_string s ++ '-' :: rest)
    (hs1 : 1 ≤ s) (hs2 : s < 2 ^ 32) (hw : 32 ≤ env.ulongBits) :
    GetInitSegment env seq =
        .ok (some { segment with
          range := ['0', '-'] ++ to_string (s - 1), hasByteRange := true }) ∧
      GetIndexSegment env seq =
        some { segment with range := to_string s ++ '-' :: rest, hasByteRange := true } := by
  have hbase : GetBaseSegment env seq = some segment := by
    simp only [GetBaseSegment, hinit, hurl, hres]
  have hlt : s < 2 ^ env.ulongBits :=
    lt_of_lt_of_le hs2 (Nat.pow_le_pow_right (by norm_num) hw)
  constructor
  · simp only [GetInitSegment, hinit, hrange, find_to_string_append, take_to_string_append,
      stoul_to_string _ _ hlt, hbase, Nat.mod_eq_of_lt hs2]
    rw [if_neg (by omega)]
  · have hne : (to_string s ++ '-' :: rest).isEmpty = false := by
      cases to_string s <;> rfl
    simp only [GetIndexSegment, hrange, hne, hbase, Bool.false_eq_true, if_false]

theorem GetInitSegment_GetIndexSegment_range_witness :
    GetInitSegment (scenarioEnv [] 64) scenarioSequence =
        .ok (some { scenarioSegment with range := "0-99".toList, hasByteRange := true }) ∧
      GetIndexSegment (scenarioEnv [] 64) scenarioSequence =
        some { scenarioSegment with range := "100-131".toList, hasByteRange := true } :=
  GetInitSegment_GetIndexSegment_range (scenarioEnv [] 64) scenarioSequence 100 "131".toList
    "http://example.com/media.mp4".toList scenarioSegment rfl rfl rfl rfl (by decide)
    (by decide) (by decide)

/-- C9 (as stated) fails: for the explicit index range `4294967296-4294967327`, whose
start is `2 ^ 32 >= 1`, `GetInitSegment()` returns no descriptor when `unsigned long`
has 64 bits (the start is truncated to the 32-bit value 0) and throws
`std::out_of_range` when it has 32 bits; in neither case does it return a descriptor
with range `0-4294967295`. -/
theorem GetInitSegment_large_start :
    GetInitSegment (scenarioEnv [] 64) (SegmentBaseSequence.init 1 largeRangeDescription) =
        .ok none ∧
      GetInitSegment (scenarioEnv [] 32) (SegmentBaseSequence.init 1 largeRangeDescription) =
        .error .outOfRange :=
  ⟨rfl, rfl⟩

/-- C10 (as amended): for every iterator on a sequence whose base descriptor resolves
and every index `i < N`, `Get()` returns that descriptor with the has-byte-range flag
set and range string `a-b` where `a = byteOffset[i]` and
`b = (byteOffset[i] + byteSize[i] - 1) mod 2 ^ 64`; when
`1 <= byteOffset[i] + byteSize[i] <= 2 ^ 64` (nothing wraps) and both numbers fit in
`unsigned long`, parsing the string back gives `a` and `b = a + byteSize[i] - 1`, so
`b - a + 1 = byteSize[i]`.  For every index `i >= N`, `Get()` returns none. -/
theorem Get_byte_range (env : Env) (it : SegmentBaseIterator) (seq : SegmentBaseSequence)
    (segment : Segment) (hseq : it.sequence_ = some seq)
    (hbase : GetBaseSegment env seq = some segment) :
    (∀ ent, seq.segment_index_[it.current_index_]? = some ent →
      SegmentBaseIterator.Get env it =
          .ok (some { segment with range := byteRangeOf ent, hasByteRange := true }) ∧
        (1 ≤ ent.byte_offset + ent.byte_size → ent.byte_offset + ent.byte_size ≤ 2 ^ 64 →
          ent.byte_offset < 2 ^ env.ulongBits →
          ent.byte_offset + ent.byte_size ≤ 2 ^ env.ulongBits →
          find (byteRangeOf ent) = some (to_string ent.byte_offset).length ∧
            stoul env.ulongBits ((byteRangeOf ent).take (to_string ent.byte_offset).length) =
              .ok ent.byte_offset ∧
            stoul env.ulongBits
                ((byteRangeOf ent).drop ((to_string ent.byte_offset).length + 1)) =
              .ok (ent.byte_offset + ent.byte_size - 1) ∧
            ((ent.byte_offset + ent.byte_size - 1 : ℕ) : ℤ) - (ent.byte_offset : ℤ) + 1 =
              (ent.byte_size : ℤ))) ∧
      (seq.segment_index_.length ≤ it.current_index_ →
        SegmentBaseIterator.Get env it = .ok none) := by
  constructor
  · intro ent hent
    obtain ⟨hi, hget⟩ := List.getElem?_eq_some_iff.1 hent
    constructor
    · simp only [SegmentBaseIterator.Get, hseq, hi, dite_true, hbase, List.append_assoc,
        List.singleton_append, hget, byteRangeOf]
    · intro h1 h2 h3 h4
      have hb : (ent.byte_offset + ent.byte_size + 2 ^ 64 - 1) % 2 ^ 64 =
          ent.byte_offset + ent.byte_size - 1 := by omega
      refine ⟨find_to_string_append _ _, ?_, ?_, ?_⟩
      · rw [byteRangeOf, take_to_string_append]
        exact stoul_to_string _ _ (by omega)
      · rw [byteRangeOf, drop_to_string_append, hb]
        exact stoul_to_string _ _ (by omega)
      · rw [Nat.cast_sub h1]
        push_cast
        ring
  · intro hi
    simp only [SegmentBaseIterator.Get, hseq, Nat.not_lt.2 hi, dite_false]

theorem Get_byte_range_witness :
    (∀ ent, scenarioLoaded.segment_index_[(MakeIterator scenarioLoaded 1).current_index_]? =
        some ent →
      SegmentBaseIterator.Get (scenarioEnv [] 64) (MakeIterator scenarioLoaded 1) =
          .ok (some { scenarioSegment with range := byteRangeOf ent, hasByteRange := true }) ∧
        (1 ≤ ent.byte_offset + ent.byte_size → ent.byte_offset + ent.byte_size ≤ 2 ^ 64 →
          ent.byte_offset < 2 ^ (scenarioEnv [] 64).ulongBits →
          ent.byte_offset + ent.byte_size ≤ 2 ^ (scenarioEnv [] 64).ulongBits →
          find (byteRangeOf ent) = some (to_string ent.byte_offset).length ∧
            stoul (scenarioEnv [] 64).ulongBits
                ((byteRangeOf ent).take (to_string ent.byte_offset).length) =
              .ok ent.byte_offset ∧
            stoul (scenarioEnv [] 64).ulongBits
                ((byteRangeOf ent).drop ((to_string ent.byte_offset).length + 1)) =
              .ok (ent.byte_offset + ent.byte_size - 1) ∧
            ((ent.byte_offset + ent.byte_size - 1 : ℕ) : ℤ) - (ent.byte_offset : ℤ) + 1 =
              (ent.byte_size : ℤ))) ∧
      (scenarioLoaded.segment_index_.length ≤ (MakeIterator scenarioLoaded 1).current_index_ →
        SegmentBaseIterator.Get (scenarioEnv [] 64) (MakeIterator scenarioLoaded 1) = .ok none) :=
  Get_byte_range (scenarioEnv [] 64) (MakeIterator scenarioLoaded 1) scenarioLoaded
    scenarioSegment rfl rfl

/-- C10 (as stated) fails: in the table of `sidxWrapping`, built by `ParseSidx`, entry 0
has `byteOffset = 18446744073709551524` and `byteSize = 1000`; `Get()` writes the range
`18446744073709551524-907`, whose end is not `byteOffset + byteSize - 1` and from
which `b - a + 1` is not 1000. -/
theorem Get_byte_range_wraps :
    ∃ seq1, ParseSidx scenarioSequence sidxWrapping 100 163 = .ok seq1 ∧
      seq1.segment_index_[0]? = some (MakeEntry 0 2 18446744073709551524 1000) ∧
      GetBaseSegment (scenarioEnv [] 64) seq1 = some scenarioSegment ∧
      SegmentBaseIterator.Get (scenarioEnv [] 64) (MakeIterator seq1 0) =
        .ok (some { scenarioSegment with
          range := "18446744073709551524-907".toList, hasByteRange := true }) ∧
      (907 : ℤ) ≠ 18446744073709551524 + 1000 - 1 ∧
      (907 : ℤ) - 18446744073709551524 + 1 ≠ 1000 :=
  ⟨_, ParseSidx_sidxWrapping scenarioSequence, rfl, rfl, rfl, by decide, by decide⟩

/-! ### Loading the index -/

/-- The run of `LoadIndexSegment` once a descriptor is located, its fetch returns bytes
and both parts of its range string convert: `ParseSidx` on the fetched bytes with the
two numbers truncated to 32 bits. -/
theorem LoadIndexSegment_parse (env : Env) (fuel : Nat) (seq : SegmentBaseSequence)
    (segment : Segment) (fetches pos b e : Nat)
    (hloc : LoadIndexSegment.locate env fuel seq = .ok (some segment, fetches))
    (hdata : (env.DownloadSegment fetches segment).isEmpty = false)
    (hfind : find segment.range = some pos)
    (hb : stoul env.ulongBits (segment.range.take pos) = .ok b)
    (he : stoul env.ulongBits (segment.range.drop (pos + 1)) = .ok e) :
    LoadIndexSegment env fuel seq =
      ParseSidx seq (env.DownloadSegment fetches segment) (b % 2 ^ 32) (e % 2 ^ 32) := by
  simp only [LoadIndexSegment, hloc, hdata, hfind, hb, he, Bool.false_eq_true, if_false]

/-- C8 (as amended): construction returns normally, with an empty table, whenever the
locator returns no descriptor, or the fetch of the located descriptor returns no
bytes, or the located descriptor's byte-range string lacks the `-` separator. -/
theorem construct_absorbs (env : Env) (fuel this : Nat) (desc : RepresentationDescription)
    (located : Option Segment) (fetches : Nat)
    (hloc : LoadIndexSegment.locate env fuel (SegmentBaseSequence.init this desc) =
      .ok (located, fetches))
    (hfail : located = none ∨ ∃ segment, located = some segment ∧
      (env.DownloadSegment fetches segment = [] ∨ find segment.range = none)) :
    SegmentBaseSequence.construct env fuel this desc =
        .ok (SegmentBaseSequence.init this desc) ∧
      (SegmentBaseSequence.init this desc).segment_index_ = [] := by
  refine ⟨?_, rfl⟩
  rcases hfail with h | ⟨segment, h, h2 | h2⟩
  · subst h
    simp only [SegmentBaseSequence.construct, LoadIndexSegment, hloc]
  · subst h
    simp only [SegmentBaseSequence.construct, LoadIndexSegment, hloc, h2, List.isEmpty_nil,
      if_true]
  · subst h
    simp only [SegmentBaseSequence.construct, LoadIndexSegment, hloc, h2]
    split <;> rfl

theorem construct_absorbs_witness :
    SegmentBaseSequence.construct (scenarioEnv [] 64) 100 1 scenarioDescription =
        .ok (SegmentBaseSequence.init 1 scenarioDescription) ∧
      (SegmentBaseSequence.init 1 scenarioDescription).segment_index_ = [] :=
  construct_absorbs (scenarioEnv [] 64) 100 1 scenarioDescription
    (some { scenarioSegment with range := "100-131".toList, hasByteRange := true }) 0 rfl
    (Or.inr ⟨_, rfl, Or.inl rfl⟩)

/-- C8 (as stated) fails: for the manifest with the explicit index range `100-131` and
a network that answers with the 56-byte box of Scenario A declaring size 56,
construction does not finish: the assertion of `ParseSidx` fails and the process
aborts, whether `unsigned long` has 64 or 32 bits. -/
theorem construct_aborts :
    SegmentBaseSequence.construct (scenarioEnv (sidxScenarioA 56) 64) 100 1
        scenarioDescription = .error .assertFailed ∧
      SegmentBaseSequence.construct (scenarioEnv (sidxScenarioA 56) 32) 100 1
        scenarioDescription = .error .assertFailed := by
  constructor
  · rw [SegmentBaseSequence.construct,
      LoadIndexSegment_parse (scenarioEnv (sidxScenarioA 56) 64) 100
        (SegmentBaseSequence.init 1 scenarioDescription)
        { scenarioSegment with range := "100-131".toList, hasByteRange := true } 0 3 100 131
        rfl rfl rfl rfl rfl]
    exact ParseSidx_sidxScenarioA_56 _
  · rw [SegmentBaseSequence.construct,
      LoadIndexSegment_parse (scenarioEnv (sidxScenarioA 56) 32) 100
        (SegmentBaseSequence.init 1 scenarioDescription)
        { scenarioSegment with range := "100-131".toList, hasByteRange := true } 0 3 100 131
        rfl rfl rfl rfl rfl]
    exact ParseSidx_sidxScenarioA_56 _

/-! ### Accessors -/

/-- C11: for every sequence with `N` entries and every index `i`, `Duration(i)` is the
`i`-th entry's duration when `i < N` and `kInvalidSegmentDuration` when `i >= N`, and
`Timestamp(i)` is the `i`-th entry's timestamp when `i < N` and
`kInvalidSegmentTimestamp` when `i >= N`; both are the value of a checked lookup, so
the table is never indexed out of range. -/
theorem Duration_Timestamp_checked (kInvalidSegmentDuration kInvalidSegmentTimestamp : ℚ)
    (seq : SegmentBaseSequence) (i : Nat) :
    (∀ h : i < seq.segment_index_.length,
        Duration kInvalidSegmentDuration seq i = (seq.segment_index_[i]).duration ∧
        Timestamp kInvalidSegmentTimestamp seq i = (seq.segment_index_[i]).timestamp) ∧
      (seq.segment_index_.length ≤ i →
        Duration kInvalidSegmentDuration seq i = kInvalidSegmentDuration ∧
        Timestamp kInvalidSegmentTimestamp seq i = kInvalidSegmentTimestamp) ∧
      Duration kInvalidSegmentDuration seq i =
        ((seq.segment_index_[i]?).map (fun ent => ent.duration)).getD kInvalidSegmentDuration ∧
      Timestamp kInvalidSegmentTimestamp seq i =
        ((seq.segment_index_[i]?).map (fun ent => ent.timestamp)).getD
          kInvalidSegmentTimestamp := by
  refine ⟨fun h => ?_, fun h => ?_, ?_, ?_⟩
  · simp only [Duration, Timestamp, h, dite_true, and_self]
  · simp only [Duration, Timestamp, Nat.not_lt.2 h, dite_false, and_self]
  · by_cases h : i < seq.segment_index_.length
    · simp only [Duration, h, dite_true, List.getElem?_eq_getElem h, Option.map_some',
        Option.getD_some]
    · simp only [Duration, h, dite_false, List.getElem?_eq_none (Nat.not_lt.1 h),
        Option.map_none', Option.getD_none]
  · by_cases h : i < seq.segment_index_.length
    · simp only [Timestamp, h, dite_true, List.getElem?_eq_getElem h, Option.map_some',
        Option.getD_some]
    · simp only [Timestamp, h, dite_false, List.getElem?_eq_none (Nat.not_lt.1 h),
        Option.map_none', Option.getD_none]

/-! ### The parser: determinism, average, layout, entries -/

/-- C13: an accepted run of `ParseSidx` leaves a table and an average that depend only
on the buffer and the byte range: from every prior state the run is accepted and
leaves the same table and average, and a second run on the state the first one left
changes nothing. -/
theorem ParseSidx_deterministic_idempotent (seq seq1 : SegmentBaseSequence)
    (sidx : List Byte) (b e : Nat) (h : ParseSidx seq sidx b e = .ok seq1) :
    (∀ prior : SegmentBaseSequence, ∃ after, ParseSidx prior sidx b e = .ok after ∧
        after.segment_index_ = seq1.segment_index_ ∧
        after.average_segment_duration_ = seq1.average_segment_duration_) ∧
      ParseSidx seq1 sidx b e = .ok seq1 := by
  obtain ⟨h16, ha, hlen, -⟩ := ParseSidx_ok h
  have h1 := ParseSidx_accepts seq sidx b e h16 ha hlen
  rw [h1] at h
  simp only [Except.ok.injEq] at h
  subst h
  exact ⟨fun prior => ⟨_, ParseSidx_accepts prior sidx b e h16 ha hlen, rfl, rfl⟩,
    ParseSidx_accepts _ sidx b e h16 ha hlen⟩

theorem ParseSidx_deterministic_idempotent_witness :
    (∀ prior : SegmentBaseSequence, ∃ after,
        ParseSidx prior (sidxScenarioA 32) 100 131 = .ok after ∧
        after.segment_index_ = scenarioLoaded.segment_index_ ∧
        after.average_segment_duration_ = scenarioLoaded.average_segment_duration_) ∧
      ParseSidx scenarioLoaded (sidxScenarioA 32) 100 131 = .ok scenarioLoaded :=
  ParseSidx_deterministic_idempotent scenarioSequence scenarioLoaded (sidxScenarioA 32) 100 131
    (ParseSidx_sidxScenarioA scenarioSequence 32 100 131 (by decide) (by norm_num))

/-- The running mean kept by the reference loop, multiplied out. -/
theorem averageAfter_mul (timescale : Nat) :
    ∀ (n i : Nat) (average : ℚ) (refs : List Byte),
      averageAfter timescale n i average refs * ((i : ℚ) + (n : ℚ)) =
        average * (i : ℚ) +
          ∑ k in Finset.range n, ToSeconds (refDuration refs k) timescale := by
  intro n
  induction n with
  | zero => intro i average refs; simp [averageAfter]
  | succ n ih =>
    intro i average refs
    have hi : ((i : ℚ) + 1) ≠ 0 := by positivity
    have h := ih (i + 1)
      (average + (ToSeconds (refDuration refs 0) timescale - average) / ((i : ℚ) + 1))
      (refs.drop 12)
    simp only [refDuration_drop] at h
    rw [Finset.sum_range_succ']
    simp only [averageAfter]
    push_cast at h ⊢
    have e : (average + (ToSeconds (refDuration refs 0) timescale - average) / ((i : ℚ) + 1)) *
        ((i : ℚ) + 1) = average * (i : ℚ) + ToSeconds (refDuration refs 0) timescale := by
      field_simp
      ring
    rw [e] at h
    rw [show (i : ℚ) + ((n : ℚ) + 1) = (i : ℚ) + 1 + (n : ℚ) by ring, h]
    ring

theorem sum_map_range (f : Nat → ℚ) (n : Nat) :
    ((List.range n).map f).sum = ∑ k in Finset.range n, f k := by
  induction n with
  | zero => simp
  | succ n ih => simp [List.range_succ, Finset.sum_range_succ, ih]

/-- C14: for every accepted sidx buffer with `timescale > 0`, the average segment
duration left by the incremental update `avg += (d_k - avg) / (k + 1)` is, in exact
arithmetic, the sum of the entries' durations divided by their number
`n = reference_count` when `n >= 1`, and `0` when `n = 0`. -/
theorem average_is_arithmetic_mean (seq seq1 : SegmentBaseSequence) (sidx : List Byte)
    (b e : Nat) (h : ParseSidx seq sidx b e = .ok seq1) (_hT : 0 < sidxTimescale sidx) :
    seq1.segment_index_.length = sidxReferenceCount sidx ∧
      (1 ≤ sidxReferenceCount sidx →
        seq1.average_segment_duration_ =
          (seq1.segment_index_.map (fun ent => ent.duration)).sum /
            (sidxReferenceCount sidx : ℚ)) ∧
      (sidxReferenceCount sidx = 0 → seq1.average_segment_duration_ = 0) := by
  obtain ⟨h16, ha, hlen, htab⟩ := ParseSidx_ok h
  have h1 := ParseSidx_accepts seq sidx b e h16 ha hlen
  rw [h1] at h
  simp only [Except.ok.injEq] at h
  subst h
  refine ⟨sidxTable_length sidx e, fun hn => ?_, fun hn => ?_⟩
  · have hmul := averageAfter_mul (sidxTimescale sidx) (sidxReferenceCount sidx) 0 0
      (sidx.drop (sidxHeaderLength sidx))
    have hne : (sidxReferenceCount sidx : ℚ) ≠ 0 := by
      have : (0 : ℚ) < (sidxReferenceCount sidx : ℚ) := by exact_mod_cast hn
      exact ne_of_gt this
    simp only [Nat.cast_zero, zero_add, mul_zero] at hmul
    have hsum : (List.map (fun ent => ent.duration) (sidxTable sidx e)).sum =
        ∑ k in Finset.range (sidxReferenceCount sidx),
          ToSeconds (refDuration (sidx.drop (sidxHeaderLength sidx)) k) (sidxTimescale sidx) := by
      rw [← sum_map_range]
      simp only [sidxTable, List.map_map]
      rfl
    show averageAfter (sidxTimescale sidx) (sidxReferenceCount sidx) 0 0
        (sidx.drop (sidxHeaderLength sidx)) = _
    rw [hsum, ← hmul, mul_div_assoc, div_self hne, mul_one]
  · show averageAfter (sidxTimescale sidx) (sidxReferenceCount sidx) 0 0
        (sidx.drop (sidxHeaderLength sidx)) = 0
    rw [hn]
    rfl

theorem average_is_arithmetic_mean_witness :
    scenarioLoaded.segment_index_.length = sidxReferenceCount (sidxScenarioA 32) ∧
      (1 ≤ sidxReferenceCount (sidxScenarioA 32) →
        scenarioLoaded.average_segment_duration_ =
          (scenarioLoaded.segment_index_.map (fun ent => ent.duration)).sum /
            (sidxReferenceCount (sidxScenarioA 32) : ℚ)) ∧
      (sidxReferenceCount (sidxScenarioA 32) = 0 →
        scenarioLoaded.average_segment_duration_ = 0) :=
  average_is_arithmetic_mean scenarioSequence scenarioLoaded (sidxScenarioA 32) 100 131
    (ParseSidx_sidxScenarioA scenarioSequence 32 100 131 (by decide) (by norm_num))
    (by decide)

/-- The run of `ParseSidx` on `sidxFirstOffset16` fetched from `100-155`. -/
theorem ParseSidx_sidxFirstOffset16 (seq : SegmentBaseSequence) :
    ParseSidx seq sidxFirstOffset16 100 155 =
      .ok { seq with
        segment_index_ := [MakeEntry 0 2 172 1000, MakeEntry 2 2 1172 1000],
        average_segment_duration_ := 2 } := by
  have hs : sidxSize sidxFirstOffset16 = 56 := rfl
  have hl : sidxFirstOffset16.length = 56 := rfl
  have hh : sidxHeaderLength sidxFirstOffset16 = 32 := rfl
  have ht : sidxTimescale sidxFirstOffset16 = 1000 := rfl
  have hr : sidxReferenceCount sidxFirstOffset16 = 2 := rfl
  have hp : sidxEarliest sidxFirstOffset16 = 0 := rfl
  have hf : sidxFirstOffset sidxFirstOffset16 = 16 := rfl
  have d0 : refDuration (List.drop 32 sidxFirstOffset16) 0 = 2000 := rfl
  have d1 : refDuration (List.drop 32 sidxFirstOffset16) 1 = 2000 := rfl
  have r0 : refSize (List.drop 32 sidxFirstOffset16) 0 = 1000 := rfl
  have r1 : refSize (List.drop 32 sidxFirstOffset16) 1 = 1000 := rfl
  have dd : refDuration (List.drop 12 (List.drop 32 sidxFirstOffset16)) 0 = 2000 := rfl
  rw [ParseSidx_closed, hl, hs, hh, ht, hr, if_neg (by omega), if_neg (by omega),
    if_neg (by omega)]
  simp only [sidxTable, hh, ht, hr, hp, hf, List.range_succ, List.range_zero,
    List.nil_append, List.map_cons, List.map_nil, List.singleton_append, entryAt, ptsAt,
    offsetAt, Finset.sum_range_succ, Finset.range_zero, Finset.sum_empty, d0, d1, r0, r1, dd,
    averageAfter, ToSeconds, MakeEntry, Nat.add_zero, Nat.zero_add, Nat.zero_mod]
  norm_num

/-- C15 (as amended): for every accepted run of `ParseSidx` with at least one
reference, the first entry's byte offset is `sidx_end + 1 + first_offset` in 64-bit
arithmetic; it is `sidx_end + 1` when the box's `first_offset` field is 0 and
`sidx_end + 1` does not wrap. -/
theorem first_byte_offset (seq seq1 : SegmentBaseSequence) (sidx : List Byte) (b e : Nat)
    (h : ParseSidx seq sidx b e = .ok seq1) (hN : 0 < seq1.segment_index_.length) :
    (seq1.segment_index_[0]).byte_offset =
        ((e + 1) % 2 ^ 64 + sidxFirstOffset sidx) % 2 ^ 64 ∧
      (sidxFirstOffset sidx = 0 → e + 1 < 2 ^ 64 →
        (seq1.segment_index_[0]).byte_offset = e + 1) := by
  obtain ⟨-, -, -, htab⟩ := ParseSidx_ok h
  have key : (seq1.segment_index_[0]).byte_offset =
      ((e + 1) % 2 ^ 64 + sidxFirstOffset sidx) % 2 ^ 64 := by
    simp only [htab, sidxTable_getElem, entryAt, MakeEntry, offsetAt, Finset.range_zero,
      Finset.sum_empty, Nat.add_zero, Nat.mod_mod]
  refine ⟨key, fun h0 he => ?_⟩
  rw [key, h0]
  omega

theorem first_byte_offset_witness :
    (scenarioLoaded.segment_index_[0]).byte_offset =
        ((131 + 1) % 2 ^ 64 + sidxFirstOffset (sidxScenarioA 32)) % 2 ^ 64 ∧
      (sidxFirstOffset (sidxScenarioA 32) = 0 → 131 + 1 < 2 ^ 64 →
        (scenarioLoaded.segment_index_[0]).byte_offset = 131 + 1) :=
  first_byte_offset scenarioSequence scenarioLoaded (sidxScenarioA 32) 100 131
    (ParseSidx_sidxScenarioA scenarioSequence 32 100 131 (by decide) (by norm_num))
    (by decide)

/-- C15 (as stated) fails: `sidxFirstOffset16`, whose `first_offset` field is 16, is
accepted from the range `100-155` and its first entry's byte offset is 172, not
`sidx_end + 1 = 156`. -/
theorem first_byte_offset_adds_first_offset :
    ∃ seq1 e0 e1, ParseSidx scenarioSequence sidxFirstOffset16 100 155 = .ok seq1 ∧
      seq1.segment_index_ = [e0, e1] ∧ e0.byte_offset = 172 ∧ e0.byte_offset ≠ 155 + 1 :=
  ⟨_, _, _, ParseSidx_sidxFirstOffset16 scenarioSequence, rfl, rfl, by decide⟩

theorem sidxVersion_eq_getElem (sidx : List Byte) (h8 : 8 < sidx.length) :
    sidxVersion sidx = (sidx[8]).val := by
  unfold sidxVersion beValue
  rw [List.drop_eq_getElem_cons h8]
  simp only [List.take_succ_cons, List.take_zero, List.foldl_cons, List.foldl_nil,
    Nat.zero_mul, Nat.zero_add]

/-- C16: for every accepted buffer, with the version byte (byte 8) equal to 0 the
reference loop is entered with `pts` the 4-byte big-endian value at bytes 20-23,
`offset` the end of the range plus one plus the 4-byte value at bytes 24-27, and
`reference_count` the 2-byte value at bytes 30-31, the references starting at byte 32;
with a non-zero version byte these are the 8-byte values at bytes 20-27 and 28-35 and
the 2-byte value at bytes 38-39, the references starting at byte 40.  In both cases
the table has exactly `reference_count` entries. -/
theorem ParseSidx_version_layout (seq seq1 : SegmentBaseSequence) (sidx : List Byte)
    (b e : Nat) (h : ParseSidx seq sidx b e = .ok seq1) :
    (∀ h8 : 8 < sidx.length, sidxVersion sidx = (sidx[8]).val) ∧
      (sidxVersion sidx = 0 →
        ParseSidx.loop (beValue ((sidx.drop 16).take 4)) (beValue ((sidx.drop 30).take 2)) 0
            { seq with segment_index_ := [], average_segment_duration_ := 0 }
            (beValue ((sidx.drop 20).take 4))
            (((e + 1) % 2 ^ 64 + beValue ((sidx.drop 24).take 4)) % 2 ^ 64)
            (sidx.drop 32) = .ok seq1 ∧
          seq1.segment_index_.length = beValue ((sidx.drop 30).take 2)) ∧
      (sidxVersion sidx ≠ 0 →
        ParseSidx.loop (beValue ((sidx.drop 16).take 4)) (beValue ((sidx.drop 38).take 2)) 0
            { seq with segment_index_ := [], average_segment_duration_ := 0 }
            (beValue ((sidx.drop 20).take 8))
            (((e + 1) % 2 ^ 64 + beValue ((sidx.drop 28).take 8)) % 2 ^ 64)
            (sidx.drop 40) = .ok seq1 ∧
          seq1.segment_index_.length = beValue ((sidx.drop 38).take 2)) := by
  obtain ⟨h16, ha, hlen, htab⟩ := ParseSidx_ok h
  have hN : seq1.segment_index_.length = sidxReferenceCount sidx := by
    rw [htab, sidxTable_length]
  have hloop := h
  rw [ParseSidx_eq, if_neg (by omega), if_neg (by omega), if_neg (by omega)] at hloop
  refine ⟨fun h8 => sidxVersion_eq_getElem sidx h8, fun hv => ?_, fun hv => ?_⟩
  · have h4 := beValue_take_lt 4 (sidx.drop 20)
    simp only [sidxTimescale, sidxReferenceCount, sidxHeaderLength, sidxEarliest,
      sidxFirstOffset, hv, if_true, Nat.reduceSub, Nat.mod_eq_of_lt
        (lt_trans h4 (by norm_num : 2 ^ (8 * 4) < 2 ^ 64))] at hloop hN
    exact ⟨hloop, hN⟩
  · have h8 := beValue_take_lt 8 (sidx.drop 20)
    simp only [sidxTimescale, sidxReferenceCount, sidxHeaderLength, sidxEarliest,
      sidxFirstOffset, hv, if_false, Nat.reduceSub, Nat.mod_eq_of_lt
        (by simpa using h8 : beValue ((sidx.drop 20).take 8) < 2 ^ 64)] at hloop hN
    exact ⟨hloop, hN⟩

theorem ParseSidx_version_layout_witness :
    (∀ h8 : 8 < (sidxScenarioA 32).length,
        sidxVersion (sidxScenarioA 32) = ((sidxScenarioA 32)[8]).val) ∧
      (sidxVersion (sidxScenarioA 32) = 0 →
        ParseSidx.loop (beValue (((sidxScenarioA 32).drop 16).take 4))
            (beValue (((sidxScenarioA 32).drop 30).take 2)) 0
            { scenarioSequence with segment_index_ := [], average_segment_duration_ := 0 }
            (beValue (((sidxScenarioA 32).drop 20).take 4))
            (((131 + 1) % 2 ^ 64 + beValue (((sidxScenarioA 32).drop 24).take 4)) % 2 ^ 64)
            ((sidxScenarioA 32).drop 32) = .ok scenarioLoaded ∧
          scenarioLoaded.segment_index_.length =
            beValue (((sidxScenarioA 32).drop 30).take 2)) ∧
      (sidxVersion (sidxScenarioA 32) ≠ 0 →
        ParseSidx.loop (beValue (((sidxScenarioA 32).drop 16).take 4))
            (beValue (((sidxScenarioA 32).drop 38).take 2)) 0
            { scenarioSequence with segment_index_ := [], average_segment_duration_ := 0 }
            (beValue (((sidxScenarioA 32).drop 20).take 8))
            (((131 + 1) % 2 ^ 64 + beValue (((sidxScenarioA 32).drop 28).take 8)) % 2 ^ 64)
            ((sidxScenarioA 32).drop 40) = .ok scenarioLoaded ∧
          scenarioLoaded.segment_index_.length =
            beValue (((sidxScenarioA 32).drop 38).take 2)) :=
  ParseSidx_version_layout scenarioSequence scenarioLoaded (sidxScenarioA 32) 100 131
    (ParseSidx_sidxScenarioA scenarioSequence 32 100 131 (by decide) (by norm_num))

/-- One iteration of the loop of `FindIndexSegmentInMp4`, in terms of the header
fetched for the probe. -/
theorem FindIndexSegmentInMp4_loop_step (env : Env) (fuel fetches : Nat) (segment : Segment)
    (mov_atom_begin : Nat) (is_mp4 : Bool) :
    FindIndexSegmentInMp4.loop env (fuel + 1) fetches segment mov_atom_begin is_mp4 =
      if (env.DownloadSegment fetches (probeSegment segment mov_atom_begin)).isEmpty then
        .ok (none, fetches + 1)
      else if (env.DownloadSegment fetches (probeSegment segment mov_atom_begin)).length < 8 then
        .error .outOfBounds
      else if !is_mp4 &&
          boxType (env.DownloadSegment fetches (probeSegment segment mov_atom_begin)) !=
            FourCC 'f' 't' 'y' 'p' then
        .ok (none, fetches + 1)
      else if boxType (env.DownloadSegment fetches (probeSegment segment mov_atom_begin)) =
          FourCC 'f' 't' 'y' 'p' then
        FindIndexSegmentInMp4.loop env fuel (fetches + 1) (probeSegment segment mov_atom_begin)
          ((mov_atom_begin +
            boxSize (env.DownloadSegment fetches (probeSegment segment mov_atom_begin))) %
              2 ^ 32) true
      else if boxType (env.DownloadSegment fetches (probeSegment segment mov_atom_begin)) =
          FourCC 's' 'i' 'd' 'x' then
        .ok (some { probeSegment segment mov_atom_begin with
          range := ToHttpRange mov_atom_begin
            (boxSize (env.DownloadSegment fetches (probeSegment segment mov_atom_begin))),
          hasByteRange := true }, fetches + 1)
      else
        FindIndexSegmentInMp4.loop env fuel (fetches + 1) (probeSegment segment mov_atom_begin)
          ((mov_atom_begin +
            boxSize (env.DownloadSegment fetches (probeSegment segment mov_atom_begin))) %
              2 ^ 32) is_mp4 := by
  generalize hd : env.DownloadSegment fetches (probeSegment segment mov_atom_begin) = data
  have hd2 : env.DownloadSegment fetches
      { segment with range := ToHttpRange mov_atom_begin kMovAtomBaseDataSize,
                     hasByteRange := true } = data := hd
  simp only [FindIndexSegmentInMp4.loop, hd2, NextUnsigned_eq, List.length_drop]
  by_cases he : data.isEmpty
  · simp only [he, if_true]
  · simp only [he, Bool.false_eq_true, if_false]
    by_cases h8 : data.length < 8
    · simp only [h8, if_true]
      by_cases h4 : 4 ≤ data.length
      · have : ¬ 4 ≤ data.length - 4 := by omega
        simp only [h4, this, if_true, if_false, List.length_drop]
      · simp only [h4, if_false]
    · have h4 : 4 ≤ data.length := by omega
      have h44 : 4 ≤ data.length - 4 := by omega
      simp only [h8, h4, h44, if_true, if_false, boxType, boxSize, probeSegment,
        List.length_drop]

/-- The loop of `FindIndexSegmentInMp4` reads nothing of the descriptor it is given
but the resource it names. -/
theorem FindIndexSegmentInMp4_loop_congr (env : Env) (fuel fetches : Nat)
    (segment other : Segment) (mov_atom_begin : Nat) (is_mp4 : Bool)
    (h : segment.resource = other.resource) :
    FindIndexSegmentInMp4.loop env fuel fetches segment mov_atom_begin is_mp4 =
      FindIndexSegmentInMp4.loop env fuel fetches other mov_atom_begin is_mp4 := by
  cases fuel with
  | zero => rfl
  | succ fuel =>
    have hp : probeSegment segment mov_atom_begin = probeSegment other mov_atom_begin := by
      simp only [probeSegment, h]
    rw [FindIndexSegmentInMp4_loop_step, FindIndexSegmentInMp4_loop_step, hp]

/-- C12: for every manifest with no representation-index URL and no explicit index
range whose base descriptor resolves, if the first 8 bytes fetched from the base
resource (range `0-7`) decode to a box type other than `ftyp`, then
`FindIndexSegmentInMp4` returns no descriptor after that single probe, the constructed
sequence has zero entries, and `Begin()` equals `End()`. -/
theorem scan_stops_at_non_ftyp (env : Env) (fuel this : Nat) (desc : RepresentationDescription)
    (segment : Segment) (hrep : desc.segment_base.GetRepresentationIndex = none)
    (hrange : desc.segment_base.GetIndexRange = [])
    (hbase : GetBaseSegment env (SegmentBaseSequence.init this desc) = some segment)
    (hlen : 8 ≤ (env.DownloadSegment 0 (probeSegment segment 0)).length)
    (htype : boxType (env.DownloadSegment 0 (probeSegment segment 0)) ≠ FourCC 'f' 't' 'y' 'p')
    (hfuel : 0 < fuel) :
    (probeSegment segment 0).range = "0-7".toList ∧
      FindIndexSegmentInMp4 env fuel (SegmentBaseSequence.init this desc) = .ok (none, 1) ∧
      ∃ seq, SegmentBaseSequence.construct env fuel this desc = .ok seq ∧
        seq.segment_index_.length = 0 ∧ Begin seq = End seq ∧
        SegmentBaseIterator.Equals (Begin seq) (End seq) = true := by
  obtain ⟨fuel, rfl⟩ : ∃ n, fuel = n + 1 := ⟨fuel - 1, by omega⟩
  have hne : (env.DownloadSegment 0 (probeSegment segment 0)).isEmpty = false := by
    cases hd : env.DownloadSegment 0 (probeSegment segment 0) with
    | nil => rw [hd] at hlen; simp at hlen
    | cons a l => rfl
  have hfind : FindIndexSegmentInMp4 env (fuel + 1) (SegmentBaseSequence.init this desc) =
      .ok (none, 1) := by
    simp only [FindIndexSegmentInMp4, hbase]
    rw [FindIndexSegmentInMp4_loop_step]
    simp only [hne, Bool.false_eq_true, if_false, Nat.not_lt.2 hlen, Bool.not_false,
      Bool.true_and, bne_iff_ne, ne_eq, htype, not_false_eq_true, if_true]
  refine ⟨rfl, hfind, SegmentBaseSequence.init this desc, ?_, rfl, rfl, ?_⟩
  · have hrepseg : GetRepresentationIndexSegment env (SegmentBaseSequence.init this desc) =
        none := by
      simp only [GetRepresentationIndexSegment, SegmentBaseSequence.init, hrep]
    have hidx : GetIndexSegment env (SegmentBaseSequence.init this desc) = none := by
      simp only [GetIndexSegment, SegmentBaseSequence.init, hrange, List.isEmpty_nil, if_true]
    simp only [SegmentBaseSequence.construct, LoadIndexSegment, LoadIndexSegment.locate,
      hrepseg, hidx, hfind]
  · simp [SegmentBaseIterator.Equals, SegmentBaseIterator.eq, Begin, End, MakeIterator,
      SegmentBaseSequence.init]

theorem scan_stops_at_non_ftyp_witness :
    (probeSegment scenarioSegment 0).range = "0-7".toList ∧
      FindIndexSegmentInMp4 (scenarioEnv moovHeader 64) 100
        (SegmentBaseSequence.init 1 noIndexDescription) = .ok (none, 1) ∧
      ∃ seq, SegmentBaseSequence.construct (scenarioEnv moovHeader 64) 100 1
          noIndexDescription = .ok seq ∧
        seq.segment_index_.length = 0 ∧ Begin seq = End seq ∧
        SegmentBaseIterator.Equals (Begin seq) (End seq) = true :=
  scan_stops_at_non_ftyp (scenarioEnv moovHeader 64) 100 1 noIndexDescription scenarioSegment
    rfl rfl rfl (by decide) (by decide) (by decide)

theorem boxOffset_succ (boxes : List (Nat × Nat)) (j : Nat) (hj : j < boxes.length) :
    boxOffset boxes (j + 1) = boxOffset boxes j + (boxes[j]).1 := by
  induction boxes generalizing j with
  | nil => simp at hj
  | cons bx rest ih =>
    cases j with
    | zero => simp [boxOffset]
    | succ j =>
      have hj2 : j < rest.length := by simpa using hj
      have := ih j hj2
      simp only [boxOffset, List.take_succ_cons, List.map_cons, List.sum_cons,
        List.getElem_cons_succ] at this ⊢
      omega

theorem boxOffset_mono (boxes : List (Nat × Nat)) (j k : Nat) (hjk : j ≤ k)
    (hk : k ≤ boxes.length) : boxOffset boxes j ≤ boxOffset boxes k := by
  induction k with
  | zero =>
    have : j = 0 := by omega
    subst this
    exact le_refl _
  | succ k ih =>
    rcases Nat.eq_or_lt_of_le hjk with h | h
    · subst h; exact le_refl _
    · have h1 := ih (by omega) (by omega)
      have h2 := boxOffset_succ boxes k (by omega)
      omega

/-- The loop of `FindIndexSegmentInMp4` over the boxes before the first `sidx`: when
probe `j` returns the header of box `j`, the first box is `ftyp`, none is `sidx` and the
offsets stay below `2 ^ 32`, the loop reaches the probe after the last of them. -/
theorem FindIndexSegmentInMp4_loop_skips (env : Env) (segment : Segment)
    (boxes : List (Nat × Nat))
    (hfirst : ∀ bx, boxes.head? = some bx → bx.2 = FourCC 'f' 't' 'y' 'p')
    (hnosidx : ∀ bx ∈ boxes, bx.2 ≠ FourCC 's' 'i' 'd' 'x')
    (hprobe : ∀ j (hj : j < boxes.length),
      8 ≤ (env.DownloadSegment j (probeSegment segment (boxOffset boxes j))).length ∧
      boxSize (env.DownloadSegment j (probeSegment segment (boxOffset boxes j))) =
        (boxes[j]).1 ∧
      boxType (env.DownloadSegment j (probeSegment segment (boxOffset boxes j))) =
        (boxes[j]).2)
    (hp : boxOffset boxes boxes.length < 2 ^ 32) :
    ∀ (n j fuel : Nat), j + n = boxes.length →
      FindIndexSegmentInMp4.loop env (fuel + n) j segment (boxOffset boxes j) (decide (0 < j)) =
        FindIndexSegmentInMp4.loop env fuel boxes.length segment
          (boxOffset boxes boxes.length) (decide (0 < boxes.length)) := by
  intro n
  induction n with
  | zero =>
    intro j fuel hj
    have : j = boxes.length := by omega
    subst this
    rfl
  | succ n ih =>
    intro j fuel hj
    have hjlt : j < boxes.length := by omega
    obtain ⟨h8, hsize, htype⟩ := hprobe j hjlt
    have hne : (env.DownloadSegment j (probeSegment segment (boxOffset boxes j))).isEmpty =
        false := by
      cases hd : env.DownloadSegment j (probeSegment segment (boxOffset boxes j)) with
      | nil => rw [hd] at h8; simp at h8
      | cons a l => rfl
    have hnext : (boxOffset boxes j + (boxes[j]).1) % 2 ^ 32 = boxOffset boxes (j + 1) := by
      rw [boxOffset_succ boxes j hjlt]
      have := boxOffset_mono boxes (j + 1) boxes.length (by omega) (le_refl _)
      rw [boxOffset_succ boxes j hjlt] at this
      exact Nat.mod_eq_of_lt (by omega)
    have hns : (boxes[j]).2 ≠ FourCC 's' 'i' 'd' 'x' :=
      hnosidx _ (List.getElem_mem _)
    have hrec := ih (j + 1) fuel (by omega)
    have hdec : decide (0 < j + 1) = true := by simp
    rw [hdec] at hrec
    rw [show fuel + (n + 1) = (fuel + n) + 1 by omega, FindIndexSegmentInMp4_loop_step]
    simp only [hne, Bool.false_eq_true, if_false, Nat.not_lt.2 h8, hsize, htype, hnext]
    by_cases hft : (boxes[j]).2 = FourCC 'f' 't' 'y' 'p'
    · simp only [hft, bne_self_eq_false, Bool.and_false, Bool.false_eq_true, if_false, if_true]
      rw [FindIndexSegmentInMp4_loop_congr env _ _ (probeSegment segment (boxOffset boxes j))
        segment _ _ rfl]
      exact hrec
    · have hj0 : 0 < j := by
        rcases Nat.eq_zero_or_pos j with h0 | h0
        · subst h0
          exfalso
          apply hft
          apply hfirst
          cases boxes with
          | nil => simp at hjlt
          | cons bx rest => rfl
        · exact h0
      have hd : decide (0 < j) = true := by simp [hj0]
      simp only [hd, Bool.not_true, Bool.false_and, Bool.false_eq_true, if_false, hft, hns]
      rw [FindIndexSegmentInMp4_loop_congr env _ _ (probeSegment segment (boxOffset boxes j))
        segment _ _ rfl]
      exact hrec

theorem probeSegment_range (segment : Segment) (offset : Nat) :
    (probeSegment segment offset).range =
      to_string offset ++ '-' :: to_string ((offset + 7) % 2 ^ 32) := by
  have h : (offset + kMovAtomBaseDataSize + 2 ^ 32 - 1) % 2 ^ 32 = (offset + 7) % 2 ^ 32 := by
    simp only [kMovAtomBaseDataSize]
    omega
  simp only [probeSegment, ToHttpRange, h, List.append_assoc, List.singleton_append]

/-- C18 (as amended): the base resource is a fetch oracle whose `j`-th answer, at the
probe of offset `s_0 + ... + s_(j-1)`, is the header of box `j`.  For every container
whose first box is `ftyp`, whose boxes before the first `sidx` box have declared sizes
`s_0 .. s_(k-1)` and whose first `sidx` box has declared size `s`, with
`p = s_0 + ... + s_(k-1) < 2 ^ 32` and `1 <= p + s <= 2 ^ 32` (32-bit offsets do not
wrap), `FindIndexSegmentInMp4` makes `k + 1` probes, at offsets `0, s_0, s_0 + s_1, ...`
in order, and returns the base descriptor with the has-byte-range flag set and range
string `p-(p+s-1)`; if the probe after those boxes returns empty bytes instead, it
returns no descriptor. -/
theorem scan_finds_sidx (env : Env) (seq : SegmentBaseSequence) (segment : Segment)
    (boxes : List (Nat × Nat)) (s : Nat)
    (hbase : GetBaseSegment env seq = some segment)
    (hfirst : ∀ bx, boxes.head? = some bx → bx.2 = FourCC 'f' 't' 'y' 'p')
    (hnosidx : ∀ bx ∈ boxes, bx.2 ≠ FourCC 's' 'i' 'd' 'x')
    (hprobe : ∀ j (hj : j < boxes.length),
      8 ≤ (env.DownloadSegment j (probeSegment segment (boxOffset boxes j))).length ∧
      boxSize (env.DownloadSegment j (probeSegment segment (boxOffset boxes j))) =
        (boxes[j]).1 ∧
      boxType (env.DownloadSegment j (probeSegment segment (boxOffset boxes j))) =
        (boxes[j]).2)
    (hp : boxOffset boxes boxes.length < 2 ^ 32) :
    (∀ j, (probeSegment segment (boxOffset boxes j)).range =
        to_string (boxOffset boxes j) ++ '-' :: to_string ((boxOffset boxes j + 7) % 2 ^ 32)) ∧
      (env.DownloadSegment boxes.length
          (probeSegment segment (boxOffset boxes boxes.length)) = [] →
        ∀ fuel, boxes.length < fuel →
          FindIndexSegmentInMp4 env fuel seq = .ok (none, boxes.length + 1)) ∧
      (0 < boxes.length →
        8 ≤ (env.DownloadSegment boxes.length
          (probeSegment segment (boxOffset boxes boxes.length))).length →
        boxType (env.DownloadSegment boxes.length
          (probeSegment segment (boxOffset boxes boxes.length))) = FourCC 's' 'i' 'd' 'x' →
        boxSize (env.DownloadSegment boxes.length
          (probeSegment segment (boxOffset boxes boxes.length))) = s →
        1 ≤ boxOffset boxes boxes.length + s → boxOffset boxes boxes.length + s ≤ 2 ^ 32 →
        ∀ fuel, boxes.length < fuel →
          FindIndexSegmentInMp4 env fuel seq =
            .ok (some { segment with
              range := to_string (boxOffset boxes boxes.length) ++ '-' ::
                to_string (boxOffset boxes boxes.length + s - 1),
              hasByteRange := true }, boxes.length + 1)) := by
  have hreach : ∀ fuel, boxes.length < fuel →
      FindIndexSegmentInMp4 env fuel seq =
        FindIndexSegmentInMp4.loop env (fuel - boxes.length - 1 + 1) boxes.length segment
          (boxOffset boxes boxes.length) (decide (0 < boxes.length)) := by
    intro fuel hfuel
    have h := FindIndexSegmentInMp4_loop_skips env segment boxes hfirst hnosidx hprobe hp
      boxes.length 0 (fuel - boxes.length - 1 + 1) (by omega)
    have hf : fuel - boxes.length - 1 + 1 + boxes.length = fuel := by omega
    rw [hf] at h
    simp only [FindIndexSegmentInMp4, hbase]
    exact h
  refine ⟨fun j => probeSegment_range segment _, fun hempty fuel hfuel => ?_,
    fun hk h8 htype hsize h1 h2 fuel hfuel => ?_⟩
  · rw [hreach fuel hfuel, FindIndexSegmentInMp4_loop_step, hempty]
    rfl
  · have hne : (env.DownloadSegment boxes.length
        (probeSegment segment (boxOffset boxes boxes.length))).isEmpty = false := by
      cases hd : env.DownloadSegment boxes.length
          (probeSegment segment (boxOffset boxes boxes.length)) with
      | nil => rw [hd] at h8; simp at h8
      | cons a l => rfl
    have hd : decide (0 < boxes.length) = true := by simp [hk]
    have hneq : FourCC 's' 'i' 'd' 'x' ≠ FourCC 'f' 't' 'y' 'p' := by decide
    have hend : (boxOffset boxes boxes.length + s + 2 ^ 32 - 1) % 2 ^ 32 =
        boxOffset boxes boxes.length + s - 1 := by omega
    rw [hreach fuel hfuel, FindIndexSegmentInMp4_loop_step]
    simp only [hne, Bool.false_eq_true, if_false, Nat.not_lt.2 h8, htype, hsize, hd,
      Bool.not_true, Bool.false_and, hneq, if_true]
    simp only [probeSegment, ToHttpRange, hend, List.append_assoc, List.singleton_append]

theorem scan_finds_sidx_witness :
    (∀ j, (probeSegment scenarioSegment
          (boxOffset [(24, FourCC 'f' 't' 'y' 'p'), (100, FourCC 'm' 'o' 'o' 'v')] j)).range =
        to_string (boxOffset [(24, FourCC 'f' 't' 'y' 'p'), (100, FourCC 'm' 'o' 'o' 'v')] j) ++
          '-' :: to_string
            ((boxOffset [(24, FourCC 'f' 't' 'y' 'p'), (100, FourCC 'm' 'o' 'o' 'v')] j + 7) %
              2 ^ 32)) ∧
      (smallContainerEnv.DownloadSegment 2 (probeSegment scenarioSegment 124) = [] →
        ∀ fuel, 2 < fuel →
          FindIndexSegmentInMp4 smallContainerEnv fuel
            (SegmentBaseSequence.init 1 noIndexDescription) = .ok (none, 2 + 1)) ∧
      (0 < 2 →
        8 ≤ (smallContainerEnv.DownloadSegment 2 (probeSegment scenarioSegment 124)).length →
        boxType (smallContainerEnv.DownloadSegment 2 (probeSegment scenarioSegment 124)) =
          FourCC 's' 'i' 'd' 'x' →
        boxSize (smallContainerEnv.DownloadSegment 2 (probeSegment scenarioSegment 124)) = 56 →
        1 ≤ 124 + 56 → 124 + 56 ≤ 2 ^ 32 →
        ∀ fuel, 2 < fuel →
          FindIndexSegmentInMp4 smallContainerEnv fuel
              (SegmentBaseSequence.init 1 noIndexDescription) =
            .ok (some { scenarioSegment with
              range := to_string 124 ++ '-' :: to_string (124 + 56 - 1),
              hasByteRange := true }, 2 + 1)) :=
  scan_finds_sidx smallContainerEnv (SegmentBaseSequence.init 1 noIndexDescription)
    scenarioSegment [(24, FourCC 'f' 't' 'y' 'p'), (100, FourCC 'm' 'o' 'o' 'v')] 56 rfl
    (by decide) (by decide) (by decide) (by decide)

/-- C18 (as stated) fails: `largeContainerEnv` serves an `ftyp` box of 24 bytes, an
`mdat` box of 4294967280 bytes and a `sidx` box of 56 bytes at offset
`p = 24 + 4294967280 = 4294967304`; the 32-bit probe offset wraps to 8, the third
probe is made at `8-15` instead of `4294967304-4294967311`, and the scan returns no
descriptor instead of one with range `4294967304-4294967359`. -/
theorem scan_offset_wraps :
    boxSize ftypHeader = 24 ∧ boxType ftypHeader = FourCC 'f' 't' 'y' 'p' ∧
      largeContainerEnv.DownloadSegment 0 (probeSegment scenarioSegment 0) = ftypHeader ∧
      boxSize mdatHeaderLarge = 4294967280 ∧
      largeContainerEnv.DownloadSegment 1 (probeSegment scenarioSegment 24) = mdatHeaderLarge ∧
      largeContainerEnv.DownloadSegment 2
        { scenarioSegment with
          range := "4294967304-4294967311".toList, hasByteRange := true } = sidxHeader ∧
      boxSize sidxHeader = 56 ∧ boxType sidxHeader = FourCC 's' 'i' 'd' 'x' ∧
      (probeSegment scenarioSegment ((24 + 4294967280) % 2 ^ 32)).range = "8-15".toList ∧
      FindIndexSegmentInMp4 largeContainerEnv 100
        (SegmentBaseSequence.init 1 noIndexDescription) = .ok (none, 3) := by
  refine ⟨by decide, by decide, rfl, by decide, rfl, rfl, by decide, by decide, rfl, rfl⟩

/-- C19 (the code at the failing input): when the network answers the probe at offset
0 with the header of an `ftyp` box that declares size 0, every iteration of the loop of
`FindIndexSegmentInMp4` ends by probing offset 0 again, and the scan does not return
within any number of iterations. -/
theorem scan_zero_size_box_never_returns :
    boxSize ftypHeaderZero = 0 ∧ boxType ftypHeaderZero = FourCC 'f' 't' 'y' 'p' ∧
      (∀ fuel fetches is_mp4,
        FindIndexSegmentInMp4.loop (scenarioEnv ftypHeaderZero 64) (fuel + 1) fetches
            scenarioSegment 0 is_mp4 =
          FindIndexSegmentInMp4.loop (scenarioEnv ftypHeaderZero 64) fuel (fetches + 1)
            (probeSegment scenarioSegment 0) 0 true) ∧
      (∀ fuel, FindIndexSegmentInMp4 (scenarioEnv ftypHeaderZero 64) fuel
        (SegmentBaseSequence.init 1 noIndexDescription) = .error .outOfFuel) := by
  have hstep : ∀ fuel fetches (segment : Segment) is_mp4,
      FindIndexSegmentInMp4.loop (scenarioEnv ftypHeaderZero 64) (fuel + 1) fetches
          segment 0 is_mp4 =
        FindIndexSegmentInMp4.loop (scenarioEnv ftypHeaderZero 64) fuel (fetches + 1)
          (probeSegment segment 0) 0 true := by
    intro fuel fetches segment is_mp4
    have hd : (scenarioEnv ftypHeaderZero 64).DownloadSegment fetches (probeSegment segment 0) =
        ftypHeaderZero := rfl
    have hs : boxSize ftypHeaderZero = 0 := by decide
    have ht : boxType ftypHeaderZero = FourCC 'f' 't' 'y' 'p' := by decide
    have he : ftypHeaderZero.isEmpty = false := rfl
    have hl : ¬ ftypHeaderZero.length < 8 := by decide
    rw [FindIndexSegmentInMp4_loop_step, hd]
    simp only [he, hl, hs, ht, Bool.false_eq_true, if_false, bne_self_eq_false, Bool.and_false,
      if_true, Nat.add_zero, Nat.zero_mod]
  have hloop : ∀ fuel fetches (segment : Segment) is_mp4,
      FindIndexSegmentInMp4.loop (scenarioEnv ftypHeaderZero 64) fuel fetches segment 0 is_mp4 =
        .error .outOfFuel := by
    intro fuel
    induction fuel with
    | zero => intro fetches segment is_mp4; rfl
    | succ fuel ih =>
      intro fetches segment is_mp4
      rw [hstep]
      exact ih _ _ _
  refine ⟨by decide, by decide, fun fuel fetches is_mp4 => hstep fuel fetches _ is_mp4,
    fun fuel => ?_⟩
  have hbase : GetBaseSegment (scenarioEnv ftypHeaderZero 64)
      (SegmentBaseSequence.init 1 noIndexDescription) = some scenarioSegment := rfl
  simp only [FindIndexSegmentInMp4, hbase]
  exact hloop fuel 0 _ false

/-! ### The byte range handed to the parser -/

/-- The run of `LoadIndexSegment` on a located descriptor with range string `s-e` whose
fetch returns bytes: `ParseSidx` is called with `s` and `e` reduced modulo `2 ^ 32`. -/
theorem LoadIndexSegment_range (env : Env) (fuel : Nat) (seq : SegmentBaseSequence)
    (segment : Segment) (fetches s e : Nat)
    (hloc : LoadIndexSegment.locate env fuel seq = .ok (some segment, fetches))
    (hdata : (env.DownloadSegment fetches segment).isEmpty = false)
    (hrange : segment.range = to_string s ++ '-' :: to_string e)
    (hs : s < 2 ^ env.ulongBits) (he : e < 2 ^ env.ulongBits) :
    LoadIndexSegment env fuel seq =
      ParseSidx seq (env.DownloadSegment fetches segment) (s % 2 ^ 32) (e % 2 ^ 32) := by
  refine LoadIndexSegment_parse env fuel seq segment fetches (to_string s).length s e hloc hdata
    ?_ ?_ ?_
  · rw [hrange]; exact find_to_string_append s _
  · rw [hrange, take_to_string_append]; exact stoul_to_string _ _ hs
  · rw [hrange, drop_to_string_append]; exact stoul_to_string _ _ he

/-- C20 (the code at the failing input): for the located range `4294967296-4294967351`
and a fetch that returns the 56-byte box of Scenario A with size field 56,
`LoadIndexSegment` with a 64-bit `unsigned long` calls `ParseSidx` with
`sidx_begin = 0` and `sidx_end = 55`, so the table's byte offsets are 56 and 1056,
whereas `ParseSidx` called with the true range gives 4294967352 and 4294968352; with a
32-bit `unsigned long`, `std::stoul` throws `std::out_of_range`. -/
theorem LoadIndexSegment_truncates_range :
    LoadIndexSegment (scenarioEnv (sidxScenarioA 56) 64) 100
        (SegmentBaseSequence.init 1 largeIndexDescription) =
      ParseSidx (SegmentBaseSequence.init 1 largeIndexDescription) (sidxScenarioA 56) 0 55 ∧
    SegmentBaseSequence.construct (scenarioEnv (sidxScenarioA 56) 64) 100 1
        largeIndexDescription =
      .ok { SegmentBaseSequence.init 1 largeIndexDescription with
        segment_index_ := [MakeEntry 0 2 56 1000, MakeEntry 2 2 1056 1000],
        average_segment_duration_ := 2 } ∧
    ParseSidx (SegmentBaseSequence.init 1 largeIndexDescription) (sidxScenarioA 56)
        4294967296 4294967351 =
      .ok { SegmentBaseSequence.init 1 largeIndexDescription with
        segment_index_ := [MakeEntry 0 2 4294967352 1000, MakeEntry 2 2 4294968352 1000],
        average_segment_duration_ := 2 } ∧
    SegmentBaseSequence.construct (scenarioEnv (sidxScenarioA 56) 32) 100 1
        largeIndexDescription = .error .outOfRange := by
  have hcall : LoadIndexSegment (scenarioEnv (sidxScenarioA 56) 64) 100
      (SegmentBaseSequence.init 1 largeIndexDescription) =
      ParseSidx (SegmentBaseSequence.init 1 largeIndexDescription) (sidxScenarioA 56) 0 55 :=
    LoadIndexSegment_range (scenarioEnv (sidxScenarioA 56) 64) 100
      (SegmentBaseSequence.init 1 largeIndexDescription)
      { scenarioSegment with range := "4294967296-4294967351".toList, hasByteRange := true }
      0 4294967296 4294967351 rfl rfl rfl (by decide) (by decide)
  refine ⟨hcall, ?_, ?_, rfl⟩
  · rw [SegmentBaseSequence.construct, hcall]
    exact ParseSidx_sidxScenarioA _ 56 0 55 (by decide) (by norm_num)
  · exact ParseSidx_sidxScenarioA _ 56 4294967296 4294967351 (by decide) (by norm_num)

/-! ### Rounding to `double` -/

theorem roundTiesToEven_bounds (x : ℚ) :
    ⌊x⌋ ≤ roundTiesToEven x ∧ roundTiesToEven x ≤ ⌊x⌋ + 1 := by
  unfold roundTiesToEven
  split_ifs <;> constructor <;> omega

theorem roundTiesToEven_mono {x y : ℚ} (h : x ≤ y) :
    roundTiesToEven x ≤ roundTiesToEven y := by
  have hf := Int.floor_mono h
  rcases hf.lt_or_eq with hlt | heq
  · have h1 := (roundTiesToEven_bounds x).2
    have h2 := (roundTiesToEven_bounds y).1
    omega
  · have hfr : Int.fract x ≤ Int.fract y := by
      unfold Int.fract
      rw [heq]
      linarith
    unfold roundTiesToEven
    rw [heq]
    split_ifs <;> first | omega | (exfalso; linarith)

theorem roundTiesToEven_intCast (n : ℤ) : roundTiesToEven (n : ℚ) = n := by
  simp [roundTiesToEven]

theorem roundTiesToEven_near (x : ℚ) (m : ℤ) (h : |x - m| < 1 / 2) :
    roundTiesToEven x = m := by
  rw [abs_lt] at h
  obtain ⟨h1, h2⟩ := h
  by_cases hx : (m : ℚ) ≤ x
  · have hfl : ⌊x⌋ = m := by
      rw [Int.floor_eq_iff]
      constructor
      · exact hx
      · linarith
    have hfr : Int.fract x < 1 / 2 := by
      unfold Int.fract
      rw [hfl]
      linarith
    simp only [roundTiesToEven, hfr, if_true, hfl]
  · have hfl : ⌊x⌋ = m - 1 := by
      rw [Int.floor_eq_iff]
      push_cast
      constructor <;> linarith
    have hfr : 1 / 2 < Int.fract x := by
      unfold Int.fract
      rw [hfl]
      push_cast
      linarith
    have hfr2 : ¬ Int.fract x < 1 / 2 := by linarith
    simp only [roundTiesToEven, hfr, hfr2, if_true, if_false, hfl]
    omega

theorem roundDouble_zero : roundDouble 0 = 0 := by
  simp [roundDouble, roundTiesToEven]

theorem ulpExponent_ge (x : ℚ) : -1074 ≤ ulpExponent x := le_max_right _ _

/-- Every value lies below the top of its binade. -/
theorem abs_lt_top (x : ℚ) : |x| < 2 ^ (ulpExponent x + 53) := by
  have h1 := Int.lt_zpow_succ_log_self (b := 2) (by norm_num) |x|
  have h2 : Int.log 2 |x| + 1 ≤ ulpExponent x + 53 := by
    have := le_max_left (Int.log 2 |x| - 52) (-1074)
    unfold ulpExponent
    omega
  calc |x| < (2 : ℚ) ^ (Int.log 2 |x| + 1) := by exact_mod_cast h1
    _ ≤ 2 ^ (ulpExponent x + 53) := zpow_le_zpow_right₀ (by norm_num) h2

/-- A value above the subnormal range lies at or above the bottom of its binade. -/
theorem bottom_le_abs (x : ℚ) (hx : x ≠ 0) (h : -1074 < ulpExponent x) :
    2 ^ (ulpExponent x + 52) ≤ |x| := by
  have h1 := Int.zpow_log_le_self (b := 2) (r := |x|) (by norm_num) (abs_pos.mpr hx)
  have h2 : ulpExponent x + 52 = Int.log 2 |x| := by
    unfold ulpExponent at h ⊢
    rcases max_cases (Int.log 2 |x| - 52) (-1074) with ⟨h3, _⟩ | ⟨h3, _⟩
    · rw [h3]; omega
    · rw [h3] at h; omega
  rw [h2]
  exact_mod_cast h1

theorem ulpExponent_mono {x y : ℚ} (hx : x ≠ 0) (h : |x| ≤ |y|) :
    ulpExponent x ≤ ulpExponent y := by
  have := Int.log_mono_right (b := 2) (abs_pos.mpr hx) h
  unfold ulpExponent
  exact max_le_max (by omega) (le_refl _)


theorem two_zpow_pos (e : ℤ) : (0 : ℚ) < 2 ^ e := zpow_pos (by norm_num) e

theorem two_zpow_add (e : ℤ) (k : ℕ) : (2 : ℚ) ^ (e + (k : ℤ)) = 2 ^ k * 2 ^ e := by
  rw [zpow_add₀ (by norm_num), zpow_natCast, mul_comm]

/-- The significand of a rounded value is at most `2 ^ 53` in magnitude. -/
theorem significand_bounds (x : ℚ) :
    -(2 ^ 53 : ℤ) ≤ roundTiesToEven (x / 2 ^ ulpExponent x) ∧
      roundTiesToEven (x / 2 ^ ulpExponent x) ≤ (2 ^ 53 : ℤ) := by
  have hp := two_zpow_pos (ulpExponent x)
  have h1 := abs_lt_top x
  have h2 : (2 : ℚ) ^ (ulpExponent x + 53) = 2 ^ 53 * 2 ^ ulpExponent x :=
    two_zpow_add (ulpExponent x) 53
  rw [h2, abs_lt] at h1
  constructor
  · have h3 : (((-(2 ^ 53) : ℤ) : ℚ)) ≤ x / 2 ^ ulpExponent x := by
      rw [le_div_iff₀ hp]
      push_cast
      linarith
    have := roundTiesToEven_mono h3
    rwa [roundTiesToEven_intCast] at this
  · have h3 : x / 2 ^ ulpExponent x ≤ (((2 ^ 53 : ℤ)) : ℚ) := by
      rw [div_le_iff₀ hp]
      push_cast
      linarith
    have := roundTiesToEven_mono h3
    rwa [roundTiesToEven_intCast] at this

/-- The significand of a rounded positive value above the subnormal range. -/
theorem significand_pos (x : ℚ) (hx : 0 < x) (h : -1074 < ulpExponent x) :
    (2 ^ 52 : ℤ) ≤ roundTiesToEven (x / 2 ^ ulpExponent x) := by
  have hp := two_zpow_pos (ulpExponent x)
  have h1 := bottom_le_abs x hx.ne' h
  have h2 : (2 : ℚ) ^ (ulpExponent x + 52) = 2 ^ 52 * 2 ^ ulpExponent x :=
    two_zpow_add (ulpExponent x) 52
  rw [h2, abs_of_pos hx] at h1
  have h3 : (((2 ^ 52 : ℤ)) : ℚ) ≤ x / 2 ^ ulpExponent x := by
    rw [le_div_iff₀ hp]
    push_cast
    linarith
  have := roundTiesToEven_mono h3
  rwa [roundTiesToEven_intCast] at this

/-- The significand of a rounded negative value above the subnormal range. -/
theorem significand_neg (x : ℚ) (hx : x < 0) (h : -1074 < ulpExponent x) :
    roundTiesToEven (x / 2 ^ ulpExponent x) ≤ -(2 ^ 52 : ℤ) := by
  have hp := two_zpow_pos (ulpExponent x)
  have h1 := bottom_le_abs x hx.ne h
  have h2 : (2 : ℚ) ^ (ulpExponent x + 52) = 2 ^ 52 * 2 ^ ulpExponent x :=
    two_zpow_add (ulpExponent x) 52
  rw [h2, abs_of_neg hx] at h1
  have h3 : x / 2 ^ ulpExponent x ≤ (((-(2 ^ 52) : ℤ)) : ℚ) := by
    rw [div_le_iff₀ hp]
    push_cast
    linarith
  have := roundTiesToEven_mono h3
  rwa [roundTiesToEven_intCast] at this

theorem roundDouble_nonneg {x : ℚ} (h : 0 ≤ x) : 0 ≤ roundDouble x := by
  have hp := two_zpow_pos (ulpExponent x)
  have h1 := roundTiesToEven_mono (div_nonneg h hp.le)
  have h0 : roundTiesToEven 0 = 0 := roundTiesToEven_intCast 0
  rw [h0] at h1
  exact mul_nonneg (by exact_mod_cast h1) hp.le

theorem roundDouble_nonpos {x : ℚ} (h : x ≤ 0) : roundDouble x ≤ 0 := by
  have hp := two_zpow_pos (ulpExponent x)
  have h1 := roundTiesToEven_mono (div_nonpos_of_nonpos_of_nonneg h hp.le)
  have h0 : roundTiesToEven 0 = 0 := roundTiesToEven_intCast 0
  rw [h0] at h1
  exact mul_nonpos_of_nonpos_of_nonneg (by exact_mod_cast h1) hp.le

/-- Rounding to `double` is monotone. -/
theorem roundDouble_mono {x y : ℚ} (h : x ≤ y) : roundDouble x ≤ roundDouble y := by
  have hpx := two_zpow_pos (ulpExponent x)
  have hpy := two_zpow_pos (ulpExponent y)
  have same : ulpExponent x = ulpExponent y → roundDouble x ≤ roundDouble y := by
    intro heq
    unfold roundDouble
    rw [heq]
    apply mul_le_mul_of_nonneg_right _ hpy.le
    exact_mod_cast roundTiesToEven_mono (div_le_div_of_nonneg_right h hpy.le)
  rcases lt_trichotomy 0 x with hx | hx | hx
  · have hy : 0 < y := lt_of_lt_of_le hx h
    have he : ulpExponent x ≤ ulpExponent y :=
      ulpExponent_mono hx.ne' (by rwa [abs_of_pos hx, abs_of_pos hy])
    rcases he.lt_or_eq with hlt | heq
    · have hge := ulpExponent_ge x
      have h1 : roundDouble x ≤ 2 ^ 53 * 2 ^ ulpExponent x := by
        apply mul_le_mul_of_nonneg_right _ hpx.le
        exact_mod_cast (significand_bounds x).2
      have h2 : 2 ^ 52 * 2 ^ ulpExponent y ≤ roundDouble y := by
        apply mul_le_mul_of_nonneg_right _ hpy.le
        exact_mod_cast significand_pos y hy (by omega)
      have h3 : (2 : ℚ) ^ (ulpExponent x + 1) ≤ 2 ^ ulpExponent y :=
        zpow_le_zpow_right₀ (by norm_num) (by omega)
      rw [zpow_add₀ (by norm_num), zpow_one] at h3
      nlinarith
    · exact same heq
  · rw [← hx, roundDouble_zero]
    exact roundDouble_nonneg (hx ▸ h)
  · rcases le_or_lt 0 y with hy | hy
    · exact le_trans (roundDouble_nonpos hx.le) (roundDouble_nonneg hy)
    · have he : ulpExponent y ≤ ulpExponent x :=
        ulpExponent_mono hy.ne (by rw [abs_of_neg hx, abs_of_neg hy]; linarith)
      rcases he.lt_or_eq with hlt | heq
      · have hge := ulpExponent_ge y
        have h1 : roundDouble x ≤ -(2 ^ 52) * 2 ^ ulpExponent x := by
          apply mul_le_mul_of_nonneg_right _ hpx.le
          exact_mod_cast significand_neg x hx (by omega)
        have h2 : -(2 ^ 53) * 2 ^ ulpExponent y ≤ roundDouble y := by
          apply mul_le_mul_of_nonneg_right _ hpy.le
          exact_mod_cast (significand_bounds y).1
        have h3 : (2 : ℚ) ^ (ulpExponent y + 1) ≤ 2 ^ ulpExponent x :=
          zpow_le_zpow_right₀ (by norm_num) (by omega)
        rw [zpow_add₀ (by norm_num), zpow_one] at h3
        nlinarith
      · exact same heq.symm

/-- The exponent of the last place, from the binade of `x`. -/
theorem ulpExponent_eq (x : ℚ) (e : ℤ) (he : -1074 ≤ e) (h1 : |x| < 2 ^ (e + 53))
    (h2 : 2 ^ (e + 52) ≤ |x| ∨ (e = -1074 ∧ x ≠ 0)) : ulpExponent x = e := by
  have hx : 0 < |x| := by
    rcases h2 with h2 | ⟨_, h2⟩
    · exact lt_of_lt_of_le (two_zpow_pos _) h2
    · exact abs_pos.mpr h2
  have h3 : Int.log 2 |x| < e + 53 :=
    (Int.lt_zpow_iff_log_lt (b := 2) (by norm_num) hx).mp (by exact_mod_cast h1)
  unfold ulpExponent
  rcases h2 with h2 | ⟨h2, _⟩
  · have h4 : e + 52 ≤ Int.log 2 |x| :=
      (Int.zpow_le_iff_le_log (b := 2) (by norm_num) hx).mp (by exact_mod_cast h2)
    rw [max_eq_left (by omega)]
    omega
  · rw [max_eq_right (by omega)]
    omega

/-- The rounding of `x`, from its binade and the nearest significand. -/
theorem roundDouble_eq (x : ℚ) (m e : ℤ) (he : -1074 ≤ e) (h1 : |x| < 2 ^ (e + 53))
    (h2 : 2 ^ (e + 52) ≤ |x| ∨ (e = -1074 ∧ x ≠ 0)) (hm : |x / 2 ^ e - m| < 1 / 2) :
    roundDouble x = m * 2 ^ e := by
  unfold roundDouble
  rw [ulpExponent_eq x e he h1 h2, roundTiesToEven_near _ m hm]

/-- A value with a significand of at most 53 bits and an exponent in range is a
`double`: rounding leaves it unchanged. -/
theorem roundDouble_representable (m e : ℤ) (he : -1074 ≤ e) (hm : |m| ≤ 2 ^ 53)
    (h : 2 ^ 52 ≤ |m| ∨ e = -1074) : roundDouble ((m : ℚ) * 2 ^ e) = (m : ℚ) * 2 ^ e := by
  have hp := two_zpow_pos e
  by_cases h0 : m = 0
  · simp [h0, roundDouble_zero]
  have habs : |(m : ℚ) * 2 ^ e| = (|m| : ℤ) * 2 ^ e := by
    rw [abs_mul, abs_of_pos hp]
    push_cast
    rfl
  have e53 : (2 : ℚ) ^ (e + 53) = 2 ^ 53 * 2 ^ e := two_zpow_add e 53
  have e52 : (2 : ℚ) ^ (e + 52) = 2 ^ 52 * 2 ^ e := two_zpow_add e 52
  rcases hm.lt_or_eq with hlt | heq
  · have hq : ((|m| : ℤ) : ℚ) < 2 ^ 53 := by exact_mod_cast hlt
    refine roundDouble_eq _ m e he ?_ ?_ ?_
    · rw [habs, e53]
      exact mul_lt_mul_of_pos_right hq hp
    · rcases h with h | h
      · left
        have hq2 : (2 ^ 52 : ℚ) ≤ ((|m| : ℤ) : ℚ) := by exact_mod_cast h
        rw [habs, e52]
        exact mul_le_mul_of_nonneg_right hq2 hp.le
      · right
        exact ⟨h, mul_ne_zero (by exact_mod_cast h0) hp.ne'⟩
    · rw [mul_div_assoc, div_self hp.ne', mul_one, sub_self, abs_zero]
      norm_num
  · have hq : ((|m| : ℤ) : ℚ) = 2 ^ 53 := by exact_mod_cast heq
    have hm2 : (m : ℚ) = ((m / 2 : ℤ) : ℚ) * 2 := by
      have : m = m / 2 * 2 := by
        rcases abs_cases m with ⟨h3, _⟩ | ⟨h3, _⟩ <;> omega
      exact_mod_cast this
    have he1 : (2 : ℚ) ^ (e + 1) = 2 * 2 ^ e := by
      rw [zpow_add₀ (by norm_num), zpow_one, mul_comm]
    have hval : (m : ℚ) * 2 ^ e = ((m / 2 : ℤ) : ℚ) * 2 ^ (e + 1) := by
      rw [he1, ← mul_assoc, ← hm2]
    rw [hval]
    rw [← hval]
    have h53 : (2 : ℚ) ^ (e + 1 + 53) = 2 ^ 53 * 2 ^ (e + 1) := two_zpow_add (e + 1) 53
    have h52 : (2 : ℚ) ^ (e + 1 + 52) = 2 ^ 52 * 2 ^ (e + 1) := two_zpow_add (e + 1) 52
    have := roundDouble_eq ((m : ℚ) * 2 ^ e) (m / 2) (e + 1) (by omega)
      (by rw [habs, hq, h53, he1]; nlinarith)
      (Or.inl (by rw [habs, hq, h52, he1]; nlinarith))
      (by rw [hval, mul_div_assoc, div_self (two_zpow_pos _).ne', mul_one, sub_self, abs_zero]
          norm_num)
    rw [this, ← hval]

/-- A rounded value is a `double`. -/
theorem roundDouble_idem (x : ℚ) : roundDouble (roundDouble x) = roundDouble x := by
  by_cases hx : x = 0
  · rw [hx, roundDouble_zero, roundDouble_zero]
  have hb := significand_bounds x
  refine roundDouble_representable _ _ (ulpExponent_ge x) (abs_le.mpr ⟨hb.1, hb.2⟩) ?_
  by_cases he : ulpExponent x = -1074
  · exact Or.inr he
  · left
    have hgt : -1074 < ulpExponent x := lt_of_le_of_ne (ulpExponent_ge x) (Ne.symm he)
    rcases lt_or_gt_of_ne hx with h | h
    · have := significand_neg x h hgt
      rw [abs_of_nonpos (by omega)]
      omega
    · have := significand_pos x h hgt
      rw [abs_of_nonneg (by omega)]
      omega

/-! ### The sidx parser in `double` arithmetic -/

/-- The header part of `ParseSidx` in `double` arithmetic: which reads fail, when the
assertion fails, and the arguments with which the reference loop is entered. -/
theorem ParseSidx_binary64_eq (seq : SegmentBaseSequence) (sidx : List Byte) (b e : Nat) :
    Binary64.ParseSidx seq sidx b e =
      if sidx.length < 16 then .error .outOfBounds
      else if e < (b + sidxSize sidx + 2 ^ 64 - 1) % 2 ^ 64 then .error .assertFailed
      else if sidx.length < sidxHeaderLength sidx then .error .outOfBounds
      else Binary64.ParseSidx.loop (sidxTimescale sidx) (sidxReferenceCount sidx) 0
        { seq with segment_index_ := [], average_segment_duration_ := 0 }
        (sidxEarliest sidx % 2 ^ 64) (((e + 1) % 2 ^ 64 + sidxFirstOffset sidx) % 2 ^ 64)
        (sidx.drop (sidxHeaderLength sidx)) := by
  unfold Binary64.ParseSidx
  have c2 : (4 ≤ sidx.length - 4) ↔ 8 ≤ sidx.length := by omega
  have c3 : (1 ≤ sidx.length - 4 - 4) ↔ 9 ≤ sidx.length := by omega
  have c4 : (1 ≤ sidx.length - 4 - 4 - 1) ↔ 10 ≤ sidx.length := by omega
  have c5 : (1 ≤ sidx.length - 4 - 4 - 1 - 1) ↔ 11 ≤ sidx.length := by omega
  have c6 : (1 ≤ sidx.length - 4 - 4 - 1 - 1 - 1) ↔ 12 ≤ sidx.length := by omega
  have c7 : (4 ≤ sidx.length - 4 - 4 - 1 - 1 - 1 - 1) ↔ 16 ≤ sidx.length := by omega
  have c8 : (4 ≤ sidx.length - 4 - 4 - 1 - 1 - 1 - 1 - 4) ↔ 20 ≤ sidx.length := by omega
  have c9 : (4 ≤ sidx.length - 4 - 4 - 1 - 1 - 1 - 1 - 4 - 4) ↔ 24 ≤ sidx.length := by omega
  have c10 : (4 ≤ sidx.length - 4 - 4 - 1 - 1 - 1 - 1 - 4 - 4 - 4) ↔ 28 ≤ sidx.length := by
    omega
  have c11 : (2 ≤ sidx.length - 4 - 4 - 1 - 1 - 1 - 1 - 4 - 4 - 4 - 4) ↔ 30 ≤ sidx.length := by
    omega
  have c12 : (2 ≤ sidx.length - 4 - 4 - 1 - 1 - 1 - 1 - 4 - 4 - 4 - 4 - 2) ↔
      32 ≤ sidx.length := by omega
  have d9 : (8 ≤ sidx.length - 4 - 4 - 1 - 1 - 1 - 1 - 4 - 4) ↔ 28 ≤ sidx.length := by omega
  have d10 : (8 ≤ sidx.length - 4 - 4 - 1 - 1 - 1 - 1 - 4 - 4 - 8) ↔ 36 ≤ sidx.length := by
    omega
  have d11 : (2 ≤ sidx.length - 4 - 4 - 1 - 1 - 1 - 1 - 4 - 4 - 8 - 8) ↔ 38 ≤ sidx.length := by
    omega
  have d12 : (2 ≤ sidx.length - 4 - 4 - 1 - 1 - 1 - 1 - 4 - 4 - 8 - 8 - 2) ↔
      40 ≤ sidx.length := by omega
  simp only [bind_NextUnsigned, List.length_drop, List.drop_drop, sidxSize, sidxVersion,
    sidxTimescale, sidxEarliest, sidxFirstOffset, sidxHeaderLength, sidxReferenceCount,
    Nat.reduceAdd, Nat.reduceSub, Nat.zero_add, ge_iff_le, not_le,
    c2, c3, c4, c5, c6, c7, c8, c9, c10, c11, c12, d9, d10, d11, d12]
  by_cases h16 : sidx.length < 16
  · have h : ¬ 16 ≤ sidx.length := by omega
    simp only [h16, h, if_true, if_false, ite_self]
  · have h4 : 4 ≤ sidx.length := by omega
    have h8 : 8 ≤ sidx.length := by omega
    have h9 : 9 ≤ sidx.length := by omega
    have h10 : 10 ≤ sidx.length := by omega
    have h11 : 11 ≤ sidx.length := by omega
    have h12 : 12 ≤ sidx.length := by omega
    have h16b : 16 ≤ sidx.length := by omega
    simp only [h16, h4, h8, h9, h10, h11, h12, h16b, if_true, if_false]
    by_cases ha : e < (b + beValue (List.take 4 sidx) + 2 ^ 64 - 1) % 2 ^ 64
    · simp only [ha, if_true]
      rfl
    · simp only [ha, if_false]
      by_cases hv : beValue (List.take 1 (List.drop 8 sidx)) = 0
      · simp only [hv, if_true]
        by_cases h32 : sidx.length < 32
        · have h : ¬ 32 ≤ sidx.length := by omega
          simp only [h32, h, if_true, if_false, ite_self]
          rfl
        · have h20 : 20 ≤ sidx.length := by omega
          have h24 : 24 ≤ sidx.length := by omega
          have h28 : 28 ≤ sidx.length := by omega
          have h30 : 30 ≤ sidx.length := by omega
          have h32b : 32 ≤ sidx.length := by omega
          simp only [h32, h20, h24, h28, h30, h32b, if_true, if_false]
          rfl
      · simp only [hv, if_false]
        by_cases h40 : sidx.length < 40
        · have h : ¬ 40 ≤ sidx.length := by omega
          simp only [h40, h, if_true, if_false, ite_self]
          rfl
        · have h20 : 20 ≤ sidx.length := by omega
          have h28 : 28 ≤ sidx.length := by omega
          have h36 : 36 ≤ sidx.length := by omega
          have h38 : 38 ≤ sidx.length := by omega
          have h40b : 40 ≤ sidx.length := by omega
          simp only [h40, h20, h28, h36, h38, h40b, if_true, if_false]
          rfl

theorem entryAt_binary64_drop (timescale pts offset : Nat) (refs : List Byte) (k : Nat) :
    Binary64.entryAt timescale ((pts + refDuration refs 0) % 2 ^ 64)
        ((offset + refSize refs 0) % 2 ^ 64) (refs.drop 12) k =
      Binary64.entryAt timescale pts offset refs (k + 1) := by
  simp only [Binary64.entryAt, ptsAt_drop, offsetAt_drop, refSize_drop, refDuration_drop]

/-- The reference loop of `ParseSidx` in `double` arithmetic: it fails when fewer than
`12 * n` bytes are left and otherwise appends the `n` entries `Binary64.entryAt ... k`. -/
theorem ParseSidx_loop_binary64_eq (timescale : Nat) :
    ∀ (n i : Nat) (seq : SegmentBaseSequence) (pts offset : Nat) (data : List Byte),
      pts < 2 ^ 64 → offset < 2 ^ 64 →
      Binary64.ParseSidx.loop timescale n i seq pts offset data =
        if data.length < 12 * n then .error .outOfBounds
        else .ok { seq with
          segment_index_ := seq.segment_index_ ++
            (List.range n).map (Binary64.entryAt timescale pts offset data),
          average_segment_duration_ :=
            Binary64.averageAfter timescale n i seq.average_segment_duration_ data } := by
  intro n
  induction n with
  | zero =>
    intro i seq pts offset data _ _
    simp [Binary64.ParseSidx.loop, Binary64.averageAfter]
  | succ n ih =>
    intro i seq pts offset data hp ho
    unfold Binary64.ParseSidx.loop
    have c2 : (4 ≤ data.length - 4) ↔ 8 ≤ data.length := by omega
    have c3 : (4 ≤ data.length - 4 - 4) ↔ 12 ≤ data.length := by omega
    simp only [bind_NextUnsigned, List.length_drop, List.drop_drop, c2, c3, Nat.reduceAdd]
    by_cases h12 : data.length < 12
    · have h1 : ¬ 12 ≤ data.length := by omega
      have h2 : data.length < 12 * (n + 1) := by omega
      simp only [h1, h2, if_true, if_false, ite_self]
    · have h4 : 4 ≤ data.length := by omega
      have h8 : 8 ≤ data.length := by omega
      have h12b : 12 ≤ data.length := by omega
      simp only [h4, h8, h12b, if_true]
      rw [ih _ _ _ _ _ (Nat.mod_lt _ (by norm_num)) (Nat.mod_lt _ (by norm_num))]
      have hl : (data.drop 12).length < 12 * n ↔ data.length < 12 * (n + 1) := by
        simp only [List.length_drop]; omega
      simp only [hl]
      split
      · rfl
      · have hm : (0x7FFFFFFF : Nat) = 2 ^ 31 - 1 := by norm_num
        have er : beValue (List.take 4 data) &&& 0x7FFFFFFF = refSize data 0 := by
          simp only [refSize, refField, Nat.mul_zero, List.drop_zero, hm,
            Nat.and_pow_two_sub_one_eq_mod]
        have ed : beValue (List.take 4 (List.drop 4 data)) = refDuration data 0 := by
          simp only [refDuration, Nat.mul_zero, Nat.zero_add]
        have e0 : Binary64.entryAt timescale pts offset data 0 =
            MakeEntry (Binary64.ToSeconds pts timescale)
              (Binary64.ToSeconds (refDuration data 0) timescale) offset (refSize data 0) := by
          simp only [Binary64.entryAt, ptsAt, offsetAt, Finset.range_zero, Finset.sum_empty,
            Nat.add_zero, Nat.mod_eq_of_lt hp, Nat.mod_eq_of_lt ho]
        rw [er, ed, ← e0]
        simp only [List.range_succ_eq_map, List.map_cons, List.map_map, List.append_assoc,
          List.singleton_append, Binary64.averageAfter]
        have hf : Binary64.entryAt timescale ((pts + refDuration data 0) % 2 ^ 64)
            ((offset + refSize data 0) % 2 ^ 64) (List.drop 12 data) =
            Binary64.entryAt timescale pts offset data ∘ Nat.succ := by
          funext k
          exact entryAt_binary64_drop timescale pts offset data k
        rw [hf]

/-- The whole of `ParseSidx` in `double` arithmetic, in closed form. -/
theorem ParseSidx_binary64_closed (seq : SegmentBaseSequence) (sidx : List Byte) (b e : Nat) :
    Binary64.ParseSidx seq sidx b e =
      if sidx.length < 16 then .error .outOfBounds
      else if e < (b + sidxSize sidx + 2 ^ 64 - 1) % 2 ^ 64 then .error .assertFailed
      else if sidx.length < sidxHeaderLength sidx + 12 * sidxReferenceCount sidx then
        .error .outOfBounds
      else .ok { seq with
        segment_index_ := Binary64.sidxTable sidx e,
        average_segment_duration_ :=
          Binary64.averageAfter (sidxTimescale sidx) (sidxReferenceCount sidx) 0 0
            (sidx.drop (sidxHeaderLength sidx)) } := by
  rw [ParseSidx_binary64_eq, ParseSidx_loop_binary64_eq _ _ _ _ _ _ _ (Nat.mod_lt _ (by norm_num))
    (Nat.mod_lt _ (by norm_num))]
  simp only [List.length_drop, List.nil_append, Binary64.sidxTable]
  split_ifs <;> first | rfl | (exfalso; omega)

/-! ### The scan in `double` arithmetic -/

/-- The scan in `double` arithmetic from counter `i`, on a table of fewer than `2 ^ 32`
entries and with enough fuel: it returns at the first entry from `i` on that covers
`time`, and leaves the loop when there is none. -/
theorem MediaSegmentForTime_loop_binary64_spec (kEps : ℚ) (table : List SegmentIndexEntry)
    (time : ℚ) (hN : table.length < 2 ^ 32) :
    ∀ (fuel i : Nat), i ≤ table.length → table.length < fuel + i →
      (∃ k, i ≤ k ∧ Binary64.Covers kEps table time k ∧
          (∀ j, i ≤ j → j < k → ¬ Binary64.Covers kEps table time j) ∧
          Binary64.MediaSegmentForTime.loop kEps table time fuel i = .ok (some k)) ∨
        ((∀ j, i ≤ j → ¬ Binary64.Covers kEps table time j) ∧
          Binary64.MediaSegmentForTime.loop kEps table time fuel i = .ok none) := by
  intro fuel
  induction fuel with
  | zero => intro i h1 h2; omega
  | succ fuel ih =>
    intro i h1 h2
    unfold Binary64.MediaSegmentForTime.loop
    by_cases hi : i < table.length
    · by_cases hc : roundDouble ((table[i]).timestamp - kEps) ≤ time ∧
          time < roundDouble ((table[i]).timestamp + (table[i]).duration)
      · left
        refine ⟨i, le_refl _, ⟨hi, hc⟩, fun j h3 h4 => by omega, ?_⟩
        simp only [hi, dite_true, hc, and_self, if_true]
      · have hw : (i + 1) % 2 ^ 32 = i + 1 := Nat.mod_eq_of_lt (by omega)
        have hnot : ¬ Binary64.Covers kEps table time i := fun ⟨_, h⟩ => hc h
        simp only [hi, dite_true, hc, if_false, hw]
        rcases ih (i + 1) (by omega) (by omega) with ⟨k, hk1, hk2, hk3, hk4⟩ | ⟨hk1, hk2⟩
        · left
          refine ⟨k, by omega, hk2, fun j h3 h4 => ?_, hk4⟩
          by_cases hj : j = i
          · subst hj; exact hnot
          · exact hk3 j (by omega) h4
        · right
          refine ⟨fun j h3 => ?_, hk2⟩
          by_cases hj : j = i
          · subst hj; exact hnot
          · exact hk1 j (by omega)
    · right
      refine ⟨fun j h3 ⟨h4, _⟩ => by omega, ?_⟩
      simp only [hi, dite_false]

/-- The scan in `double` arithmetic returns the first entry that covers `time`. -/
theorem MediaSegmentForTime_binary64_first (kEps : ℚ) (fuel : Nat) (seq : SegmentBaseSequence)
    (time : ℚ) (hN : seq.segment_index_.length < 2 ^ 32)
    (hfuel : seq.segment_index_.length < fuel) (i : Nat)
    (hc : Binary64.Covers kEps seq.segment_index_ time i)
    (hmin : ∀ j, j < i → ¬ Binary64.Covers kEps seq.segment_index_ time j) :
    Binary64.MediaSegmentForTime kEps fuel seq time =
      .ok { sequence_ := some seq, current_index_ := i } := by
  have hi : i < seq.segment_index_.length := Exists.elim hc (fun h _ => h)
  rcases MediaSegmentForTime_loop_binary64_spec kEps seq.segment_index_ time hN fuel 0 (Nat.zero_le _)
    (by omega) with ⟨k, -, hk2, hk3, hk4⟩ | ⟨hk1, -⟩
  · have hki : k = i := by
      rcases Nat.lt_trichotomy k i with h | h | h
      · exact absurd hk2 (hmin k h)
      · exact h
      · exact absurd hc (hk3 i (Nat.zero_le _) h)
    subst hki
    simp only [Binary64.MediaSegmentForTime, hk4, MakeIterator]
    rw [Nat.mod_eq_of_lt (by omega)]
  · exact absurd hc (hk1 i (Nat.zero_le _))

/-- The scan in `double` arithmetic returns `End()` when no entry covers `time`. -/
theorem MediaSegmentForTime_binary64_none (kEps : ℚ) (fuel : Nat) (seq : SegmentBaseSequence)
    (time : ℚ) (hN : seq.segment_index_.length < 2 ^ 32)
    (hfuel : seq.segment_index_.length < fuel)
    (hno : ∀ i, ¬ Binary64.Covers kEps seq.segment_index_ time i) :
    Binary64.MediaSegmentForTime kEps fuel seq time = .ok (End seq) := by
  rcases MediaSegmentForTime_loop_binary64_spec kEps seq.segment_index_ time hN fuel 0 (Nat.zero_le _)
    (by omega) with ⟨k, -, hk2, -, -⟩ | ⟨-, hk2⟩
  · exact absurd hk2 (hno k)
  · simp only [Binary64.MediaSegmentForTime, hk2]

/-- What an accepted run of `ParseSidx` in `double` arithmetic says about its input and
its result. -/
theorem ParseSidx_binary64_ok {seq seq1 : SegmentBaseSequence} {sidx : List Byte} {b e : Nat}
    (h : Binary64.ParseSidx seq sidx b e = .ok seq1) :
    16 ≤ sidx.length ∧ (b + sidxSize sidx + 2 ^ 64 - 1) % 2 ^ 64 ≤ e ∧
      sidxHeaderLength sidx + 12 * sidxReferenceCount sidx ≤ sidx.length ∧
      seq1.segment_index_ = Binary64.sidxTable sidx e := by
  rw [ParseSidx_binary64_closed] at h
  split_ifs at h with h1 h2 h3
  simp only [Except.ok.injEq] at h
  subst h
  exact ⟨by omega, by omega, by omega, rfl⟩

/-- The run of `ParseSidx` in `double` arithmetic is accepted under the same conditions
as in exact arithmetic. -/
theorem ParseSidx_binary64_accepts (seq : SegmentBaseSequence) (sidx : List Byte) (b e : Nat)
    (h16 : 16 ≤ sidx.length) (ha : (b + sidxSize sidx + 2 ^ 64 - 1) % 2 ^ 64 ≤ e)
    (hlen : sidxHeaderLength sidx + 12 * sidxReferenceCount sidx ≤ sidx.length) :
    Binary64.ParseSidx seq sidx b e = .ok (Binary64.parsed seq sidx e) := by
  rw [ParseSidx_binary64_closed, if_neg (by omega), if_neg (by omega), if_neg (by omega)]
  rfl

theorem sidxTable_binary64_length (sidx : List Byte) (e : Nat) :
    (Binary64.sidxTable sidx e).length = sidxReferenceCount sidx := by
  simp [Binary64.sidxTable]

theorem sidxTable_binary64_getElem (sidx : List Byte) (e i : Nat)
    (h : i < (Binary64.sidxTable sidx e).length) :
    (Binary64.sidxTable sidx e)[i] =
      Binary64.entryAt (sidxTimescale sidx) (sidxEarliest sidx % 2 ^ 64)
        (((e + 1) % 2 ^ 64 + sidxFirstOffset sidx) % 2 ^ 64)
        (sidx.drop (sidxHeaderLength sidx)) i := by
  simp [Binary64.sidxTable]

/-- A natural number below `2 ^ 53` is a `double`. -/
theorem roundDouble_natCast (n : Nat) (h : n < 2 ^ 53) : roundDouble (n : ℚ) = (n : ℚ) := by
  by_cases h0 : n = 0
  · rw [h0, Nat.cast_zero, roundDouble_zero]
  have h1 : 2 ^ Nat.log 2 n ≤ n := Nat.pow_log_le_self 2 h0
  have h2 : n < 2 ^ (Nat.log 2 n + 1) := Nat.lt_pow_succ_log_self (by norm_num) n
  have hL : Nat.log 2 n ≤ 52 := by
    by_contra hc
    have : 2 ^ 53 ≤ 2 ^ Nat.log 2 n := Nat.pow_le_pow_right (by norm_num) (by omega)
    omega
  obtain ⟨k, hk⟩ : ∃ k, Nat.log 2 n + k = 52 := ⟨52 - Nat.log 2 n, by omega⟩
  have h3 : 2 ^ 52 ≤ n * 2 ^ k := by
    calc 2 ^ 52 = 2 ^ Nat.log 2 n * 2 ^ k := by rw [← pow_add, hk]
      _ ≤ n * 2 ^ k := Nat.mul_le_mul_right _ h1
  have h4 : n * 2 ^ k < 2 ^ 53 := by
    calc n * 2 ^ k < 2 ^ (Nat.log 2 n + 1) * 2 ^ k :=
          Nat.mul_lt_mul_of_pos_right h2 (by positivity)
      _ = 2 ^ 53 := by rw [← pow_add]; congr 1; omega
  have hz : ((n * 2 ^ k : ℕ) : ℤ) = |((n * 2 ^ k : ℕ) : ℤ)| := (abs_of_nonneg (by positivity)).symm
  have hrep := roundDouble_representable ((n * 2 ^ k : ℕ) : ℤ) (-(k : ℤ)) (by omega)
    (by rw [← hz]; exact_mod_cast h4.le) (Or.inl (by rw [← hz]; exact_mod_cast h3))
  have hval : (((n * 2 ^ k : ℕ) : ℤ) : ℚ) * 2 ^ (-(k : ℤ)) = (n : ℚ) := by
    push_cast
    rw [zpow_neg, zpow_natCast, mul_assoc, mul_inv_cancel₀ (by positivity), mul_one]
  rwa [hval] at hrep

/-- The seconds of `ToSeconds` in `double` arithmetic grow with `pts`. -/
theorem ToSeconds_binary64_mono (timescale : Nat) {p q : Nat} (h : p ≤ q) :
    Binary64.ToSeconds p timescale ≤ Binary64.ToSeconds q timescale := by
  unfold Binary64.ToSeconds
  apply roundDouble_mono
  apply div_le_div_of_nonneg_right _ (roundDouble_nonneg (Nat.cast_nonneg _))
  exact roundDouble_mono (by exact_mod_cast h)

/-- A value of `ToSeconds` in `double` arithmetic is a `double`. -/
theorem ToSeconds_binary64_idem (p timescale : Nat) :
    roundDouble (Binary64.ToSeconds p timescale) = Binary64.ToSeconds p timescale :=
  roundDouble_idem _
/-- The rounding of `x`, from its binade and its rounded significand. -/
theorem roundDouble_eq_of (x : ℚ) (m e : ℤ) (he : -1074 ≤ e) (h1 : |x| < 2 ^ (e + 53))
    (h2 : 2 ^ (e + 52) ≤ |x| ∨ (e = -1074 ∧ x ≠ 0)) (hm : roundTiesToEven (x / 2 ^ e) = m) :
    roundDouble x = m * 2 ^ e := by
  unfold roundDouble
  rw [ulpExponent_eq x e he h1 h2, hm]

/-- A tie above an even integer goes down to it. -/
theorem roundTiesToEven_tie_even (n : ℤ) (h : n % 2 = 0) :
    roundTiesToEven ((n : ℚ) + 1 / 2) = n := by
  have hfl : ⌊(n : ℚ) + 1 / 2⌋ = n := by
    rw [Int.floor_eq_iff]
    constructor <;> linarith
  have hfr : Int.fract ((n : ℚ) + 1 / 2) = 1 / 2 := by
    unfold Int.fract
    rw [hfl]
    ring
  simp only [roundTiesToEven, hfr, hfl, lt_irrefl, if_false, h, if_true]

/-- A tie above an odd integer goes up to the next one. -/
theorem roundTiesToEven_tie_odd (n : ℤ) (h : n % 2 = 1) :
    roundTiesToEven ((n : ℚ) + 1 / 2) = n + 1 := by
  have hfl : ⌊(n : ℚ) + 1 / 2⌋ = n := by
    rw [Int.floor_eq_iff]
    constructor <;> linarith
  have hfr : Int.fract ((n : ℚ) + 1 / 2) = 1 / 2 := by
    unfold Int.fract
    rw [hfl]
    ring
  have hne : ¬ n % 2 = 0 := by omega
  simp only [roundTiesToEven, hfr, hfl, lt_irrefl, if_false, hne]

/-- Rounding to the nearest integer commutes with negation. -/
theorem roundTiesToEven_neg (x : ℚ) : roundTiesToEven (-x) = -roundTiesToEven x := by
  by_cases hx : Int.fract x = 0
  · have hxe : x = ((⌊x⌋ : ℤ) : ℚ) := by
      have := Int.floor_add_fract x
      rw [hx, add_zero] at this
      exact this.symm
    rw [hxe, ← Int.cast_neg, roundTiesToEven_intCast, roundTiesToEven_intCast]
  · have hfr : Int.fract (-x) = 1 - Int.fract x := Int.fract_neg hx
    have hfl : ⌊-x⌋ = -⌊x⌋ - 1 := by
      have h1 := Int.floor_add_fract (-x)
      have h2 := Int.floor_add_fract x
      rw [hfr] at h1
      have h3 : ((⌊-x⌋ : ℤ) : ℚ) = ((-⌊x⌋ - 1 : ℤ) : ℚ) := by
        push_cast
        linarith
      exact_mod_cast h3
    unfold roundTiesToEven
    rw [hfr, hfl]
    split_ifs <;> first | omega | (exfalso; linarith)

/-- The negation of a `double` is a `double`: rounding commutes with negation. -/
theorem roundDouble_neg (x : ℚ) : roundDouble (-x) = -roundDouble x := by
  have he : ulpExponent (-x) = ulpExponent x := by
    unfold ulpExponent
    rw [abs_neg]
  unfold roundDouble
  rw [he, neg_div, roundTiesToEven_neg]
  push_cast
  ring

/-- The seconds of `ToSeconds` in `double` arithmetic when both arguments are below
`2 ^ 53`: the conversions are exact and only the division rounds. -/
theorem ToSeconds_binary64_small (pts timescale : Nat) (hp : pts < 2 ^ 53)
    (hT : timescale < 2 ^ 53) :
    Binary64.ToSeconds pts timescale = roundDouble ((pts : ℚ) / (timescale : ℚ)) := by
  unfold Binary64.ToSeconds
  rw [roundDouble_natCast pts hp, roundDouble_natCast timescale hT]

/-! ### Concrete roundings -/

/-- The `double` nearest to `9 / 7`. -/
theorem roundDouble_nine_sevenths :
    roundDouble (9 / 7) = 5790342378047781 / 4503599627370496 := by
  rw [roundDouble_eq (9 / 7) 5790342378047781 (-52) (by norm_num)
    (by norm_num [abs_of_pos]) (Or.inl (by norm_num [abs_of_pos]))
    (by norm_num [abs_lt])]
  norm_num

/-- The `double` nearest to `18 / 7`. -/
theorem roundDouble_eighteen_sevenths :
    roundDouble (18 / 7) = 5790342378047781 / 2251799813685248 := by
  rw [roundDouble_eq (18 / 7) 5790342378047781 (-51) (by norm_num)
    (by norm_num [abs_of_pos]) (Or.inl (by norm_num [abs_of_pos]))
    (by norm_num [abs_lt])]
  norm_num

/-- The `double` nearest to `27 / 7`. -/
theorem roundDouble_twentyseven_sevenths :
    roundDouble (27 / 7) = 8685513567071671 / 2251799813685248 := by
  rw [roundDouble_eq (27 / 7) 8685513567071671 (-51) (by norm_num)
    (by norm_num [abs_of_pos]) (Or.inl (by norm_num [abs_of_pos]))
    (by norm_num [abs_lt])]
  norm_num

/-- The sum of the `double`s nearest to `9 / 7` and `18 / 7`, rounded: a tie, which goes
up to the even significand, above the `double` nearest to `27 / 7`. -/
theorem roundDouble_sevenths_end :
    roundDouble (5790342378047781 / 4503599627370496 + 5790342378047781 / 2251799813685248) = 1085689195883959 / 281474976710656 := by
  rw [roundDouble_eq_of (5790342378047781 / 4503599627370496 + 5790342378047781 / 2251799813685248) 8685513567071672 (-51) (by norm_num)
    (by norm_num [abs_of_pos]) (Or.inl (by norm_num [abs_of_pos]))
    (by rw [show ((5790342378047781 / 4503599627370496 + 5790342378047781 / 2251799813685248) / 2 ^ (-51 : ℤ) : ℚ) = ((8685513567071671 : ℤ) : ℚ) + 1 / 2 by norm_num]
        exact roundTiesToEven_tie_odd 8685513567071671 (by decide))]
  norm_num

/-- The conversion of the first `pts` of `sidxLargeTimescale` to `double`. -/
theorem roundDouble_large_pts0 :
    roundDouble (5062901020535542737) = 5062901020535542784 := by
  rw [roundDouble_eq (5062901020535542737) 4944239277866741 10 (by norm_num)
    (by norm_num [abs_of_pos]) (Or.inl (by norm_num [abs_of_pos]))
    (by norm_num [abs_lt])]
  norm_num

/-- The conversion of the second `pts` of `sidxLargeTimescale` to `double`. -/
theorem roundDouble_large_pts1 :
    roundDouble (5062901024326847913) = 5062901024326847488 := by
  rw [roundDouble_eq (5062901024326847913) 4944239281569187 10 (by norm_num)
    (by norm_num [abs_of_pos]) (Or.inl (by norm_num [abs_of_pos]))
    (by norm_num [abs_lt])]
  norm_num

/-- The first timestamp of `sidxLargeTimescale`. -/
theorem roundDouble_large_timestamp0 :
    roundDouble (5062901020535542784 / 3000000007) = 27650190042301 / 16384 := by
  rw [roundDouble_eq (5062901020535542784 / 3000000007) 7078448650829056 (-22) (by norm_num)
    (by norm_num [abs_of_pos]) (Or.inl (by norm_num [abs_of_pos]))
    (by norm_num [abs_lt])]
  norm_num

/-- The second timestamp of `sidxLargeTimescale`. -/
theorem roundDouble_large_timestamp1 :
    roundDouble (5062901024326847488 / 3000000007) = 1769612164032421 / 1048576 := by
  rw [roundDouble_eq (5062901024326847488 / 3000000007) 7078448656129684 (-22) (by norm_num)
    (by norm_num [abs_of_pos]) (Or.inl (by norm_num [abs_of_pos]))
    (by norm_num [abs_lt])]
  norm_num

/-- The first duration of `sidxLargeTimescale`. -/
theorem roundDouble_large_duration0 :
    roundDouble (3791305176 / 3000000007) = 1422876711503407 / 1125899906842624 := by
  rw [roundDouble_eq (3791305176 / 3000000007) 5691506846013628 (-52) (by norm_num)
    (by norm_num [abs_of_pos]) (Or.inl (by norm_num [abs_of_pos]))
    (by norm_num [abs_lt])]
  norm_num

/-- The second duration of `sidxLargeTimescale`. -/
theorem roundDouble_large_duration1 :
    roundDouble (3 / 3000000007) = 4835703267175209 / 4835703278458516698824704 := by
  rw [roundDouble_eq (3 / 3000000007) 4835703267175209 (-82) (by norm_num)
    (by norm_num [abs_of_pos]) (Or.inl (by norm_num [abs_of_pos]))
    (by norm_num [abs_lt])]
  norm_num

/-- The computed end of the first entry of `sidxLargeTimescale`. -/
theorem roundDouble_large_end0 :
    roundDouble (27650190042301 / 16384 + 1422876711503407 / 1125899906842624) = 7078448656129685 / 4194304 := by
  rw [roundDouble_eq (27650190042301 / 16384 + 1422876711503407 / 1125899906842624) 7078448656129685 (-22) (by norm_num)
    (by norm_num [abs_of_pos]) (Or.inl (by norm_num [abs_of_pos]))
    (by norm_num [abs_lt])]
  norm_num

/-- The computed end of the second entry of `sidxLargeTimescale`: the second timestamp
itself, the duration being below half a unit in its last place. -/
theorem roundDouble_large_end1 :
    roundDouble (1769612164032421 / 1048576 + 4835703267175209 / 4835703278458516698824704) = 1769612164032421 / 1048576 := by
  rw [roundDouble_eq (1769612164032421 / 1048576 + 4835703267175209 / 4835703278458516698824704) 7078448656129684 (-22) (by norm_num)
    (by norm_num [abs_of_pos]) (Or.inl (by norm_num [abs_of_pos]))
    (by norm_num [abs_lt])]
  norm_num
/-- The seconds `ToSeconds` computes in `double` arithmetic for the ticks of
`sidxSevenths` and `sidxSeventhsZero`. -/
theorem ToSeconds_binary64_sevenths :
    Binary64.ToSeconds 9 7 = 5790342378047781 / 4503599627370496 ∧
      Binary64.ToSeconds 18 7 = 5790342378047781 / 2251799813685248 ∧
      Binary64.ToSeconds 27 7 = 8685513567071671 / 2251799813685248 ∧
      Binary64.ToSeconds 7 7 = 1 ∧ Binary64.ToSeconds 0 7 = 0 := by
  have h1 : roundDouble 1 = 1 := by
    have := roundDouble_natCast 1 (by norm_num)
    simpa using this
  refine ⟨?_, ?_, ?_, ?_, ?_⟩
  · rw [ToSeconds_binary64_small _ _ (by norm_num) (by norm_num)]
    simp only [Nat.cast_ofNat]
    exact roundDouble_nine_sevenths
  · rw [ToSeconds_binary64_small _ _ (by norm_num) (by norm_num)]
    simp only [Nat.cast_ofNat]
    exact roundDouble_eighteen_sevenths
  · rw [ToSeconds_binary64_small _ _ (by norm_num) (by norm_num)]
    simp only [Nat.cast_ofNat]
    exact roundDouble_twentyseven_sevenths
  · rw [ToSeconds_binary64_small _ _ (by norm_num) (by norm_num)]
    simp only [Nat.cast_ofNat]
    rw [div_self (by norm_num), h1]
  · rw [ToSeconds_binary64_small _ _ (by norm_num) (by norm_num)]
    simp only [Nat.cast_zero, zero_div, roundDouble_zero]

/-- The seconds `ToSeconds` computes in `double` arithmetic for the ticks of
`sidxLargeTimescale`. -/
theorem ToSeconds_binary64_large :
    Binary64.ToSeconds 5062901020535542737 3000000007 = 27650190042301 / 16384 ∧
      Binary64.ToSeconds 5062901024326847913 3000000007 = 1769612164032421 / 1048576 ∧
      Binary64.ToSeconds 3791305176 3000000007 = 1422876711503407 / 1125899906842624 ∧
      Binary64.ToSeconds 3 3000000007 =
        4835703267175209 / 4835703278458516698824704 := by
  have hT : roundDouble 3000000007 = 3000000007 := by
    have := roundDouble_natCast 3000000007 (by norm_num)
    simpa using this
  refine ⟨?_, ?_, ?_, ?_⟩
  · unfold Binary64.ToSeconds
    simp only [Nat.cast_ofNat]
    rw [roundDouble_large_pts0, hT, roundDouble_large_timestamp0]
  · unfold Binary64.ToSeconds
    simp only [Nat.cast_ofNat]
    rw [roundDouble_large_pts1, hT, roundDouble_large_timestamp1]
  · rw [ToSeconds_binary64_small _ _ (by norm_num) (by norm_num)]
    simp only [Nat.cast_ofNat]
    exact roundDouble_large_duration0
  · rw [ToSeconds_binary64_small _ _ (by norm_num) (by norm_num)]
    simp only [Nat.cast_ofNat]
    exact roundDouble_large_duration1

/-- The seconds `ToSeconds` computes in `double` arithmetic for the ticks of Scenario A
and of `sidxPtsWrapping`: whole numbers, exact. -/
theorem ToSeconds_binary64_whole :
    Binary64.ToSeconds 0 1000 = 0 ∧ Binary64.ToSeconds 2000 1000 = 2 ∧
      Binary64.ToSeconds 18446744073709547520 1 = 18446744073709547520 ∧
      Binary64.ToSeconds 8192 1 = 8192 ∧ Binary64.ToSeconds 4096 1 = 4096 := by
  have h1 : roundDouble 1 = 1 := by
    have := roundDouble_natCast 1 (by norm_num)
    simpa using this
  have h2 : roundDouble 2 = 2 := by
    have := roundDouble_natCast 2 (by norm_num)
    simpa using this
  have h3 : roundDouble 8192 = 8192 := by
    have := roundDouble_natCast 8192 (by norm_num)
    simpa using this
  have h4 : roundDouble 4096 = 4096 := by
    have := roundDouble_natCast 4096 (by norm_num)
    simpa using this
  have h5 : roundDouble 18446744073709547520 = 18446744073709547520 := by
    have := roundDouble_representable 9007199254740990 11 (by norm_num) (by norm_num)
      (Or.inl (by norm_num))
    norm_num at this
    exact this
  refine ⟨?_, ?_, ?_, ?_, ?_⟩
  · rw [ToSeconds_binary64_small _ _ (by norm_num) (by norm_num)]
    simp only [Nat.cast_zero, zero_div, roundDouble_zero]
  · rw [ToSeconds_binary64_small _ _ (by norm_num) (by norm_num)]
    simp only [Nat.cast_ofNat]
    rw [show (2000 : ℚ) / 1000 = 2 by norm_num, h2]
  · unfold Binary64.ToSeconds
    simp only [Nat.cast_ofNat, Nat.cast_one]
    rw [h5, h1, div_one, h5]
  · unfold Binary64.ToSeconds
    simp only [Nat.cast_ofNat, Nat.cast_one]
    rw [h3, h1, div_one, h3]
  · unfold Binary64.ToSeconds
    simp only [Nat.cast_ofNat, Nat.cast_one]
    rw [h4, h1, div_one, h4]

/-- The table of `sidxSevenths` fetched from `100-155`, in `double` arithmetic. -/
theorem sidxTable_binary64_sevenths :
    Binary64.sidxTable sidxSevenths 155 =
      [MakeEntry (5790342378047781 / 4503599627370496) (5790342378047781 / 2251799813685248)
          156 1000,
        MakeEntry (8685513567071671 / 2251799813685248) 1 1156 1000] := by
  have hh : sidxHeaderLength sidxSevenths = 32 := rfl
  have ht : sidxTimescale sidxSevenths = 7 := rfl
  have hr : sidxReferenceCount sidxSevenths = 2 := rfl
  have hp : sidxEarliest sidxSevenths = 9 := rfl
  have hf : sidxFirstOffset sidxSevenths = 0 := rfl
  have d0 : refDuration (List.drop 32 sidxSevenths) 0 = 18 := rfl
  have d1 : refDuration (List.drop 32 sidxSevenths) 1 = 7 := rfl
  have r0 : refSize (List.drop 32 sidxSevenths) 0 = 1000 := rfl
  have r1 : refSize (List.drop 32 sidxSevenths) 1 = 1000 := rfl
  obtain ⟨t1, t2, t3, t4, -⟩ := ToSeconds_binary64_sevenths
  simp only [Binary64.sidxTable, hh, ht, hr, hp, hf, List.range_succ, List.range_zero,
    List.nil_append, List.map_cons, List.map_nil, List.singleton_append, Binary64.entryAt,
    ptsAt, offsetAt, Finset.sum_range_succ, Finset.range_zero, Finset.sum_empty, d0, d1, r0,
    r1, Nat.add_zero, Nat.zero_add, Nat.reduceAdd, Nat.reduceMod, Nat.reducePow, t1, t2, t3,
    t4]

/-- The table of `sidxSeventhsZero` fetched from `100-155`, in `double` arithmetic. -/
theorem sidxTable_binary64_seventhsZero :
    Binary64.sidxTable sidxSeventhsZero 155 =
      [MakeEntry (5790342378047781 / 4503599627370496) (5790342378047781 / 2251799813685248)
          156 1000,
        MakeEntry (8685513567071671 / 2251799813685248) 0 1156 1000] := by
  have hh : sidxHeaderLength sidxSeventhsZero = 32 := rfl
  have ht : sidxTimescale sidxSeventhsZero = 7 := rfl
  have hr : sidxReferenceCount sidxSeventhsZero = 2 := rfl
  have hp : sidxEarliest sidxSeventhsZero = 9 := rfl
  have hf : sidxFirstOffset sidxSeventhsZero = 0 := rfl
  have d0 : refDuration (List.drop 32 sidxSeventhsZero) 0 = 18 := rfl
  have d1 : refDuration (List.drop 32 sidxSeventhsZero) 1 = 0 := rfl
  have r0 : refSize (List.drop 32 sidxSeventhsZero) 0 = 1000 := rfl
  have r1 : refSize (List.drop 32 sidxSeventhsZero) 1 = 1000 := rfl
  obtain ⟨t1, t2, t3, -, t5⟩ := ToSeconds_binary64_sevenths
  simp only [Binary64.sidxTable, hh, ht, hr, hp, hf, List.range_succ, List.range_zero,
    List.nil_append, List.map_cons, List.map_nil, List.singleton_append, Binary64.entryAt,
    ptsAt, offsetAt, Finset.sum_range_succ, Finset.range_zero, Finset.sum_empty, d0, d1, r0,
    r1, Nat.add_zero, Nat.zero_add, Nat.reduceAdd, Nat.reduceMod, Nat.reducePow, t1, t2, t3,
    t5]

/-- The table of `sidxLargeTimescale` fetched from `100-163`, in `double` arithmetic. -/
theorem sidxTable_binary64_large :
    Binary64.sidxTable sidxLargeTimescale 163 =
      [MakeEntry (27650190042301 / 16384) (1422876711503407 / 1125899906842624) 164 1000,
        MakeEntry (1769612164032421 / 1048576)
          (4835703267175209 / 4835703278458516698824704) 1164 1000] := by
  have hh : sidxHeaderLength sidxLargeTimescale = 40 := rfl
  have ht : sidxTimescale sidxLargeTimescale = 3000000007 := by decide
  have hr : sidxReferenceCount sidxLargeTimescale = 2 := rfl
  have hp : sidxEarliest sidxLargeTimescale = 5062901020535542737 := by decide
  have hf : sidxFirstOffset sidxLargeTimescale = 0 := rfl
  have d0 : refDuration (List.drop 40 sidxLargeTimescale) 0 = 3791305176 := by decide
  have d1 : refDuration (List.drop 40 sidxLargeTimescale) 1 = 3 := rfl
  have r0 : refSize (List.drop 40 sidxLargeTimescale) 0 = 1000 := rfl
  have r1 : refSize (List.drop 40 sidxLargeTimescale) 1 = 1000 := rfl
  obtain ⟨t1, t2, t3, t4⟩ := ToSeconds_binary64_large
  simp only [Binary64.sidxTable, hh, ht, hr, hp, hf, List.range_succ, List.range_zero,
    List.nil_append, List.map_cons, List.map_nil, List.singleton_append, Binary64.entryAt,
    ptsAt, offsetAt, Finset.sum_range_succ, Finset.range_zero, Finset.sum_empty, d0, d1, r0,
    r1, Nat.add_zero, Nat.zero_add, Nat.reduceAdd, Nat.reduceMod, Nat.reducePow, t1, t2, t3,
    t4]

/-- The table of Scenario A fetched from `100-131`, in `double` arithmetic: the table
of exact arithmetic, every value of which is a `double`. -/
theorem sidxTable_binary64_scenarioA :
    Binary64.sidxTable (sidxScenarioA 32) 131 =
      [MakeEntry 0 2 132 1000, MakeEntry 2 2 1132 1000] := by
  have hh : sidxHeaderLength (sidxScenarioA 32) = 32 := rfl
  have ht : sidxTimescale (sidxScenarioA 32) = 1000 := rfl
  have hr : sidxReferenceCount (sidxScenarioA 32) = 2 := rfl
  have hp : sidxEarliest (sidxScenarioA 32) = 0 := rfl
  have hf : sidxFirstOffset (sidxScenarioA 32) = 0 := rfl
  have d0 : refDuration (List.drop 32 (sidxScenarioA 32)) 0 = 2000 := rfl
  have d1 : refDuration (List.drop 32 (sidxScenarioA 32)) 1 = 2000 := rfl
  have r0 : refSize (List.drop 32 (sidxScenarioA 32)) 0 = 1000 := rfl
  have r1 : refSize (List.drop 32 (sidxScenarioA 32)) 1 = 1000 := rfl
  obtain ⟨t1, t2, -, -, -⟩ := ToSeconds_binary64_whole
  simp only [Binary64.sidxTable, hh, ht, hr, hp, hf, List.range_succ, List.range_zero,
    List.nil_append, List.map_cons, List.map_nil, List.singleton_append, Binary64.entryAt,
    ptsAt, offsetAt, Finset.sum_range_succ, Finset.range_zero, Finset.sum_empty, d0, d1, r0,
    r1, Nat.add_zero, Nat.zero_add, Nat.reduceAdd, Nat.reduceMod, Nat.reducePow, t1, t2]

/-- The table of `sidxPtsWrapping` fetched from `100-163`, in `double` arithmetic: the
table of exact arithmetic, every value of which is a `double`. -/
theorem sidxTable_binary64_ptsWrapping :
    Binary64.sidxTable sidxPtsWrapping 163 =
      [MakeEntry 18446744073709547520 8192 164 1000, MakeEntry 4096 4096 1164 1000] := by
  have hh : sidxHeaderLength sidxPtsWrapping = 40 := rfl
  have ht : sidxTimescale sidxPtsWrapping = 1 := rfl
  have hr : sidxReferenceCount sidxPtsWrapping = 2 := rfl
  have hp : sidxEarliest sidxPtsWrapping = 18446744073709547520 := by decide
  have hf : sidxFirstOffset sidxPtsWrapping = 0 := rfl
  have d0 : refDuration (List.drop 40 sidxPtsWrapping) 0 = 8192 := rfl
  have d1 : refDuration (List.drop 40 sidxPtsWrapping) 1 = 4096 := rfl
  have r0 : refSize (List.drop 40 sidxPtsWrapping) 0 = 1000 := rfl
  have r1 : refSize (List.drop 40 sidxPtsWrapping) 1 = 1000 := rfl
  obtain ⟨-, -, t3, t4, t5⟩ := ToSeconds_binary64_whole
  simp only [Binary64.sidxTable, hh, ht, hr, hp, hf, List.range_succ, List.range_zero,
    List.nil_append, List.map_cons, List.map_nil, List.singleton_append, Binary64.entryAt,
    ptsAt, offsetAt, Finset.sum_range_succ, Finset.range_zero, Finset.sum_empty, d0, d1, r0,
    r1, Nat.add_zero, Nat.zero_add, Nat.reduceAdd, Nat.reduceMod, Nat.reducePow, t3, t4, t5]
/-! ### Lookups by time in `double` arithmetic -/

/-- The run of `ParseSidx` in `double` arithmetic on an accepted buffer whose table is
known. -/
theorem ParseSidx_binary64_table (seq : SegmentBaseSequence) (sidx : List Byte) (b e : Nat)
    (table : List SegmentIndexEntry) (h16 : 16 ≤ sidx.length)
    (ha : (b + sidxSize sidx + 2 ^ 64 - 1) % 2 ^ 64 ≤ e)
    (hlen : sidxHeaderLength sidx + 12 * sidxReferenceCount sidx ≤ sidx.length)
    (htab : Binary64.sidxTable sidx e = table) :
    Binary64.ParseSidx seq sidx b e =
      .ok { Binary64.parsed seq sidx e with segment_index_ := table } := by
  rw [ParseSidx_binary64_accepts seq sidx b e h16 ha hlen]
  subst htab
  rfl

/-- The entries of a table built in `double` arithmetic. -/
theorem ParseSidx_binary64_entry {seq seq1 : SegmentBaseSequence} {sidx : List Byte}
    {b e : Nat} (h : Binary64.ParseSidx seq sidx b e = .ok seq1) (j : Nat)
    (hj : j < seq1.segment_index_.length) :
    (seq1.segment_index_[j]).timestamp =
        Binary64.ToSeconds
          (ptsAt (sidxEarliest sidx % 2 ^ 64) (sidx.drop (sidxHeaderLength sidx)) j)
          (sidxTimescale sidx) ∧
      (seq1.segment_index_[j]).duration =
        Binary64.ToSeconds (refDuration (sidx.drop (sidxHeaderLength sidx)) j)
          (sidxTimescale sidx) := by
  obtain ⟨-, -, -, htab⟩ := ParseSidx_binary64_ok h
  simp only [htab, sidxTable_binary64_getElem, Binary64.entryAt, MakeEntry, and_self]

/-- The difference of a `double` and a non-negative tolerance rounds to at most that
`double`. -/
theorem roundDouble_sub_le (x kEps : ℚ) (hk : 0 ≤ kEps) (hx : roundDouble x = x) :
    roundDouble (x - kEps) ≤ x := by
  have := roundDouble_mono (sub_le_self x hk)
  rwa [hx] at this

/-- The scan in `double` arithmetic returns at entry 0, and so neither at entry 1 nor
at `End()`, when the test of entry 0 holds. -/
theorem MediaSegmentForTime_binary64_entry0 (kEps : ℚ) (fuel : Nat) (seq : SegmentBaseSequence)
    (t : ℚ) (hN : seq.segment_index_.length < 2 ^ 32) (hfuel : seq.segment_index_.length < fuel)
    (hc : Binary64.Covers kEps seq.segment_index_ t 0) :
    Binary64.MediaSegmentForTime kEps fuel seq t =
        .ok { sequence_ := some seq, current_index_ := 0 } ∧
      Binary64.MediaSegmentForTime kEps fuel seq t ≠
        .ok { sequence_ := some seq, current_index_ := 1 } ∧
      Binary64.MediaSegmentForTime kEps fuel seq t ≠ .ok (End seq) := by
  have h0 : 0 < seq.segment_index_.length := Exists.elim hc (fun h _ => h)
  have h1 := MediaSegmentForTime_binary64_first kEps fuel seq t hN hfuel 0 hc
    (fun j hj => absurd hj (Nat.not_lt_zero j))
  refine ⟨h1, ?_, ?_⟩
  · rw [h1]
    intro heq
    simp at heq
  · rw [h1]
    intro heq
    simp only [End, MakeIterator, Nat.mod_eq_of_lt hN, Except.ok.injEq,
      SegmentBaseIterator.mk.injEq, true_and] at heq
    omega

/-- C5 (as amended): for every table built by an accepted run of `ParseSidx` in
`double` arithmetic with `timescale > 0`, every index `i < N` and every `t` with
`timestamp[i] <= t < timestamp[i] + duration[i]`, where the timestamp and the duration
are the stored `double`s and the sum is the `double` the scan computes,
`MediaSegmentForTime(t)` returns the iterator at the smallest index `j <= i` whose
entry passes the scan's test.  That index is `i` when `t` is at or after the computed
end of every earlier entry, and in particular when the stored timestamps and
durations of entries `0..i` are the exact quotients `pts / timescale` and
`subsegment_duration / timescale`.  The tolerance `kEps` of the header is taken between
0 and 1. -/
theorem MediaSegmentForTime_inside (kEps : ℚ) (hk0 : 0 ≤ kEps) (hk1 : kEps ≤ 1)
    (fuel : Nat) (seq seq1 : SegmentBaseSequence) (sidx : List Byte) (b e : Nat)
    (h : Binary64.ParseSidx seq sidx b e = .ok seq1) (hT : 0 < sidxTimescale sidx)
    (hfuel : seq1.segment_index_.length < fuel) (i : Nat)
    (hi : i < seq1.segment_index_.length) (t : ℚ)
    (ht1 : (seq1.segment_index_[i]).timestamp ≤ t)
    (ht2 : t < roundDouble
      ((seq1.segment_index_[i]).timestamp + (seq1.segment_index_[i]).duration)) :
    (∃ j, j ≤ i ∧ Binary64.Covers kEps seq1.segment_index_ t j ∧
        (∀ k, k < j → ¬ Binary64.Covers kEps seq1.segment_index_ t k) ∧
        Binary64.MediaSegmentForTime kEps fuel seq1 t =
          .ok { sequence_ := some seq1, current_index_ := j }) ∧
      ((∀ j (hj : j < seq1.segment_index_.length), j < i →
          roundDouble
            ((seq1.segment_index_[j]).timestamp + (seq1.segment_index_[j]).duration) ≤ t) →
        Binary64.MediaSegmentForTime kEps fuel seq1 t =
          .ok { sequence_ := some seq1, current_index_ := i }) ∧
      ((∀ j, j ≤ i →
          Binary64.ToSeconds
              (ptsAt (sidxEarliest sidx % 2 ^ 64) (sidx.drop (sidxHeaderLength sidx)) j)
              (sidxTimescale sidx) =
            (ptsAt (sidxEarliest sidx % 2 ^ 64) (sidx.drop (sidxHeaderLength sidx)) j : ℚ) /
              (sidxTimescale sidx : ℚ) ∧
          Binary64.ToSeconds (refDuration (sidx.drop (sidxHeaderLength sidx)) j)
              (sidxTimescale sidx) =
            (refDuration (sidx.drop (sidxHeaderLength sidx)) j : ℚ) /
              (sidxTimescale sidx : ℚ)) →
        Binary64.MediaSegmentForTime kEps fuel seq1 t =
          .ok { sequence_ := some seq1, current_index_ := i }) ∧
      (seq1.segment_index_[i]).timestamp =
        Binary64.ToSeconds
          (ptsAt (sidxEarliest sidx % 2 ^ 64) (sidx.drop (sidxHeaderLength sidx)) i)
          (sidxTimescale sidx) ∧
      (seq1.segment_index_[i]).duration =
        Binary64.ToSeconds (refDuration (sidx.drop (sidxHeaderLength sidx)) i)
          (sidxTimescale sidx) := by
  obtain ⟨-, -, -, htab⟩ := ParseSidx_binary64_ok h
  have hlen : seq1.segment_index_.length = sidxReferenceCount sidx := by
    rw [htab, sidxTable_binary64_length]
  have hrc := sidxReferenceCount_lt sidx
  have hTlt := sidxTimescale_lt sidx
  have hTq : (0 : ℚ) < (sidxTimescale sidx : ℚ) := by exact_mod_cast hT
  have hN : seq1.segment_index_.length < 2 ^ 32 := by omega
  have hent := ParseSidx_binary64_entry h
  have hidem : roundDouble (seq1.segment_index_[i]).timestamp =
      (seq1.segment_index_[i]).timestamp := by
    rw [(hent i hi).1]
    exact ToSeconds_binary64_idem _ _
  have hcov : Binary64.Covers kEps seq1.segment_index_ t i :=
    ⟨hi, le_trans (roundDouble_sub_le _ kEps hk0 hidem) ht1, ht2⟩
  refine ⟨?_, ?_, ?_, (hent i hi).1, (hent i hi).2⟩
  · rcases MediaSegmentForTime_loop_binary64_spec kEps seq1.segment_index_ t hN fuel 0
      (Nat.zero_le _) (by omega) with ⟨k, -, hk2, hk3, -⟩ | ⟨hk1, -⟩
    · have hki : k ≤ i := by
        by_contra hc
        exact hk3 i (Nat.zero_le _) (by omega) hcov
      exact ⟨k, hki, hk2, fun j hj => hk3 j (Nat.zero_le _) hj,
        MediaSegmentForTime_binary64_first kEps fuel seq1 t hN hfuel k hk2
          (fun j hj => hk3 j (Nat.zero_le _) hj)⟩
    · exact absurd hcov (hk1 i (Nat.zero_le _))
  · intro hend
    refine MediaSegmentForTime_binary64_first kEps fuel seq1 t hN hfuel i hcov
      (fun j hj hcj => ?_)
    obtain ⟨hjN, -, hc2⟩ := hcj
    exact absurd (hend j hjN hj) (not_le.mpr hc2)
  · intro hex
    refine MediaSegmentForTime_binary64_first kEps fuel seq1 t hN hfuel i hcov
      (fun j hj hcj => ?_)
    obtain ⟨hjN, hc1, hc2⟩ := hcj
    rw [(hent j hjN).1, (hex j hj.le).1] at hc1
    rw [(hent j hjN).1, (hent j hjN).2, (hex j hj.le).1, (hex j hj.le).2] at hc2
    rw [(hent i hi).1, (hex i (le_refl i)).1] at ht1
    rw [(hent i hi).1, (hent i hi).2, (hex i (le_refl i)).1, (hex i (le_refl i)).2] at ht2
    have hidem2 := ToSeconds_binary64_idem
      (ptsAt (sidxEarliest sidx % 2 ^ 64) (sidx.drop (sidxHeaderLength sidx)) i)
      (sidxTimescale sidx)
    rw [(hex i (le_refl i)).1] at hidem2
    rcases ptsAt_order (sidxEarliest sidx % 2 ^ 64) (sidxTimescale sidx)
      (sidx.drop (sidxHeaderLength sidx)) j i hj (by omega) hTlt with hord | hord
    · have hq : ((ptsAt (sidxEarliest sidx % 2 ^ 64) (sidx.drop (sidxHeaderLength sidx)) j : ℚ) +
          (refDuration (sidx.drop (sidxHeaderLength sidx)) j : ℚ)) ≤
          (ptsAt (sidxEarliest sidx % 2 ^ 64) (sidx.drop (sidxHeaderLength sidx)) i : ℚ) := by
        exact_mod_cast hord
      have h1 := div_le_div_of_nonneg_right hq (le_of_lt hTq)
      rw [add_div] at h1
      have h2 := roundDouble_mono h1
      rw [hidem2] at h2
      linarith
    · have hq : ((ptsAt (sidxEarliest sidx % 2 ^ 64) (sidx.drop (sidxHeaderLength sidx)) i : ℚ) +
          (refDuration (sidx.drop (sidxHeaderLength sidx)) i : ℚ)) +
            2 * (sidxTimescale sidx : ℚ) ≤
          (ptsAt (sidxEarliest sidx % 2 ^ 64) (sidx.drop (sidxHeaderLength sidx)) j : ℚ) := by
        exact_mod_cast hord
      have h1 := div_le_div_of_nonneg_right hq (le_of_lt hTq)
      rw [add_div, add_div, mul_div_assoc, div_self (ne_of_gt hTq)] at h1
      have h2 := roundDouble_mono (show
        (ptsAt (sidxEarliest sidx % 2 ^ 64) (sidx.drop (sidxHeaderLength sidx)) i : ℚ) /
            (sidxTimescale sidx : ℚ) +
          (refDuration (sidx.drop (sidxHeaderLength sidx)) i : ℚ) / (sidxTimescale sidx : ℚ) ≤
        (ptsAt (sidxEarliest sidx % 2 ^ 64) (sidx.drop (sidxHeaderLength sidx)) j : ℚ) /
            (sidxTimescale sidx : ℚ) - kEps by linarith)
      linarith
/-- Small whole numbers and the tolerance `1 / 1024` are `double`s. -/
theorem roundDouble_small :
    roundDouble 1 = 1 ∧ roundDouble 2 = 2 ∧ roundDouble 4 = 4 ∧
      roundDouble (1 / 1024) = 1 / 1024 := by
  have h1 := roundDouble_natCast 1 (by norm_num)
  have h2 := roundDouble_natCast 2 (by norm_num)
  have h4 := roundDouble_natCast 4 (by norm_num)
  have hk := roundDouble_representable 4503599627370496 (-62) (by norm_num) (by norm_num)
    (Or.inl (by norm_num))
  norm_num at h1 h2 h4 hk
  exact ⟨h1, h2, h4, hk⟩

/-- The run of `ParseSidx` in `double` arithmetic on the box of Scenario A fetched from
`100-131`: the table and the average of exact arithmetic. -/
theorem ParseSidx_binary64_scenarioA :
    Binary64.ParseSidx scenarioSequence (sidxScenarioA 32) 100 131 = .ok scenarioLoaded := by
  obtain ⟨h1, h2, -, -⟩ := roundDouble_small
  obtain ⟨-, t2, -, -, -⟩ := ToSeconds_binary64_whole
  have d0 : refDuration (List.drop 32 (sidxScenarioA 32)) 0 = 2000 := rfl
  have d1 : refDuration (List.drop 12 (List.drop 32 (sidxScenarioA 32))) 0 = 2000 := rfl
  have hh : sidxHeaderLength (sidxScenarioA 32) = 32 := rfl
  have ht : sidxTimescale (sidxScenarioA 32) = 1000 := rfl
  have hr : sidxReferenceCount (sidxScenarioA 32) = 2 := rfl
  have havg : Binary64.averageAfter 1000 2 0 0 (List.drop 32 (sidxScenarioA 32)) = 2 := by
    simp only [Binary64.averageAfter, d0, d1, t2, Nat.cast_zero, Nat.cast_one, sub_zero,
      roundDouble_zero, zero_add, h1, h2, div_one, sub_self, zero_div, add_zero,
      show (1 : ℚ) + 1 = 2 by norm_num]
  rw [ParseSidx_binary64_accepts scenarioSequence (sidxScenarioA 32) 100 131 (by decide)
    (by decide) (by decide)]
  simp only [Binary64.parsed, sidxTable_binary64_scenarioA, hh, ht, hr, havg]
  rfl

/-- C4 (as amended): for every non-empty table built by an accepted run of `ParseSidx`
in `double` arithmetic with `timescale > 0`, `MediaSegmentForTime(t)` returns `End()`
for every `t` below the first entry's start minus the tolerance as the scan computes
it (`t < timestamp[0] - kEps`) when the running `pts` does not wrap
(`earliest_presentation_time` plus all durations below `2 ^ 64`), and for every `t` at
or after the computed end `timestamp[i] + duration[i]` of every entry.  When the `pts`
does not wrap and the stored timestamps and durations are the exact quotients
`pts / timescale` and `subsegment_duration / timescale`, the last entry's computed end
is the largest, and `t >= timestamp[N-1] + duration[N-1]` suffices. -/
theorem MediaSegmentForTime_outside (kEps : ℚ) (fuel : Nat)
    (seq seq1 : SegmentBaseSequence) (sidx : List Byte) (b e : Nat)
    (h : Binary64.ParseSidx seq sidx b e = .ok seq1) (_hT : 0 < sidxTimescale sidx)
    (hfuel : seq1.segment_index_.length < fuel) (hN : 0 < seq1.segment_index_.length) (t : ℚ) :
    (sidxEarliest sidx + ∑ m in Finset.range (sidxReferenceCount sidx),
          refDuration (sidx.drop (sidxHeaderLength sidx)) m < 2 ^ 64 →
        t < roundDouble ((seq1.segment_index_[0]).timestamp - kEps) →
        Binary64.MediaSegmentForTime kEps fuel seq1 t = .ok (End seq1)) ∧
      ((∀ i (hi : i < seq1.segment_index_.length),
          roundDouble
            ((seq1.segment_index_[i]).timestamp + (seq1.segment_index_[i]).duration) ≤ t) →
        Binary64.MediaSegmentForTime kEps fuel seq1 t = .ok (End seq1)) ∧
      (sidxEarliest sidx + ∑ m in Finset.range (sidxReferenceCount sidx),
          refDuration (sidx.drop (sidxHeaderLength sidx)) m < 2 ^ 64 →
        (∀ j, j < sidxReferenceCount sidx →
          Binary64.ToSeconds
              (ptsAt (sidxEarliest sidx % 2 ^ 64) (sidx.drop (sidxHeaderLength sidx)) j)
              (sidxTimescale sidx) =
            (ptsAt (sidxEarliest sidx % 2 ^ 64) (sidx.drop (sidxHeaderLength sidx)) j : ℚ) /
              (sidxTimescale sidx : ℚ) ∧
          Binary64.ToSeconds (refDuration (sidx.drop (sidxHeaderLength sidx)) j)
              (sidxTimescale sidx) =
            (refDuration (sidx.drop (sidxHeaderLength sidx)) j : ℚ) /
              (sidxTimescale sidx : ℚ)) →
        roundDouble
            ((seq1.segment_index_[seq1.segment_index_.length - 1]).timestamp +
              (seq1.segment_index_[seq1.segment_index_.length - 1]).duration) ≤ t →
        Binary64.MediaSegmentForTime kEps fuel seq1 t = .ok (End seq1)) := by
  obtain ⟨-, -, -, htab⟩ := ParseSidx_binary64_ok h
  have hlen : seq1.segment_index_.length = sidxReferenceCount sidx := by
    rw [htab, sidxTable_binary64_length]
  have hrc := sidxReferenceCount_lt sidx
  have hN32 : seq1.segment_index_.length < 2 ^ 32 := by omega
  have hent := ParseSidx_binary64_entry h
  have hpts : sidxEarliest sidx + ∑ m in Finset.range (sidxReferenceCount sidx),
        refDuration (sidx.drop (sidxHeaderLength sidx)) m < 2 ^ 64 →
      ∀ k, k ≤ sidxReferenceCount sidx →
        ptsAt (sidxEarliest sidx % 2 ^ 64) (sidx.drop (sidxHeaderLength sidx)) k =
          sidxEarliest sidx +
            ∑ m in Finset.range k, refDuration (sidx.drop (sidxHeaderLength sidx)) m := by
    intro hw k hk
    have := (sum_refDuration_bounds (sidx.drop (sidxHeaderLength sidx)) k
      (sidxReferenceCount sidx) hk).1
    simp only [ptsAt]
    omega
  have hall : (∀ i (hi : i < seq1.segment_index_.length),
      roundDouble
        ((seq1.segment_index_[i]).timestamp + (seq1.segment_index_[i]).duration) ≤ t) →
      Binary64.MediaSegmentForTime kEps fuel seq1 t = .ok (End seq1) := by
    intro hend
    refine MediaSegmentForTime_binary64_none kEps fuel seq1 t hN32 hfuel (fun i hcov => ?_)
    obtain ⟨hiN, -, hc2⟩ := hcov
    exact absurd (hend i hiN) (not_le.mpr hc2)
  refine ⟨fun hw ht => ?_, hall, fun hw hex ht => hall (fun i hi => ?_)⟩
  · refine MediaSegmentForTime_binary64_none kEps fuel seq1 t hN32 hfuel (fun i hcov => ?_)
    obtain ⟨hiN, hc1, -⟩ := hcov
    have hord : ptsAt (sidxEarliest sidx % 2 ^ 64) (sidx.drop (sidxHeaderLength sidx)) 0 ≤
        ptsAt (sidxEarliest sidx % 2 ^ 64) (sidx.drop (sidxHeaderLength sidx)) i := by
      rw [hpts hw 0 (by omega), hpts hw i (by omega)]
      simp
    have h1 := ToSeconds_binary64_mono (sidxTimescale sidx) hord
    rw [← (hent 0 hN).1, ← (hent i hiN).1] at h1
    have h2 := roundDouble_mono (sub_le_sub_right h1 kEps)
    linarith
  · have hl : seq1.segment_index_.length - 1 < seq1.segment_index_.length := by omega
    have hord : ptsAt (sidxEarliest sidx % 2 ^ 64) (sidx.drop (sidxHeaderLength sidx)) i +
          refDuration (sidx.drop (sidxHeaderLength sidx)) i ≤
        ptsAt (sidxEarliest sidx % 2 ^ 64) (sidx.drop (sidxHeaderLength sidx))
            (seq1.segment_index_.length - 1) +
          refDuration (sidx.drop (sidxHeaderLength sidx)) (seq1.segment_index_.length - 1) := by
      rw [hpts hw i (by omega), hpts hw _ (by omega)]
      rcases Nat.eq_or_lt_of_le (Nat.le_sub_one_of_lt hi) with h1 | h1
      · rw [← h1]
      · have := sum_refDuration_step (sidx.drop (sidxHeaderLength sidx)) i
          (seq1.segment_index_.length - 1) h1
        omega
    have hq : (ptsAt (sidxEarliest sidx % 2 ^ 64) (sidx.drop (sidxHeaderLength sidx)) i : ℚ) +
          (refDuration (sidx.drop (sidxHeaderLength sidx)) i : ℚ) ≤
        (ptsAt (sidxEarliest sidx % 2 ^ 64) (sidx.drop (sidxHeaderLength sidx))
            (seq1.segment_index_.length - 1) : ℚ) +
          (refDuration (sidx.drop (sidxHeaderLength sidx))
            (seq1.segment_index_.length - 1) : ℚ) := by
      exact_mod_cast hord
    have h1 := div_le_div_of_nonneg_right hq (Nat.cast_nonneg (sidxTimescale sidx))
    rw [add_div, add_div] at h1
    have h2 := roundDouble_mono h1
    rw [(hent i hi).1, (hent i hi).2, (hex i (by omega)).1, (hex i (by omega)).2]
    rw [(hent _ hl).1, (hent _ hl).2, (hex _ (by omega)).1, (hex _ (by omega)).2] at ht
    exact le_trans h2 ht

theorem MediaSegmentForTime_outside_witness :
    Binary64.MediaSegmentForTime (1 / 1024) 3 scenarioLoaded (-1) = .ok (End scenarioLoaded) ∧
      Binary64.MediaSegmentForTime (1 / 1024) 3 scenarioLoaded 4 = .ok (End scenarioLoaded) ∧
      Binary64.MediaSegmentForTime (1 / 1024) 3 scenarioLoaded 5 = .ok (End scenarioLoaded) := by
  obtain ⟨h1, h2, h4, hk⟩ := roundDouble_small
  obtain ⟨t1, t2, -, -, -⟩ := ToSeconds_binary64_whole
  have hsum : roundDouble (2 + 2) = 4 := by
    rw [show (2 : ℚ) + 2 = 4 by norm_num, h4]
  refine ⟨(MediaSegmentForTime_outside (1 / 1024) 3 scenarioSequence scenarioLoaded
      (sidxScenarioA 32) 100 131 ParseSidx_binary64_scenarioA (by decide) (by decide)
      (by decide) (-1)).1 (by decide) ?_,
    (MediaSegmentForTime_outside (1 / 1024) 3 scenarioSequence scenarioLoaded
      (sidxScenarioA 32) 100 131 ParseSidx_binary64_scenarioA (by decide) (by decide)
      (by decide) 4).2.1 ?_,
    (MediaSegmentForTime_outside (1 / 1024) 3 scenarioSequence scenarioLoaded
      (sidxScenarioA 32) 100 131 ParseSidx_binary64_scenarioA (by decide) (by decide)
      (by decide) 5).2.2 (by decide) ?_ ?_⟩
  · simp only [scenarioLoaded, MakeEntry, List.getElem_cons_zero, zero_sub, roundDouble_neg, hk]
    norm_num
  · intro i hi
    have hi2 : i < 2 := hi
    interval_cases i
    · simp only [scenarioLoaded, MakeEntry, List.getElem_cons_zero, zero_add, h2]
      norm_num
    · simp only [scenarioLoaded, MakeEntry, List.getElem_cons_succ, List.getElem_cons_zero,
        hsum, le_refl]
  · intro j hj
    have hj2 : j < 2 := hj
    have hp0 : ptsAt (sidxEarliest (sidxScenarioA 32) % 2 ^ 64)
        (List.drop (sidxHeaderLength (sidxScenarioA 32)) (sidxScenarioA 32)) 0 = 0 := rfl
    have hp1 : ptsAt (sidxEarliest (sidxScenarioA 32) % 2 ^ 64)
        (List.drop (sidxHeaderLength (sidxScenarioA 32)) (sidxScenarioA 32)) 1 = 2000 := by
      decide
    have hd0 : refDuration
        (List.drop (sidxHeaderLength (sidxScenarioA 32)) (sidxScenarioA 32)) 0 = 2000 := rfl
    have hd1 : refDuration
        (List.drop (sidxHeaderLength (sidxScenarioA 32)) (sidxScenarioA 32)) 1 = 2000 := rfl
    have ht : sidxTimescale (sidxScenarioA 32) = 1000 := rfl
    interval_cases j
    · rw [hp0, hd0, ht, t1, t2]
      norm_num
    · rw [hp1, hd1, ht, t2]
      norm_num
  · simp only [scenarioLoaded, MakeEntry, List.length_cons, List.length_nil, Nat.reduceAdd,
      Nat.reduceSub, List.getElem_cons_succ, List.getElem_cons_zero, hsum]
    norm_num
theorem MediaSegmentForTime_inside_witness :
    (∃ j, j ≤ 1 ∧ Binary64.Covers (1 / 1024) scenarioLoaded.segment_index_ 3 j ∧
        (∀ k, k < j → ¬ Binary64.Covers (1 / 1024) scenarioLoaded.segment_index_ 3 k) ∧
        Binary64.MediaSegmentForTime (1 / 1024) 3 scenarioLoaded 3 =
          .ok { sequence_ := some scenarioLoaded, current_index_ := j }) ∧
      Binary64.MediaSegmentForTime (1 / 1024) 3 scenarioLoaded 3 =
        .ok { sequence_ := some scenarioLoaded, current_index_ := 1 } ∧
      (scenarioLoaded.segment_index_[1]).timestamp =
        Binary64.ToSeconds
          (ptsAt (sidxEarliest (sidxScenarioA 32) % 2 ^ 64)
            ((sidxScenarioA 32).drop (sidxHeaderLength (sidxScenarioA 32))) 1)
          (sidxTimescale (sidxScenarioA 32)) := by
  obtain ⟨-, -, h4, -⟩ := roundDouble_small
  obtain ⟨t1, t2, -, -, -⟩ := ToSeconds_binary64_whole
  have hp0 : ptsAt (sidxEarliest (sidxScenarioA 32) % 2 ^ 64)
      (List.drop (sidxHeaderLength (sidxScenarioA 32)) (sidxScenarioA 32)) 0 = 0 := rfl
  have hp1 : ptsAt (sidxEarliest (sidxScenarioA 32) % 2 ^ 64)
      (List.drop (sidxHeaderLength (sidxScenarioA 32)) (sidxScenarioA 32)) 1 = 2000 := by
    decide
  have hd0 : refDuration
      (List.drop (sidxHeaderLength (sidxScenarioA 32)) (sidxScenarioA 32)) 0 = 2000 := rfl
  have hd1 : refDuration
      (List.drop (sidxHeaderLength (sidxScenarioA 32)) (sidxScenarioA 32)) 1 = 2000 := rfl
  have ht : sidxTimescale (sidxScenarioA 32) = 1000 := rfl
  have hthm := MediaSegmentForTime_inside (1 / 1024) (by norm_num) (by norm_num) 3
    scenarioSequence scenarioLoaded (sidxScenarioA 32) 100 131 ParseSidx_binary64_scenarioA
    (by decide) (by decide) 1 (by decide) 3
    (by simp only [scenarioLoaded, MakeEntry, List.getElem_cons_succ, List.getElem_cons_zero]
        norm_num)
    (by simp only [scenarioLoaded, MakeEntry, List.getElem_cons_succ, List.getElem_cons_zero]
        rw [show (2 : ℚ) + 2 = 4 by norm_num, h4]
        norm_num)
  refine ⟨hthm.1, hthm.2.2.1 (fun j hj => ?_), hthm.2.2.2.1⟩
  interval_cases j
  · rw [hp0, hd0, ht, t1, t2]
    norm_num
  · rw [hp1, hd1, ht, t2]
    norm_num

/-- C5 (as stated) fails.  The box `sidxSevenths` (timescale 7, earliest presentation
time 9, durations 18 and 7) is accepted, and `t`, the stored timestamp of entry 1 (the
`double` nearest to `27 / 7`), lies in entry 1's interval, whether its bounds are the
stored `double`s, the sum the scan computes or the exact quotients `27 / 7` and
`27 / 7 + 7 / 7`.  Yet for every tolerance `kEps >= 0` the scan returns the iterator at
entry 0: the sum `timestamp[0] + duration[0]` rounds up, above `t`. -/
theorem MediaSegmentForTime_inside_fails :
    ∃ seq1, Binary64.ParseSidx scenarioSequence sidxSevenths 100 155 = .ok seq1 ∧
      ∃ e0 e1, seq1.segment_index_ = [e0, e1] ∧ ∃ t : ℚ,
        (e1.timestamp ≤ t ∧ t < e1.timestamp + e1.duration) ∧
        t < roundDouble (e1.timestamp + e1.duration) ∧
        (ToSeconds 27 7 ≤ t ∧ t < ToSeconds 27 7 + ToSeconds 7 7) ∧
        ∀ kEps : ℚ, 0 ≤ kEps →
          Binary64.MediaSegmentForTime kEps 3 seq1 t =
            .ok { sequence_ := some seq1, current_index_ := 0 } ∧
          Binary64.MediaSegmentForTime kEps 3 seq1 t ≠
            .ok { sequence_ := some seq1, current_index_ := 1 } := by
  obtain ⟨-, -, h4, -⟩ := roundDouble_small
  have hidem : roundDouble (5790342378047781 / 4503599627370496) =
      5790342378047781 / 4503599627370496 := by
    rw [← roundDouble_nine_sevenths]
    exact roundDouble_idem _
  refine ⟨_, ParseSidx_binary64_table scenarioSequence sidxSevenths 100 155 _ (by decide)
    (by decide) (by decide) sidxTable_binary64_sevenths, _, _, rfl,
    8685513567071671 / 2251799813685248, ?_, ?_, ?_, fun kEps hk => ?_⟩
  · simp only [MakeEntry]
    norm_num
  · simp only [MakeEntry]
    have := roundDouble_mono (show (4 : ℚ) ≤ 8685513567071671 / 2251799813685248 + 1 by
      norm_num)
    rw [h4] at this
    refine lt_of_lt_of_le ?_ this
    norm_num
  · simp only [ToSeconds]
    norm_num
  · have h := MediaSegmentForTime_binary64_entry0 kEps 3
      { Binary64.parsed scenarioSequence sidxSevenths 155 with
        segment_index_ :=
          [MakeEntry (5790342378047781 / 4503599627370496)
              (5790342378047781 / 2251799813685248) 156 1000,
            MakeEntry (8685513567071671 / 2251799813685248) 1 1156 1000] }
      (8685513567071671 / 2251799813685248) (by decide) (by decide)
      ⟨by decide, by
        simp only [MakeEntry, List.getElem_cons_zero]
        refine le_trans (roundDouble_sub_le _ kEps hk hidem) ?_
        norm_num, by
        simp only [MakeEntry, List.getElem_cons_zero, roundDouble_sevenths_end]
        norm_num⟩
    exact ⟨h.1, h.2.1⟩

/-- C4 (as stated) fails, in four ways.  (1) For every tolerance `kEps > 0` that is a
`double`, `t = -kEps` lies before the first start `0` of the table of Scenario A and is
returned at entry 0.  (2) The `pts` of `sidxPtsWrapping` wraps: its last entry ends at
`8192`, and `t = 18446744073709547520` is returned at entry 0.  (3) On
`sidxSeventhsZero` (timescale 7, earliest presentation time 9, durations 18 and 0, no
wrap) the last entry ends at its own timestamp `t`, the `double` nearest to `27 / 7`,
and `t` is returned at entry 0, whose computed end rounds up above `t`.  (4) On
`sidxLargeTimescale`, whose durations are both positive, the last entry's computed end
`t` is returned at entry 0.  In none of them does the scan return `End()`. -/
theorem MediaSegmentForTime_outside_fails :
    (∃ seq1, Binary64.ParseSidx scenarioSequence (sidxScenarioA 32) 100 131 = .ok seq1 ∧
      ∃ e0 e1, seq1.segment_index_ = [e0, e1] ∧
        ∀ kEps : ℚ, 0 < kEps → roundDouble kEps = kEps → ∃ t : ℚ, t < e0.timestamp ∧
          Binary64.MediaSegmentForTime kEps 3 seq1 t =
            .ok { sequence_ := some seq1, current_index_ := 0 } ∧
          Binary64.MediaSegmentForTime kEps 3 seq1 t ≠ .ok (End seq1)) ∧
    (∃ seq1, Binary64.ParseSidx scenarioSequence sidxPtsWrapping 100 163 = .ok seq1 ∧
      ∃ e0 e1, seq1.segment_index_ = [e0, e1] ∧
        ∀ kEps : ℚ, 0 ≤ kEps → ∃ t : ℚ, e1.timestamp + e1.duration ≤ t ∧
          roundDouble (e1.timestamp + e1.duration) ≤ t ∧
          Binary64.MediaSegmentForTime kEps 3 seq1 t =
            .ok { sequence_ := some seq1, current_index_ := 0 } ∧
          Binary64.MediaSegmentForTime kEps 3 seq1 t ≠ .ok (End seq1)) ∧
    (∃ seq1, Binary64.ParseSidx scenarioSequence sidxSeventhsZero 100 155 = .ok seq1 ∧
      ∃ e0 e1, seq1.segment_index_ = [e0, e1] ∧
        ∀ kEps : ℚ, 0 ≤ kEps → ∃ t : ℚ, e1.timestamp + e1.duration ≤ t ∧
          roundDouble (e1.timestamp + e1.duration) ≤ t ∧
          Binary64.MediaSegmentForTime kEps 3 seq1 t =
            .ok { sequence_ := some seq1, current_index_ := 0 } ∧
          Binary64.MediaSegmentForTime kEps 3 seq1 t ≠ .ok (End seq1)) ∧
    (∃ seq1, Binary64.ParseSidx scenarioSequence sidxLargeTimescale 100 163 = .ok seq1 ∧
      ∃ e0 e1, seq1.segment_index_ = [e0, e1] ∧ 0 < e0.duration ∧ 0 < e1.duration ∧
        ∀ kEps : ℚ, 0 ≤ kEps → ∃ t : ℚ,
          roundDouble (e1.timestamp + e1.duration) ≤ t ∧
          Binary64.MediaSegmentForTime kEps 3 seq1 t =
            .ok { sequence_ := some seq1, current_index_ := 0 } ∧
          Binary64.MediaSegmentForTime kEps 3 seq1 t ≠ .ok (End seq1)) := by
  obtain ⟨-, h2, -, -⟩ := roundDouble_small
  have hbig : roundDouble 18446744073709547520 = 18446744073709547520 := by
    have := roundDouble_representable 9007199254740990 11 (by norm_num) (by norm_num)
      (Or.inl (by norm_num))
    norm_num at this
    exact this
  have hbig2 : roundDouble (18446744073709547520 + 8192) = 18446744073709555712 := by
    have := roundDouble_representable 4503599627370497 12 (by norm_num) (by norm_num)
      (Or.inl (by norm_num))
    norm_num at this
    rw [show (18446744073709547520 : ℚ) + 8192 = 18446744073709555712 by norm_num]
    exact this
  have h8192 : roundDouble (4096 + 4096) = 8192 := by
    have := roundDouble_natCast 8192 (by norm_num)
    rw [show (4096 : ℚ) + 4096 = 8192 by norm_num]
    simpa using this
  have hidem0 : roundDouble (5790342378047781 / 4503599627370496) =
      5790342378047781 / 4503599627370496 := by
    rw [← roundDouble_nine_sevenths]
    exact roundDouble_idem _
  have hidem1 : roundDouble (8685513567071671 / 2251799813685248) =
      8685513567071671 / 2251799813685248 := by
    rw [← roundDouble_twentyseven_sevenths]
    exact roundDouble_idem _
  have hidemL : roundDouble (27650190042301 / 16384) = 27650190042301 / 16384 := by
    rw [← roundDouble_large_timestamp0]
    exact roundDouble_idem _
  refine ⟨⟨_, ParseSidx_binary64_scenarioA, _, _, rfl, fun kEps hk hd => ⟨-kEps, ?_, ?_⟩⟩,
    ⟨_, ParseSidx_binary64_table scenarioSequence sidxPtsWrapping 100 163 _ (by decide)
        (by decide) (by decide) sidxTable_binary64_ptsWrapping, _, _, rfl,
      fun kEps hk => ⟨18446744073709547520, ?_, ?_, ?_⟩⟩,
    ⟨_, ParseSidx_binary64_table scenarioSequence sidxSeventhsZero 100 155 _ (by decide)
        (by decide) (by decide) sidxTable_binary64_seventhsZero, _, _, rfl,
      fun kEps hk => ⟨8685513567071671 / 2251799813685248, ?_, ?_, ?_⟩⟩,
    ⟨_, ParseSidx_binary64_table scenarioSequence sidxLargeTimescale 100 163 _ (by decide)
        (by decide) (by decide) sidxTable_binary64_large, _, _, rfl, ?_, ?_,
      fun kEps hk => ⟨1769612164032421 / 1048576, ?_, ?_⟩⟩⟩
  · simp only [MakeEntry]
    linarith
  · have h := MediaSegmentForTime_binary64_entry0 kEps 3 scenarioLoaded (-kEps) (by decide)
      (by decide)
      ⟨by decide, by
        simp only [scenarioLoaded, MakeEntry, List.getElem_cons_zero, zero_sub,
          roundDouble_neg, hd, le_refl], by
        simp only [scenarioLoaded, MakeEntry, List.getElem_cons_zero, zero_add, h2]
        linarith⟩
    exact ⟨h.1, h.2.2⟩
  · simp only [MakeEntry]
    norm_num
  · simp only [MakeEntry, h8192]
    norm_num
  · have h := MediaSegmentForTime_binary64_entry0 kEps 3
      { Binary64.parsed scenarioSequence sidxPtsWrapping 163 with
        segment_index_ :=
          [MakeEntry 18446744073709547520 8192 164 1000, MakeEntry 4096 4096 1164 1000] }
      18446744073709547520 (by decide) (by decide)
      ⟨by decide, by
        simp only [MakeEntry, List.getElem_cons_zero]
        exact roundDouble_sub_le _ kEps hk hbig, by
        simp only [MakeEntry, List.getElem_cons_zero, hbig2]
        norm_num⟩
    exact ⟨h.1, h.2.2⟩
  · simp only [MakeEntry]
    norm_num
  · simp only [MakeEntry, add_zero, hidem1, le_refl]
  · have h := MediaSegmentForTime_binary64_entry0 kEps 3
      { Binary64.parsed scenarioSequence sidxSeventhsZero 155 with
        segment_index_ :=
          [MakeEntry (5790342378047781 / 4503599627370496)
              (5790342378047781 / 2251799813685248) 156 1000,
            MakeEntry (8685513567071671 / 2251799813685248) 0 1156 1000] }
      (8685513567071671 / 2251799813685248) (by decide) (by decide)
      ⟨by decide, by
        simp only [MakeEntry, List.getElem_cons_zero]
        refine le_trans (roundDouble_sub_le _ kEps hk hidem0) ?_
        norm_num, by
        simp only [MakeEntry, List.getElem_cons_zero, roundDouble_sevenths_end]
        norm_num⟩
    exact ⟨h.1, h.2.2⟩
  · simp only [MakeEntry]
    norm_num
  · simp only [MakeEntry]
    norm_num
  · simp only [MakeEntry, roundDouble_large_end1, le_refl]
  · have h := MediaSegmentForTime_binary64_entry0 kEps 3
      { Binary64.parsed scenarioSequence sidxLargeTimescale 163 with
        segment_index_ :=
          [MakeEntry (27650190042301 / 16384) (1422876711503407 / 1125899906842624) 164 1000,
            MakeEntry (1769612164032421 / 1048576)
              (4835703267175209 / 4835703278458516698824704) 1164 1000] }
      (1769612164032421 / 1048576) (by decide) (by decide)
      ⟨by decide, by
        simp only [MakeEntry, List.getElem_cons_zero]
        refine le_trans (roundDouble_sub_le _ kEps hk hidemL) ?_
        norm_num, by
        simp only [MakeEntry, List.getElem_cons_zero, roundDouble_large_end0]
        norm_num⟩
    exact ⟨h.1, h.2.2⟩

end SegmentBase
